import Mathlib

/-!
# Steering and job selection of the sample pusher player

A shallow embedding of `Util.h` (the `Vector2D` helpers and the game constants) and of
`gather.cpp` (`clamp`, `runTo`, `getBehind`, `randomFieldPosition` and the body of the
decision loop of `main`).

The C++ `double` is read as an exact number.  Every definition is written over an
arbitrary linearly ordered field `K`, with the square root passed in as the function
`sqrt`, so the definitions stay executable; the theorems instantiate `K` with `ℝ` and
`sqrt` with `Real.sqrt`.
-/

namespace Gather

/-! ## Util.h -/

/-- Simple 2D point/vector representation (`struct Vector2D`). -/
structure Vector2D (K : Type) where
  x : K
  y : K

/-- Maximum velocity for a pusher. -/
def PUSHER_SPEED_LIMIT (K : Type) [LinearOrderedField K] : K := 6

/-- Maximum acceleration for a pusher. -/
def PUSHER_ACCEL_LIMIT (K : Type) [LinearOrderedField K] : K := 2

/-- Number of pushers per side. -/
def PCOUNT : Nat := 3

/-- Width and height of the world in game units. -/
def FIELD_SIZE : Nat := 100

/-- Radius of the marker. -/
def MARKER_RADIUS : Nat := 2

/-- Colour value of the player's own side (`enum GameColor`). -/
def RED : Int := 0

/-- Colour value of the opposing side. -/
def BLUE : Int := 1

/-- Colour value of a neutral marker. -/
def GREY : Int := 2

namespace Vector2D

variable {K : Type} [LinearOrderedField K]

/-- The magnitude `std::sqrt( x * x + y * y )`. -/
def mag (sqrt : K → K) (v : Vector2D K) : K :=
  sqrt (v.x * v.x + v.y * v.y)

/-- A unit vector pointing in the same direction: both coordinates divided by `mag()`. -/
def norm (sqrt : K → K) (v : Vector2D K) : Vector2D K :=
  let m := mag sqrt v
  ⟨v.x / m, v.y / m⟩

/-- A CCW perpendicular, `( -y, x )`. -/
def perp (v : Vector2D K) : Vector2D K :=
  ⟨-v.y, v.x⟩

/-- The cross product `x * b.y - y * b.x`. -/
def cross (a b : Vector2D K) : K :=
  a.x * b.y - a.y * b.x

/-- A vector in the same direction with magnitude no greater than `d`. -/
def limit (sqrt : K → K) (v : Vector2D K) (d : K) : Vector2D K :=
  let m := mag sqrt v
  if m > d then ⟨d * v.x / m, d * v.y / m⟩ else v

/-- The overload `operator+( Vector2D, Vector2D )`. -/
def add (a b : Vector2D K) : Vector2D K :=
  ⟨a.x + b.x, a.y + b.y⟩

/-- The overload `operator-( Vector2D, Vector2D )`. -/
def sub (a b : Vector2D K) : Vector2D K :=
  ⟨a.x - b.x, a.y - b.y⟩

/-- The overload `operator*( Vector2D, double )`. -/
def scale (a : Vector2D K) (b : K) : Vector2D K :=
  ⟨a.x * b, a.y * b⟩

/-- The overload `operator*( double, Vector2D )`. -/
def lscale (b : K) (a : Vector2D K) : Vector2D K :=
  ⟨b * a.x, b * a.y⟩

/-- The dot product, `operator*( Vector2D, Vector2D )`. -/
def dot (a b : Vector2D K) : K :=
  a.x * b.x + a.y * b.y

end Vector2D

/-! ## gather.cpp: the steering primitives -/

section Steering

variable {K : Type} [LinearOrderedField K]

/-- A copy of `x` constrained to lie between `low` and `high` (two successive tests). -/
def clamp (x low high : K) : K :=
  let x1 := if x < low then low else x
  if x1 > high then high else x1

/-- The force `runTo` stores into its `force` argument. -/
def runToForce (sqrt : K → K) (pos vel target : Vector2D K) : Vector2D K :=
  let direction := ((target.sub pos).norm sqrt)
  let perp := direction.perp
  let force := (Vector2D.lscale (-(perp.dot vel)) perp).limit sqrt (PUSHER_ACCEL_LIMIT K)
  let resForce := PUSHER_ACCEL_LIMIT K - force.mag sqrt
  force.add ((direction.norm sqrt).scale resForce)

/-- The predicted next velocity `nvel` computed inside `runTo`. -/
def runToNvel (sqrt : K → K) (pos vel target : Vector2D K) : Vector2D K :=
  (vel.add (runToForce sqrt pos vel target)).limit sqrt (PUSHER_SPEED_LIMIT K)

/-- The clamped projection parameter `t` computed inside `runTo`. -/
def runToT (sqrt : K → K) (pos vel target : Vector2D K) : K :=
  let nvel := runToNvel sqrt pos vel target
  clamp ((target.sub pos).dot nvel / nvel.dot nvel) 0 1

/-- The function `runTo`: the returned flag together with the force written. -/
def runTo (sqrt : K → K) (pos vel target : Vector2D K) (epsilon : K) : Bool × Vector2D K :=
  let force := runToForce sqrt pos vel target
  let nvel := runToNvel sqrt pos vel target
  let t := runToT sqrt pos vel target
  if (((pos.add (Vector2D.lscale t nvel)).sub target).mag sqrt) < epsilon then (true, force)
  else (false, force)

/-- The default value `0.1` of the `epsilon` parameter of `runTo`. -/
def defaultEpsilon (K : Type) [LinearOrderedField K] : K := 1 / 10

/-- Simple representation for a pusher (`struct Pusher` of gather.cpp): the snapshot
fields `pos`, `vel` and the task state `busy`, `jobTime`, `mdex`, `targetPos`. -/
structure Pusher (K : Type) where
  pos : Vector2D K
  vel : Vector2D K
  busy : Bool
  jobTime : Int
  mdex : Int
  targetPos : Vector2D K

/-- Simple representation for a marker (`struct Marker`). -/
structure Marker (K : Type) where
  pos : Vector2D K
  vel : Vector2D K
  color : Int

/-- The local constant `maxDist` of `getBehind`. -/
def maxDist (K : Type) [LinearOrderedField K] : K := 8

/-- The local constant `minDist` of `getBehind`. -/
def minDist (K : Type) [LinearOrderedField K] : K := 6

/-- The function `getBehind`: the returned flag together with the content of the `force`
argument on return; `force` is the content of that argument on entry. -/
def getBehind (sqrt : K → K) (p : Pusher K) (m : Marker K) (target force : Vector2D K) :
    Bool × Vector2D K :=
  let mToT := (target.sub m.pos).norm sqrt
  let pToM := (m.pos.sub p.pos).norm sqrt
  if mToT.dot pToM > 7 / 10 then (true, force)
  else
    let force1 :=
      if pToM.cross mToT > 0 then pToM.perp.scale (-(PUSHER_ACCEL_LIMIT K))
      else pToM.perp.scale (PUSHER_ACCEL_LIMIT K)
    let dist := (m.pos.sub p.pos).mag sqrt
    let force2 :=
      if dist > maxDist K then force1.add (pToM.scale (dist - maxDist K))
      else if dist < minDist K then force1.sub (pToM.scale (minDist K - dist))
      else
        let inward := p.vel.dot pToM
        force1.sub (pToM.scale inward)
    (false, force2)

end Steering

/-! ## gather.cpp: the decision loop of `main` -/

section Decision

variable {K : Type} [LinearOrderedField K]

/-- The increment of a 32-bit `int`, read in two's complement. -/
def incInt32 (x : Int) : Int :=
  (x + 1 + 2 ^ 31) % 2 ^ 32 - 2 ^ 31

/-- The access `mList[ i ]` for an `int` index: defined only inside the list. -/
def markerAt (mList : List (Marker K)) (i : Int) : Option (Marker K) :=
  if 0 ≤ i then mList[i.toNat]? else none

/-- The local `range` of `randomFieldPosition`, `FIELD_SIZE - MARKER_RADIUS * 2 + 1`. -/
def fieldRange : Nat := FIELD_SIZE - MARKER_RADIUS * 2 + 1

/-- The function `randomFieldPosition`, on the two values `r1`, `r2` returned by its two
calls of `rand()` (the first one is taken for the x coordinate). -/
def randomFieldPosition (r1 r2 : Nat) : Vector2D K :=
  ⟨((MARKER_RADIUS + r1 % fieldRange : Nat) : K), ((MARKER_RADIUS + r2 % fieldRange : Nat) : K)⟩

/-- Lines 217-228 of `main`: the job timer and the job-finished test of a busy pusher. -/
def updateJob (sqrt : K → K) (mList : List (Marker K)) (p : Pusher K) : Option (Pusher K) :=
  if p.busy then
    let p1 := { p with jobTime := incInt32 p.jobTime }
    let p2 := if p1.jobTime ≥ 35 then { p1 with busy := false } else p1
    match markerAt mList p2.mdex with
    | none => none
    | some mk =>
      if (mk.pos.sub p2.targetPos).mag sqrt < 5 then some { p2 with busy := false }
      else some p2
  else some p

/-- The test `j != pdex && pList[ j ].busy && pList[ j ].mdex == mdex` of the teammate loop. -/
def teammateOn (pList : List (Pusher K)) (pdex : Nat) (mdex : Int) (j : Nat) : Option Bool :=
  if j != pdex then
    match pList[j]? with
    | none => none
    | some q => some (q.busy && q.mdex == mdex)
  else some false

/-- The teammate loop of lines 235-240, run over the indices `js`, starting from the
value `avail` of the flag `available`. -/
def availableLoop (pList : List (Pusher K)) (pdex : Nat) (mdex : Int) :
    List Nat → Bool → Option Bool
  | [], avail => some avail
  | j :: js, avail =>
    match teammateOn pList pdex mdex j with
    | none => none
    | some hit => availableLoop pList pdex mdex js (if hit then false else avail)

/-- The flag `available` after the loop `for ( int j = 0; j < PCOUNT; j++ )`. -/
def available (pList : List (Pusher K)) (pdex : Nat) (mdex : Int) : Option Bool :=
  availableLoop pList pdex mdex (List.range PCOUNT) true

/-- Lines 230-258 of `main`: job selection of a pusher that is not busy.  `draws` is the
sequence of values returned by `rand()` and `cur` the number of calls made so far; the
result holds the pusher and the new number of calls. -/
def chooseJob (draws : Nat → Nat) (mList : List (Marker K)) (pList : List (Pusher K))
    (pdex : Nat) (p : Pusher K) (cur : Nat) : Option (Pusher K × Nat) :=
  if !p.busy then
    if mList.length = 0 then none
    else
      let mdex : Int := ((draws cur % mList.length : Nat) : Int)
      match available pList pdex mdex with
      | none => none
      | some false => some (p, cur + 1)
      | some true =>
        match markerAt mList mdex with
        | none => none
        | some mk =>
          if mk.color == RED then
            some ({ p with mdex := mdex
                           targetPos := randomFieldPosition (draws (cur + 1)) (draws (cur + 2))
                           busy := true
                           jobTime := 0 }, cur + 3)
          else
            some ({ p with mdex := mdex
                           targetPos := ⟨10, 10⟩
                           busy := true
                           jobTime := 0 }, cur + 1)
  else some (p, cur)

/-- Lines 260-270 of `main`: the force emitted for a pusher with task state `p`. -/
def chooseForce (sqrt : K → K) (mList : List (Marker K)) (p : Pusher K) :
    Option (Vector2D K) :=
  let force : Vector2D K := ⟨0, 0⟩
  if p.busy then
    match markerAt mList p.mdex with
    | none => none
    | some marker =>
      let r := getBehind sqrt p marker p.targetPos force
      if r.1 then
        some (runTo sqrt p.pos p.vel
          (marker.pos.sub ((p.targetPos.sub marker.pos).norm sqrt)) (defaultEpsilon K)).2
      else some r.2
  else some force

/-- The state carried through the decision loop: the vector `pList` and the number of
calls of `rand()` made so far. -/
structure Control (K : Type) where
  pList : List (Pusher K)
  cur : Nat

/-- One iteration of the loop `for ( int pdex = 0; pdex < PCOUNT; pdex++ )`: the new
control state and the force written to the output. -/
def pusherStep (sqrt : K → K) (draws : Nat → Nat) (mList : List (Marker K))
    (c : Control K) (pdex : Nat) : Option (Control K × Vector2D K) :=
  match c.pList[pdex]? with
  | none => none
  | some p =>
    match updateJob sqrt mList p with
    | none => none
    | some p1 =>
      match chooseJob draws mList (c.pList.set pdex p1) pdex p1 c.cur with
      | none => none
      | some (p2, cur2) =>
        match chooseForce sqrt mList p2 with
        | none => none
        | some force => some (⟨c.pList.set pdex p2, cur2⟩, force)

/-- The decision loop run over the pusher indices `ps`, collecting the emitted forces. -/
def decideLoop (sqrt : K → K) (draws : Nat → Nat) (mList : List (Marker K)) :
    List Nat → Control K → Option (Control K × List (Vector2D K))
  | [], c => some (c, [])
  | pdex :: ps, c =>
    match pusherStep sqrt draws mList c pdex with
    | none => none
    | some (c1, force) =>
      match decideLoop sqrt draws mList ps c1 with
      | none => none
      | some (c2, forces) => some (c2, force :: forces)

/-- The pusher part of a turn snapshot: position and velocity are overwritten for the
pushers in order, the task state is kept. -/
def readPushers : List (Vector2D K × Vector2D K) → List (Pusher K) → List (Pusher K)
  | pv :: snap, p :: ps => { p with pos := pv.1, vel := pv.2 } :: readPushers snap ps
  | _, ps => ps

/-- One turn of the `while` loop of `main`: the snapshot (`snap` for the pushers, `mList`
for the markers) is read, then the decision loop runs for the pushers `0 .. PCOUNT-1`. -/
def tick (sqrt : K → K) (draws : Nat → Nat) (snap : List (Vector2D K × Vector2D K))
    (mList : List (Marker K)) (c : Control K) : Option (Control K × List (Vector2D K)) :=
  decideLoop sqrt draws mList (List.range PCOUNT) ⟨readPushers snap c.pList, c.cur⟩

/-- The state before the first turn: `2 * PCOUNT` pushers built by `Pusher()`, which
only sets `busy = false`; the other fields are whatever `init` holds. -/
def initialControl (init : Nat → Pusher K) : Control K :=
  ⟨(List.range (2 * PCOUNT)).map fun i => { init i with busy := false }, 0⟩

/-- The job of a busy pusher refers to a marker of the list. -/
def JobInRange (mList : List (Marker K)) (q : Pusher K) : Prop :=
  q.busy = true → 0 ≤ q.mdex ∧ q.mdex < (mList.length : Int)

/-- The states on which the decision loop dereferences nothing outside its vectors:
`pList` has its `2 * PCOUNT` entries, there is at least one marker, and the job of every
busy own pusher refers to a marker of the list. -/
def WellFormed (mList : List (Marker K)) (c : Control K) : Prop :=
  c.pList.length = 2 * PCOUNT ∧ mList ≠ [] ∧
    ∀ j, j < PCOUNT → ∀ q, c.pList[j]? = some q → JobInRange mList q

/-- The `while` loop of `main` over the successive turn snapshots (pusher part and
marker list of each turn); the forces written are dropped. -/
def runTurns (sqrt : K → K) (draws : Nat → Nat) :
    List (List (Vector2D K × Vector2D K) × List (Marker K)) → Control K → Option (Control K)
  | [], c => some c
  | turn :: rest, c =>
    match tick sqrt draws turn.1 turn.2 c with
    | none => none
    | some (c1, _) => runTurns sqrt draws rest c1

/-- No two distinct own pushers are busy with the same marker index. -/
def DistinctJobs (c : Control K) : Prop :=
  ∀ i j, i < PCOUNT → j < PCOUNT → i ≠ j → ∀ pi pj, c.pList[i]? = some pi →
    c.pList[j]? = some pj → pi.busy = true → pj.busy = true → pi.mdex ≠ pj.mdex

end Decision

/-! ## Facts about the vector helpers over the real numbers -/

section RealFacts

open Vector2D

theorem vec_eq_iff (a b : Vector2D ℝ) : a = b ↔ a.x = b.x ∧ a.y = b.y := by
  cases a; cases b; simp

theorem mag_nonneg (v : Vector2D ℝ) : 0 ≤ v.mag Real.sqrt :=
  Real.sqrt_nonneg _

theorem mag_mul_self (v : Vector2D ℝ) :
    v.mag Real.sqrt * v.mag Real.sqrt = v.x * v.x + v.y * v.y :=
  Real.mul_self_sqrt (by nlinarith [mul_self_nonneg v.x, mul_self_nonneg v.y])

theorem sq_sum_pos_of_ne {a b : Vector2D ℝ} (h : a ≠ b) :
    0 < (a.sub b).x * (a.sub b).x + (a.sub b).y * (a.sub b).y := by
  have hne : a.x - b.x ≠ 0 ∨ a.y - b.y ≠ 0 := by
    by_contra hc
    push_neg at hc
    exact h ((vec_eq_iff a b).2 ⟨by linarith [hc.1], by linarith [hc.2]⟩)
  simp only [Vector2D.sub]
  rcases hne with h1 | h1
  · nlinarith [mul_self_pos.2 h1, mul_self_nonneg (a.y - b.y)]
  · nlinarith [mul_self_pos.2 h1, mul_self_nonneg (a.x - b.x)]

theorem mag_pos_of_ne {a b : Vector2D ℝ} (h : a ≠ b) : 0 < (a.sub b).mag Real.sqrt :=
  Real.sqrt_pos.2 (sq_sum_pos_of_ne h)

/-- Over the reals `norm()` of a non-zero difference is a unit vector. -/
theorem norm_unit {a b : Vector2D ℝ} (h : a ≠ b) :
    ((a.sub b).norm Real.sqrt).x * ((a.sub b).norm Real.sqrt).x
      + ((a.sub b).norm Real.sqrt).y * ((a.sub b).norm Real.sqrt).y = 1 := by
  have hm := mag_pos_of_ne h
  have hs := mag_mul_self (a.sub b)
  simp only [Vector2D.norm]
  field_simp
  linarith

theorem mag_of_unit {u : Vector2D ℝ} (hu : u.x * u.x + u.y * u.y = 1) :
    u.mag Real.sqrt = 1 := by
  simp [Vector2D.mag, hu]

theorem norm_of_unit {u : Vector2D ℝ} (hu : u.x * u.x + u.y * u.y = 1) :
    u.norm Real.sqrt = u := by
  simp [Vector2D.norm, mag_of_unit hu]

/-- The value of `clamp` spelled out by cases. -/
theorem clamp_sym (a c : ℝ) (hc : 0 ≤ c) :
    clamp a (-c) c = if a < -c then -c else if c < a then c else a := by
  unfold clamp
  by_cases h1 : a < -c
  · have : ¬ (-c > c) := by simp only [gt_iff_lt, not_lt]; linarith
    simp [h1, this]
  · simp [h1]

theorem abs_clamp_sym (a c : ℝ) (hc : 0 ≤ c) : |clamp a (-c) c| = min |a| c := by
  rw [clamp_sym a c hc]
  by_cases h1 : a < -c
  · rw [if_pos h1, abs_neg, abs_of_nonneg hc, min_eq_right]
    rw [abs_of_neg (by linarith)]; linarith
  · rw [if_neg h1]
    by_cases h2 : c < a
    · rw [if_pos h2, abs_of_nonneg hc, min_eq_right]
      rw [abs_of_pos (by linarith)]; linarith
    · rw [if_neg h2, min_eq_left]
      exact abs_le.2 ⟨by linarith, by linarith⟩

/-- The force of `runTo` in the orthonormal frame `d = (target - pos).norm()`, `d.perp()`:
`b` along `d.perp()` and `PUSHER_ACCEL_LIMIT - |b|` along `d`, where `b` is the clamped
lateral speed. -/
theorem runToForce_frame (pos vel target : Vector2D ℝ) (h : target ≠ pos) :
    let d := (target.sub pos).norm Real.sqrt
    let b := clamp (-(d.perp.dot vel)) (-2) 2
    runToForce Real.sqrt pos vel target
      = ⟨b * (-d.y) + d.x * (2 - |b|), b * d.x + d.y * (2 - |b|)⟩ := by
  intro d b
  have hu : d.x * d.x + d.y * d.y = 1 := norm_unit h
  have hmag : ∀ a : ℝ, (Vector2D.lscale a d.perp).mag Real.sqrt = |a| := by
    intro a
    simp only [Vector2D.mag, Vector2D.lscale, Vector2D.perp]
    rw [← Real.sqrt_mul_self_eq_abs]
    congr 1
    nlinarith [hu]
  have hb : b = clamp (-(d.perp.dot vel)) (-2) 2 := rfl
  rw [clamp_sym _ 2 (by norm_num)] at hb
  unfold runToForce
  simp only [PUSHER_ACCEL_LIMIT]
  rw [norm_of_unit hu]
  change (((Vector2D.lscale (-(d.perp.dot vel)) d.perp).limit Real.sqrt 2).add
    (d.scale (2 - ((Vector2D.lscale (-(d.perp.dot vel)) d.perp).limit Real.sqrt 2).mag Real.sqrt))) = _
  generalize -(d.perp.dot vel) = a at hb ⊢
  have ha := hmag a
  unfold Vector2D.limit
  simp only [ha]
  by_cases h2 : |a| > 2
  · have hapos : 0 < |a| := by linarith
    have hmag2 : (⟨2 * (Vector2D.lscale a d.perp).x / |a|,
        2 * (Vector2D.lscale a d.perp).y / |a|⟩ : Vector2D ℝ).mag Real.sqrt = 2 := by
      simp only [Vector2D.mag, Vector2D.lscale, Vector2D.perp]
      have : (2 * (a * -d.y) / |a|) * (2 * (a * -d.y) / |a|)
          + (2 * (a * d.x) / |a|) * (2 * (a * d.x) / |a|) = 2 * 2 := by
        have hne : |a| * |a| ≠ 0 := by positivity
        have h3 : |a| * |a| = a * a := abs_mul_abs_self a
        rw [div_mul_div_comm, div_mul_div_comm, ← add_div, div_eq_iff hne, h3]
        linear_combination (4 * a * a) * hu
      rw [this]
      exact Real.sqrt_mul_self (by norm_num)
    rw [if_pos h2, hmag2]
    by_cases h1 : a < -2
    · rw [if_pos h1] at hb
      have habs : |a| = -a := abs_of_neg (by linarith)
      rw [vec_eq_iff]
      simp only [Vector2D.add, Vector2D.scale, Vector2D.lscale, Vector2D.perp, hb, habs]
      have hane : a ≠ 0 := by linarith
      have e : ∀ z : ℝ, 2 * (a * z) / a = 2 * z := fun z => by
        rw [div_eq_iff hane]; ring
      have e2 : ∀ z : ℝ, 2 * (a * z) / -a = -(2 * z) := fun z => by
        rw [div_eq_iff (neg_ne_zero.2 hane)]; ring
      have a2 : |(2 : ℝ)| = 2 := abs_of_pos (by norm_num)
      constructor <;> simp only [e, e2, abs_neg, a2] <;> ring_nf
    · rw [if_neg h1] at hb
      have h3 : 2 < a := by
        by_contra hc
        have : |a| ≤ 2 := abs_le.2 ⟨by linarith, by linarith⟩
        linarith
      rw [if_pos h3] at hb
      have habs : |a| = a := abs_of_pos (by linarith)
      rw [vec_eq_iff]
      simp only [Vector2D.add, Vector2D.scale, Vector2D.lscale, Vector2D.perp, hb, habs]
      have hane : a ≠ 0 := by linarith
      have e : ∀ z : ℝ, 2 * (a * z) / a = 2 * z := fun z => by
        rw [div_eq_iff hane]; ring
      have e2 : ∀ z : ℝ, 2 * (a * z) / -a = -(2 * z) := fun z => by
        rw [div_eq_iff (neg_ne_zero.2 hane)]; ring
      have a2 : |(2 : ℝ)| = 2 := abs_of_pos (by norm_num)
      constructor <;> simp only [e, e2, abs_neg, a2]
  · rw [if_neg h2, ha]
    have h2le : |a| ≤ 2 := not_lt.1 h2
    have hle := abs_le.1 h2le
    rw [if_neg (by linarith [hle.1]), if_neg (by linarith [hle.2])] at hb
    rw [vec_eq_iff]
    simp only [Vector2D.add, Vector2D.scale, Vector2D.lscale, Vector2D.perp, hb]
    constructor <;> ring_nf

theorem runTo_snd (pos vel target : Vector2D ℝ) (epsilon : ℝ) :
    (runTo Real.sqrt pos vel target epsilon).2 = runToForce Real.sqrt pos vel target := by
  unfold runTo
  dsimp only
  split <;> rfl

theorem dot_comm (a b : Vector2D ℝ) : a.dot b = b.dot a := by
  simp only [Vector2D.dot]; ring

/-- The lateral coefficient of the force of `runTo` is at most the acceleration limit. -/
theorem abs_lateral_le (a : ℝ) : |clamp a (-2) 2| ≤ 2 := by
  rw [abs_clamp_sym a 2 (by norm_num)]
  exact min_le_right _ _

theorem runToForce_mag_le (pos vel target : Vector2D ℝ) (h : target ≠ pos) :
    (runToForce Real.sqrt pos vel target).mag Real.sqrt ≤ 2 := by
  have hu : ((target.sub pos).norm Real.sqrt).x * ((target.sub pos).norm Real.sqrt).x
      + ((target.sub pos).norm Real.sqrt).y * ((target.sub pos).norm Real.sqrt).y = 1 :=
    norm_unit h
  have hf := runToForce_frame pos vel target h
  dsimp only at hf
  rw [hf]
  generalize (target.sub pos).norm Real.sqrt = d at hu
  have hb := abs_lateral_le (-(d.perp.dot vel))
  generalize clamp (-(d.perp.dot vel)) (-2) 2 = b at hb
  have hc : b * b = |b| * |b| := (abs_mul_abs_self b).symm
  have h0 : 0 ≤ |b| := abs_nonneg b
  refine Real.sqrt_le_iff.2 ⟨by norm_num, ?_⟩
  have key : (b * -d.y + d.x * (2 - |b|)) * (b * -d.y + d.x * (2 - |b|))
      + (b * d.x + d.y * (2 - |b|)) * (b * d.x + d.y * (2 - |b|))
      = (b * b + (2 - |b|) * (2 - |b|)) * (d.x * d.x + d.y * d.y) := by ring
  rw [key, hu, hc]
  nlinarith

theorem sqrt_concrete (a : ℝ) (ha : 0 ≤ a) : Real.sqrt (a * a + 0 * 0) = a := by
  rw [mul_zero, add_zero]
  exact Real.sqrt_mul_self ha

end RealFacts

/-! ## The force of `runTo` -/

section RunTo

open Vector2D

/-- C1: for every position, velocity and target with `target != pos`, and every
`epsilon`, the force written by `runTo` has magnitude at most `PUSHER_ACCEL_LIMIT`. -/
theorem runTo_force_mag_le_accel_limit (pos vel target : Vector2D ℝ) (epsilon : ℝ)
    (h : target ≠ pos) :
    ((runTo Real.sqrt pos vel target epsilon).2).mag Real.sqrt ≤ PUSHER_ACCEL_LIMIT ℝ := by
  rw [runTo_snd]
  exact runToForce_mag_le pos vel target h

theorem runTo_force_mag_le_accel_limit_witness :
    (⟨3, 4⟩ : Vector2D ℝ) ≠ ⟨0, 0⟩ ∧
      ((runTo Real.sqrt ⟨0, 0⟩ ⟨5, -7⟩ ⟨3, 4⟩ (1 / 10)).2).mag Real.sqrt
        ≤ PUSHER_ACCEL_LIMIT ℝ :=
  ⟨by simp [vec_eq_iff],
    runTo_force_mag_le_accel_limit ⟨0, 0⟩ ⟨5, -7⟩ ⟨3, 4⟩ (1 / 10) (by simp [vec_eq_iff])⟩

/-- C2: with `d = (target - pos).norm()` and `q = d.perp()`, the force written by `runTo`
has component `-(vel . q)` clamped to `[-PUSHER_ACCEL_LIMIT, PUSHER_ACCEL_LIMIT]` along `q`
and component `PUSHER_ACCEL_LIMIT - min(|vel . q|, PUSHER_ACCEL_LIMIT) >= 0` along `d`;
when `|vel . q| <= PUSHER_ACCEL_LIMIT` the velocity `vel + force` has no component along
`q`, and when `vel . q = 0` the force is `PUSHER_ACCEL_LIMIT * d`. -/
theorem runTo_force_components (pos vel target : Vector2D ℝ) (epsilon : ℝ)
    (h : target ≠ pos) :
    let d := (target.sub pos).norm Real.sqrt
    let q := d.perp
    let force := (runTo Real.sqrt pos vel target epsilon).2
    force.dot q = clamp (-(vel.dot q)) (-(PUSHER_ACCEL_LIMIT ℝ)) (PUSHER_ACCEL_LIMIT ℝ) ∧
    force.dot d = PUSHER_ACCEL_LIMIT ℝ - min |vel.dot q| (PUSHER_ACCEL_LIMIT ℝ) ∧
    0 ≤ force.dot d ∧
    (|vel.dot q| ≤ PUSHER_ACCEL_LIMIT ℝ → (vel.add force).dot q = 0) ∧
    (vel.dot q = 0 → force = Vector2D.lscale (PUSHER_ACCEL_LIMIT ℝ) d) := by
  intro d q force
  have hu : d.x * d.x + d.y * d.y = 1 := norm_unit h
  have hf : force = _ := (runTo_snd pos vel target epsilon).trans
    (runToForce_frame pos vel target h)
  have hq : d.perp.dot vel = vel.dot q := dot_comm _ _
  simp only [hq] at hf
  simp only [PUSHER_ACCEL_LIMIT]
  have habs := abs_clamp_sym (-(vel.dot q)) 2 (by norm_num)
  rw [abs_neg] at habs
  generalize hb : clamp (-(vel.dot q)) (-2) 2 = b at hf habs
  have e1 : force.dot q = b := by
    rw [hf]
    simp only [Vector2D.dot, q, Vector2D.perp]
    linear_combination b * hu
  have e2 : force.dot d = 2 - |b| := by
    rw [hf]
    simp only [Vector2D.dot]
    linear_combination (2 - |b|) * hu
  refine ⟨e1, ?_, ?_, ?_, ?_⟩
  · rw [e2, habs]
  · rw [e2, habs]
    linarith [min_le_right |vel.dot q| 2]
  · intro hle
    have hle2 := abs_le.1 hle
    have hbv : b = -(vel.dot q) := by
      rw [← hb, clamp_sym _ 2 (by norm_num), if_neg (by linarith [hle2.2]),
        if_neg (by linarith [hle2.1])]
    have : (vel.add force).dot q = vel.dot q + force.dot q := by
      simp only [Vector2D.dot, Vector2D.add]; ring
    rw [this, e1, hbv]; ring
  · intro hz
    have hbz : b = 0 := by
      rw [← hb, hz, clamp_sym _ 2 (by norm_num)]
      norm_num
    rw [hf, hbz, vec_eq_iff]
    simp [Vector2D.lscale, mul_comm]

theorem runTo_force_components_witness :
    (⟨10, 0⟩ : Vector2D ℝ) ≠ ⟨0, 0⟩ ∧
      (runTo Real.sqrt ⟨0, 0⟩ ⟨0, 0⟩ ⟨10, 0⟩ (1 / 10)).2 = (⟨2, 0⟩ : Vector2D ℝ) := by
  have hne : (⟨10, 0⟩ : Vector2D ℝ) ≠ ⟨0, 0⟩ := by simp [vec_eq_iff]
  refine ⟨hne, ?_⟩
  have h := (runTo_force_components ⟨0, 0⟩ ⟨0, 0⟩ ⟨10, 0⟩ (1 / 10) hne).2.2.2.2
  rw [h (by simp [Vector2D.dot])]
  have hs : Real.sqrt (10 * 10 + 0 * 0) = 10 := sqrt_concrete 10 (by norm_num)
  simp [Vector2D.lscale, Vector2D.norm, Vector2D.mag, Vector2D.sub, PUSHER_ACCEL_LIMIT, hs]

/-- The squared distance from `target` to the point `pos + t * v`. -/
theorem sqdist_expand (pos target v : Vector2D ℝ) (t : ℝ) :
    let e := (pos.add (Vector2D.lscale t v)).sub target
    e.x * e.x + e.y * e.y
      = t * t * v.dot v - 2 * t * (target.sub pos).dot v
        + (target.sub pos).dot (target.sub pos) := by
  simp only [Vector2D.add, Vector2D.sub, Vector2D.lscale, Vector2D.dot]
  ring

theorem clamp_unit_mem (x : ℝ) : 0 ≤ clamp x 0 1 ∧ clamp x 0 1 ≤ 1 := by
  unfold clamp
  dsimp only
  split_ifs <;> constructor <;> linarith

/-- The clamped projection parameter minimises the distance over the segment. -/
theorem clamp_projection_closest (pos target v : Vector2D ℝ) (hv : 0 < v.dot v)
    (t : ℝ) (ht0 : 0 ≤ t) (ht1 : t ≤ 1) :
    ((pos.add (Vector2D.lscale (clamp ((target.sub pos).dot v / v.dot v) 0 1) v)).sub
        target).mag Real.sqrt
      ≤ ((pos.add (Vector2D.lscale t v)).sub target).mag Real.sqrt := by
  unfold Vector2D.mag
  apply Real.sqrt_le_sqrt
  have h1 := sqdist_expand pos target v t
  have h2 := sqdist_expand pos target v (clamp ((target.sub pos).dot v / v.dot v) 0 1)
  dsimp only at h1 h2
  rw [h1, h2]
  generalize (target.sub pos).dot v = W
  generalize (target.sub pos).dot (target.sub pos) = C
  generalize v.dot v = V at hv
  have hV : V ≠ 0 := ne_of_gt hv
  unfold clamp
  dsimp only
  by_cases hneg : W / V < 0
  · have hW : W < 0 := by
      have := (div_lt_iff₀ hv).1 hneg
      linarith
    rw [if_pos hneg, if_neg (by norm_num)]
    nlinarith [mul_nonneg ht0 (le_of_lt hv), mul_nonneg ht0 (le_of_lt (neg_pos.2 hW)),
      mul_nonneg (mul_nonneg ht0 ht0) (le_of_lt hv)]
  · rw [if_neg hneg]
    by_cases hbig : W / V > 1
    · have hW : V < W := by
        have := (lt_div_iff₀ hv).1 hbig
        linarith
      rw [if_pos hbig]
      have e1 : 0 ≤ (1 - t) * (W - V) := mul_nonneg (by linarith) (by linarith)
      have e2 : 0 ≤ (1 - t) * ((1 - t) * V) :=
        mul_nonneg (by linarith) (mul_nonneg (by linarith) (le_of_lt hv))
      nlinarith
    · rw [if_neg hbig]
      have hWV : W = W / V * V := by field_simp
      generalize W / V = s at hWV
      subst hWV
      nlinarith [mul_nonneg (mul_self_nonneg (t - s)) (le_of_lt hv)]

theorem dot_self_pos_of_ne_zero {v : Vector2D ℝ} (h : v ≠ ⟨0, 0⟩) : 0 < v.dot v := by
  have := sq_sum_pos_of_ne h
  simpa [Vector2D.sub, Vector2D.dot] using this

/-- C3: when the predicted next velocity `nvel` is not zero, `runTo` returns true exactly
when the distance from `target` to the segment `pos + t * nvel`, `0 <= t <= 1`, is
strictly less than `epsilon`: the distance at the clamped projection parameter of the
code is the least distance over the segment. -/
theorem runTo_true_iff_segment_within_epsilon (pos vel target : Vector2D ℝ) (epsilon : ℝ)
    (h : target ≠ pos) (hn : runToNvel Real.sqrt pos vel target ≠ ⟨0, 0⟩) :
    let nvel := runToNvel Real.sqrt pos vel target
    let distAt : ℝ → ℝ :=
      fun t => ((pos.add (Vector2D.lscale t nvel)).sub target).mag Real.sqrt
    IsLeast (Set.image distAt (Set.Icc 0 1)) (distAt (runToT Real.sqrt pos vel target)) ∧
    ((runTo Real.sqrt pos vel target epsilon).1 = true ↔
      distAt (runToT Real.sqrt pos vel target) < epsilon) := by
  intro nvel distAt
  have _hp := mag_pos_of_ne h
  have hv : 0 < nvel.dot nvel := dot_self_pos_of_ne_zero hn
  refine ⟨⟨?_, ?_⟩, ?_⟩
  · exact ⟨runToT Real.sqrt pos vel target, clamp_unit_mem _, rfl⟩
  · rintro m ⟨t, ⟨ht0, ht1⟩, rfl⟩
    exact clamp_projection_closest pos target nvel hv t ht0 ht1
  · unfold runTo
    dsimp only
    split
    · next hlt => simpa using hlt
    · next hlt => simpa using hlt

theorem runToForce_example :
    runToForce Real.sqrt ⟨0, 0⟩ ⟨0, 0⟩ ⟨10, 0⟩ = (⟨2, 0⟩ : Vector2D ℝ) := by
  have hne : (⟨10, 0⟩ : Vector2D ℝ) ≠ ⟨0, 0⟩ := by simp [vec_eq_iff]
  have hf := runToForce_frame ⟨0, 0⟩ ⟨0, 0⟩ ⟨10, 0⟩ hne
  have hs : Real.sqrt (10 * 10 + 0 * 0) = 10 := sqrt_concrete 10 (by norm_num)
  rw [hf]
  simp [Vector2D.norm, Vector2D.mag, Vector2D.sub, Vector2D.perp, Vector2D.dot, hs, clamp]
  norm_num

theorem runToNvel_example :
    runToNvel Real.sqrt ⟨0, 0⟩ ⟨0, 0⟩ ⟨10, 0⟩ = (⟨2, 0⟩ : Vector2D ℝ) := by
  have hs : Real.sqrt (2 * 2 + 0 * 0) = 2 := sqrt_concrete 2 (by norm_num)
  unfold runToNvel
  rw [runToForce_example]
  simp only [Vector2D.limit, Vector2D.add, Vector2D.mag, PUSHER_SPEED_LIMIT, zero_add, hs]
  rw [if_neg (by norm_num)]

theorem runTo_true_iff_segment_within_epsilon_witness :
    (⟨10, 0⟩ : Vector2D ℝ) ≠ ⟨0, 0⟩ ∧
      runToNvel Real.sqrt ⟨0, 0⟩ ⟨0, 0⟩ ⟨10, 0⟩ ≠ (⟨0, 0⟩ : Vector2D ℝ) ∧
      ((runTo Real.sqrt ⟨0, 0⟩ ⟨0, 0⟩ ⟨10, 0⟩ (1 / 10)).1 = true ↔
        (((⟨0, 0⟩ : Vector2D ℝ).add (Vector2D.lscale
            (runToT Real.sqrt ⟨0, 0⟩ ⟨0, 0⟩ ⟨10, 0⟩)
            (runToNvel Real.sqrt ⟨0, 0⟩ ⟨0, 0⟩ ⟨10, 0⟩))).sub ⟨10, 0⟩).mag Real.sqrt
          < 1 / 10) := by
  have hne : (⟨10, 0⟩ : Vector2D ℝ) ≠ ⟨0, 0⟩ := by simp [vec_eq_iff]
  have hnv : runToNvel Real.sqrt ⟨0, 0⟩ ⟨0, 0⟩ ⟨10, 0⟩ ≠ (⟨0, 0⟩ : Vector2D ℝ) := by
    rw [runToNvel_example]; simp [vec_eq_iff]
  exact ⟨hne, hnv,
    (runTo_true_iff_segment_within_epsilon ⟨0, 0⟩ ⟨0, 0⟩ ⟨10, 0⟩ (1 / 10) hne hnv).2⟩

end RunTo

/-! ## The force of `getBehind` -/

section GetBehind

open Vector2D

theorem mag_axis_x (a : ℝ) : (⟨a, 0⟩ : Vector2D ℝ).mag Real.sqrt = |a| := by
  simp only [Vector2D.mag, mul_zero, add_zero]
  exact Real.sqrt_mul_self_eq_abs a

theorem mag_axis_y (a : ℝ) : (⟨0, a⟩ : Vector2D ℝ).mag Real.sqrt = |a| := by
  simp only [Vector2D.mag, mul_zero, zero_add]
  exact Real.sqrt_mul_self_eq_abs a

theorem norm_axis_x (a : ℝ) : (⟨a, 0⟩ : Vector2D ℝ).norm Real.sqrt = ⟨a / |a|, 0⟩ := by
  simp only [Vector2D.norm, mag_axis_x, zero_div]

theorem norm_axis_y (a : ℝ) : (⟨0, a⟩ : Vector2D ℝ).norm Real.sqrt = ⟨0, a / |a|⟩ := by
  simp only [Vector2D.norm, mag_axis_y, zero_div]

/-- The force written by `getBehind` when it returns false, in coordinates: `s` along
`pToM.perp()` and `r` along `pToM`. -/
theorem getBehind_false_form (p : Pusher ℝ) (m : Marker ℝ) (target force : Vector2D ℝ)
    (hf : (getBehind Real.sqrt p m target force).1 = false) :
    let u := (m.pos.sub p.pos).norm Real.sqrt
    let c := u.cross ((target.sub m.pos).norm Real.sqrt)
    let dist := (m.pos.sub p.pos).mag Real.sqrt
    let s : ℝ := if c > 0 then -2 else 2
    let r : ℝ :=
      if dist > 8 then dist - 8 else if dist < 6 then -(6 - dist) else -(p.vel.dot u)
    (getBehind Real.sqrt p m target force).2
      = ⟨-u.y * s + u.x * r, u.x * s + u.y * r⟩ := by
  intro u c dist s r
  unfold getBehind at hf ⊢
  dsimp only at hf ⊢
  by_cases hd : ((target.sub m.pos).norm Real.sqrt).dot ((m.pos.sub p.pos).norm Real.sqrt)
      > 7 / 10
  · rw [if_pos hd] at hf
    exact absurd hf (by simp)
  · rw [if_neg hd]
    simp only [PUSHER_ACCEL_LIMIT, maxDist, minDist, s, r, c, dist, u]
    rw [vec_eq_iff]
    split_ifs <;>
      simp only [Vector2D.add, Vector2D.sub, Vector2D.scale, Vector2D.perp] <;>
      constructor <;> ring_nf

theorem getBehind_fst_iff (p : Pusher ℝ) (m : Marker ℝ) (target force : Vector2D ℝ) :
    (getBehind Real.sqrt p m target force).1 = true ↔
      ((target.sub m.pos).norm Real.sqrt).dot ((m.pos.sub p.pos).norm Real.sqrt)
        > 7 / 10 := by
  unfold getBehind
  dsimp only
  split
  · next hd => simpa using hd
  · next hd => simpa using hd

/-- C4: for `p.pos != m.pos` and `target != m.pos` the two directions compared by
`getBehind` are unit vectors, `getBehind` returns true exactly when their dot product is
strictly greater than 0.7, and whenever it returns true the `force` argument is left as
the caller passed it. -/
theorem getBehind_true_iff_dot_gt (p : Pusher ℝ) (m : Marker ℝ)
    (target force : Vector2D ℝ) (hp : p.pos ≠ m.pos) (ht : target ≠ m.pos) :
    ((target.sub m.pos).norm Real.sqrt).mag Real.sqrt = 1 ∧
    ((m.pos.sub p.pos).norm Real.sqrt).mag Real.sqrt = 1 ∧
    ((getBehind Real.sqrt p m target force).1 = true ↔
      ((target.sub m.pos).norm Real.sqrt).dot ((m.pos.sub p.pos).norm Real.sqrt)
        > 7 / 10) ∧
    ((getBehind Real.sqrt p m target force).1 = true →
      (getBehind Real.sqrt p m target force).2 = force) := by
  refine ⟨mag_of_unit (norm_unit ht), mag_of_unit (norm_unit (Ne.symm hp)),
    getBehind_fst_iff p m target force, ?_⟩
  intro hb
  unfold getBehind at hb ⊢
  dsimp only at hb ⊢
  split
  · rfl
  · next hd =>
    rw [if_neg hd] at hb
    exact absurd hb (by simp)

theorem getBehind_true_iff_dot_gt_witness :
    (⟨0, 0⟩ : Vector2D ℝ) ≠ ⟨5, 0⟩ ∧ (⟨6, 0⟩ : Vector2D ℝ) ≠ ⟨5, 0⟩ ∧
      ((⟨6, 0⟩ : Vector2D ℝ).sub ⟨5, 0⟩).norm Real.sqrt = ⟨1, 0⟩ ∧
      ((⟨5, 0⟩ : Vector2D ℝ).sub ⟨0, 0⟩).norm Real.sqrt = ⟨1, 0⟩ ∧
      getBehind Real.sqrt ⟨⟨0, 0⟩, ⟨1, 2⟩, true, 0, 0, ⟨6, 0⟩⟩ ⟨⟨5, 0⟩, ⟨0, 0⟩, 1⟩
        ⟨6, 0⟩ ⟨3, 4⟩ = (true, (⟨3, 4⟩ : Vector2D ℝ)) := by
  have h1 : (⟨0, 0⟩ : Vector2D ℝ) ≠ ⟨5, 0⟩ := by simp [vec_eq_iff]
  have h2 : (⟨6, 0⟩ : Vector2D ℝ) ≠ ⟨5, 0⟩ := by simp [vec_eq_iff]
  have n1 : ((⟨6, 0⟩ : Vector2D ℝ).sub ⟨5, 0⟩).norm Real.sqrt = ⟨1, 0⟩ := by
    norm_num [Vector2D.sub, norm_axis_x]
  have n2 : ((⟨5, 0⟩ : Vector2D ℝ).sub ⟨0, 0⟩).norm Real.sqrt = ⟨1, 0⟩ := by
    norm_num [Vector2D.sub, norm_axis_x]
  have h := getBehind_true_iff_dot_gt ⟨⟨0, 0⟩, ⟨1, 2⟩, true, 0, 0, ⟨6, 0⟩⟩
    ⟨⟨5, 0⟩, ⟨0, 0⟩, 1⟩ ⟨6, 0⟩ ⟨3, 4⟩ h1 h2
  have hb := h.2.2.1.2 (by rw [n1, n2]; norm_num [Vector2D.dot])
  exact ⟨h1, h2, n1, n2, Prod.ext hb (h.2.2.2 hb)⟩

/-- C5: on every input on which `getBehind` returns false, with `u = (m.pos - p.pos).norm()`
and `dist = |m.pos - p.pos|`, the force written is `s * PUSHER_ACCEL_LIMIT * u.perp() + r * u`
with `s` equal to `+1` or `-1` and `r = dist - 8 > 0` if `dist > 8`, `r = -(6 - dist) < 0`
if `dist < 6`, and `r = -(p.vel . u)` in the band, where `p.vel + force` has no component
along `u`; the tangential component has magnitude `PUSHER_ACCEL_LIMIT`, the radial one is
`r`, and the squared magnitude of the force is `PUSHER_ACCEL_LIMIT^2 + r^2`. -/
theorem getBehind_false_force_decomposition (p : Pusher ℝ) (m : Marker ℝ)
    (target force : Vector2D ℝ) (hp : p.pos ≠ m.pos) (ht : target ≠ m.pos)
    (hf : (getBehind Real.sqrt p m target force).1 = false) :
    let u := (m.pos.sub p.pos).norm Real.sqrt
    let dist := (m.pos.sub p.pos).mag Real.sqrt
    let r : ℝ :=
      if dist > 8 then dist - 8 else if dist < 6 then -(6 - dist) else -(p.vel.dot u)
    let out := (getBehind Real.sqrt p m target force).2
    (∃ s : ℝ, (s = 1 ∨ s = -1) ∧
      out = (Vector2D.lscale (s * PUSHER_ACCEL_LIMIT ℝ) u.perp).add (Vector2D.lscale r u)) ∧
    (dist > 8 → 0 < r) ∧ (dist < 6 → r < 0) ∧
    (6 ≤ dist → dist ≤ 8 → (p.vel.add out).dot u = 0) ∧
    |out.dot u.perp| = PUSHER_ACCEL_LIMIT ℝ ∧
    out.dot u = r ∧
    out.x * out.x + out.y * out.y = PUSHER_ACCEL_LIMIT ℝ ^ 2 + r ^ 2 := by
  intro u dist r out
  have _hmT := mag_pos_of_ne ht
  have hu : u.x * u.x + u.y * u.y = 1 := norm_unit (Ne.symm hp)
  have hform : out = _ := getBehind_false_form p m target force hf
  change out = ⟨-u.y * _ + u.x * r, u.x * _ + u.y * r⟩ at hform
  simp only [PUSHER_ACCEL_LIMIT]
  generalize hs : (if u.cross ((target.sub m.pos).norm Real.sqrt) > 0 then (-2 : ℝ) else 2)
    = s2 at hform
  have hs2 : s2 = 2 ∨ s2 = -2 := by
    rw [← hs]; split_ifs <;> simp
  have hrad : out.dot u = r := by
    rw [hform]; simp only [Vector2D.dot]
    linear_combination r * hu
  have htan : out.dot u.perp = s2 := by
    rw [hform]; simp only [Vector2D.dot, Vector2D.perp]
    linear_combination s2 * hu
  refine ⟨⟨s2 / 2, ?_, ?_⟩, ?_, ?_, ?_, ?_, hrad, ?_⟩
  · rcases hs2 with h | h <;> rw [h] <;> norm_num
  · rw [hform, vec_eq_iff]
    simp only [Vector2D.add, Vector2D.lscale, Vector2D.perp]
    constructor <;> ring
  · intro hgt
    simp only [r, if_pos hgt]
    linarith
  · intro hlt
    have : ¬ dist > 8 := by simp only [gt_iff_lt, not_lt]; linarith
    simp only [r, if_neg this, if_pos hlt]
    linarith
  · intro h6 h8
    have h1 : ¬ dist > 8 := not_lt.2 h8
    have h2 : ¬ dist < 6 := not_lt.2 h6
    have hr : r = -(p.vel.dot u) := by simp only [r, if_neg h1, if_neg h2]
    have : (p.vel.add out).dot u = p.vel.dot u + out.dot u := by
      simp only [Vector2D.dot, Vector2D.add]; ring
    rw [this, hrad, hr]; ring
  · rw [htan]
    rcases hs2 with h | h <;> rw [h] <;> norm_num
  · have hsq : s2 * s2 = 4 := by rcases hs2 with h | h <;> rw [h] <;> norm_num
    rw [hform]
    dsimp only
    linear_combination (s2 * s2 + r * r) * hu + hsq

theorem getBehind_far (p : Pusher ℝ) (m : Marker ℝ) (force : Vector2D ℝ)
    (hp : p.pos = ⟨0, 0⟩) (hm : m.pos = ⟨10, 0⟩) :
    getBehind Real.sqrt p m ⟨10, 10⟩ force = (false, (⟨2, -2⟩ : Vector2D ℝ)) := by
  have n1 : ((⟨10, 10⟩ : Vector2D ℝ).sub ⟨10, 0⟩).norm Real.sqrt = ⟨0, 1⟩ := by
    norm_num [Vector2D.sub, norm_axis_y]
  have n2 : ((⟨10, 0⟩ : Vector2D ℝ).sub ⟨0, 0⟩).norm Real.sqrt = ⟨1, 0⟩ := by
    norm_num [Vector2D.sub, norm_axis_x]
  have m2 : ((⟨10, 0⟩ : Vector2D ℝ).sub ⟨0, 0⟩).mag Real.sqrt = 10 := by
    norm_num [Vector2D.sub, mag_axis_x]
  unfold getBehind
  simp only [hp, hm, n1, n2, m2]
  norm_num [Vector2D.dot, Vector2D.cross, Vector2D.perp, Vector2D.scale, Vector2D.add,
    PUSHER_ACCEL_LIMIT, maxDist]

theorem getBehind_example_far :
    getBehind Real.sqrt ⟨⟨0, 0⟩, ⟨0, 0⟩, true, 0, 0, ⟨10, 10⟩⟩ ⟨⟨10, 0⟩, ⟨0, 0⟩, 1⟩
      ⟨10, 10⟩ ⟨0, 0⟩ = (false, (⟨2, -2⟩ : Vector2D ℝ)) :=
  getBehind_far _ _ _ rfl rfl

theorem getBehind_false_force_decomposition_witness :
    (⟨0, 0⟩ : Vector2D ℝ) ≠ ⟨10, 0⟩ ∧ (⟨10, 10⟩ : Vector2D ℝ) ≠ ⟨10, 0⟩ ∧
      (getBehind Real.sqrt ⟨⟨0, 0⟩, ⟨0, 0⟩, true, 0, 0, ⟨10, 10⟩⟩ ⟨⟨10, 0⟩, ⟨0, 0⟩, 1⟩
        ⟨10, 10⟩ ⟨0, 0⟩).1 = false ∧
      |(getBehind Real.sqrt ⟨⟨0, 0⟩, ⟨0, 0⟩, true, 0, 0, ⟨10, 10⟩⟩ ⟨⟨10, 0⟩, ⟨0, 0⟩, 1⟩
        ⟨10, 10⟩ ⟨0, 0⟩).2.dot
          ((((⟨10, 0⟩ : Vector2D ℝ).sub ⟨0, 0⟩).norm Real.sqrt).perp)|
        = PUSHER_ACCEL_LIMIT ℝ := by
  have h1 : (⟨0, 0⟩ : Vector2D ℝ) ≠ ⟨10, 0⟩ := by simp [vec_eq_iff]
  have h2 : (⟨10, 10⟩ : Vector2D ℝ) ≠ ⟨10, 0⟩ := by simp [vec_eq_iff]
  have h3 : (getBehind Real.sqrt ⟨⟨0, 0⟩, ⟨0, 0⟩, true, 0, 0, ⟨10, 10⟩⟩
      ⟨⟨10, 0⟩, ⟨0, 0⟩, 1⟩ ⟨10, 10⟩ ⟨0, 0⟩).1 = false := by
    rw [getBehind_example_far]
  exact ⟨h1, h2, h3, (getBehind_false_force_decomposition _ _ _ _ h1 h2 h3).2.2.2.2.1⟩

theorem getBehind_example_tie :
    getBehind Real.sqrt ⟨⟨10, 0⟩, ⟨0, 0⟩, true, 0, 0, ⟨6, 0⟩⟩ ⟨⟨5, 0⟩, ⟨0, 0⟩, 1⟩
      ⟨6, 0⟩ ⟨0, 0⟩ = (false, (⟨1, -2⟩ : Vector2D ℝ)) := by
  have n1 : ((⟨6, 0⟩ : Vector2D ℝ).sub ⟨5, 0⟩).norm Real.sqrt = ⟨1, 0⟩ := by
    norm_num [Vector2D.sub, norm_axis_x]
  have n2 : ((⟨5, 0⟩ : Vector2D ℝ).sub ⟨10, 0⟩).norm Real.sqrt = ⟨-1, 0⟩ := by
    norm_num [Vector2D.sub, norm_axis_x]
  have m2 : ((⟨5, 0⟩ : Vector2D ℝ).sub ⟨10, 0⟩).mag Real.sqrt = 5 := by
    norm_num [Vector2D.sub, mag_axis_x]
  unfold getBehind
  simp only [n1, n2, m2]
  norm_num [Vector2D.dot, Vector2D.cross, Vector2D.perp, Vector2D.scale, Vector2D.add,
    Vector2D.sub, PUSHER_ACCEL_LIMIT, maxDist, minDist]

/-- C6, as stated, fails.  With the pusher at (10,0), the marker at (5,0) and the target
at (6,0) the cross product is exactly 0 and the perpendicular term is
`+PUSHER_ACCEL_LIMIT * pToM.perp()`; with the pusher at (0,0), the marker at (10,0) and
the target at (10,10) the cross product is 1 > 0 and the perpendicular term is
`-PUSHER_ACCEL_LIMIT * pToM.perp()`.  So no single sign serves all inputs with a
non-negative cross product. -/
theorem getBehind_tie_with_nonneg_counterexample :
    (((⟨5, 0⟩ : Vector2D ℝ).sub ⟨10, 0⟩).norm Real.sqrt).cross
        (((⟨6, 0⟩ : Vector2D ℝ).sub ⟨5, 0⟩).norm Real.sqrt) = 0 ∧
    getBehind Real.sqrt ⟨⟨10, 0⟩, ⟨0, 0⟩, true, 0, 0, ⟨6, 0⟩⟩ ⟨⟨5, 0⟩, ⟨0, 0⟩, 1⟩
      ⟨6, 0⟩ ⟨0, 0⟩ = (false, (⟨1, -2⟩ : Vector2D ℝ)) ∧
    (⟨1, -2⟩ : Vector2D ℝ).dot ((((⟨5, 0⟩ : Vector2D ℝ).sub ⟨10, 0⟩).norm Real.sqrt).perp)
      = PUSHER_ACCEL_LIMIT ℝ ∧
    0 < (((⟨10, 0⟩ : Vector2D ℝ).sub ⟨0, 0⟩).norm Real.sqrt).cross
        (((⟨10, 10⟩ : Vector2D ℝ).sub ⟨10, 0⟩).norm Real.sqrt) ∧
    getBehind Real.sqrt ⟨⟨0, 0⟩, ⟨0, 0⟩, true, 0, 0, ⟨10, 10⟩⟩ ⟨⟨10, 0⟩, ⟨0, 0⟩, 1⟩
      ⟨10, 10⟩ ⟨0, 0⟩ = (false, (⟨2, -2⟩ : Vector2D ℝ)) ∧
    (⟨2, -2⟩ : Vector2D ℝ).dot ((((⟨10, 0⟩ : Vector2D ℝ).sub ⟨0, 0⟩).norm Real.sqrt).perp)
      = -(PUSHER_ACCEL_LIMIT ℝ) ∧
    ¬ ∃ s : ℝ, ∀ (p : Pusher ℝ) (m : Marker ℝ) (target force : Vector2D ℝ),
        p.pos ≠ m.pos → target ≠ m.pos →
        (getBehind Real.sqrt p m target force).1 = false →
        (0 ≤ ((m.pos.sub p.pos).norm Real.sqrt).cross ((target.sub m.pos).norm Real.sqrt) →
          (getBehind Real.sqrt p m target force).2.dot
            (((m.pos.sub p.pos).norm Real.sqrt).perp) = s * PUSHER_ACCEL_LIMIT ℝ) ∧
        (((m.pos.sub p.pos).norm Real.sqrt).cross ((target.sub m.pos).norm Real.sqrt) < 0 →
          (getBehind Real.sqrt p m target force).2.dot
            (((m.pos.sub p.pos).norm Real.sqrt).perp) = -s * PUSHER_ACCEL_LIMIT ℝ) := by
  have a1 : ((⟨6, 0⟩ : Vector2D ℝ).sub ⟨5, 0⟩).norm Real.sqrt = ⟨1, 0⟩ := by
    norm_num [Vector2D.sub, norm_axis_x]
  have a2 : ((⟨5, 0⟩ : Vector2D ℝ).sub ⟨10, 0⟩).norm Real.sqrt = ⟨-1, 0⟩ := by
    norm_num [Vector2D.sub, norm_axis_x]
  have b1 : ((⟨10, 10⟩ : Vector2D ℝ).sub ⟨10, 0⟩).norm Real.sqrt = ⟨0, 1⟩ := by
    norm_num [Vector2D.sub, norm_axis_y]
  have b2 : ((⟨10, 0⟩ : Vector2D ℝ).sub ⟨0, 0⟩).norm Real.sqrt = ⟨1, 0⟩ := by
    norm_num [Vector2D.sub, norm_axis_x]
  have cA : (((⟨5, 0⟩ : Vector2D ℝ).sub ⟨10, 0⟩).norm Real.sqrt).cross
      (((⟨6, 0⟩ : Vector2D ℝ).sub ⟨5, 0⟩).norm Real.sqrt) = 0 := by
    rw [a1, a2]; norm_num [Vector2D.cross]
  have cB : 0 < (((⟨10, 0⟩ : Vector2D ℝ).sub ⟨0, 0⟩).norm Real.sqrt).cross
      (((⟨10, 10⟩ : Vector2D ℝ).sub ⟨10, 0⟩).norm Real.sqrt) := by
    rw [b1, b2]; norm_num [Vector2D.cross]
  have tA : (⟨1, -2⟩ : Vector2D ℝ).dot
      ((((⟨5, 0⟩ : Vector2D ℝ).sub ⟨10, 0⟩).norm Real.sqrt).perp) = PUSHER_ACCEL_LIMIT ℝ := by
    rw [a2]; norm_num [Vector2D.dot, Vector2D.perp, PUSHER_ACCEL_LIMIT]
  have tB : (⟨2, -2⟩ : Vector2D ℝ).dot
      ((((⟨10, 0⟩ : Vector2D ℝ).sub ⟨0, 0⟩).norm Real.sqrt).perp)
      = -(PUSHER_ACCEL_LIMIT ℝ) := by
    rw [b2]; norm_num [Vector2D.dot, Vector2D.perp, PUSHER_ACCEL_LIMIT]
  refine ⟨cA, getBehind_example_tie, tA, cB, getBehind_example_far, tB, ?_⟩
  rintro ⟨s, hs⟩
  have hA := (hs ⟨⟨10, 0⟩, ⟨0, 0⟩, true, 0, 0, ⟨6, 0⟩⟩ ⟨⟨5, 0⟩, ⟨0, 0⟩, 1⟩ ⟨6, 0⟩ ⟨0, 0⟩
    (by simp [vec_eq_iff]) (by simp [vec_eq_iff]) (by rw [getBehind_example_tie])).1
    (le_of_eq cA.symm)
  have hB := (hs ⟨⟨0, 0⟩, ⟨0, 0⟩, true, 0, 0, ⟨10, 10⟩⟩ ⟨⟨10, 0⟩, ⟨0, 0⟩, 1⟩ ⟨10, 10⟩
    ⟨0, 0⟩ (by simp [vec_eq_iff]) (by simp [vec_eq_iff])
    (by rw [getBehind_example_far])).1 (le_of_lt cB)
  rw [getBehind_example_tie] at hA
  rw [getBehind_example_far] at hB
  dsimp only at hA hB
  rw [tA] at hA
  rw [tB] at hB
  simp only [PUSHER_ACCEL_LIMIT] at hA hB
  linarith

/-- C6, amended: when `getBehind` returns false, a cross product `c > 0` gives the
perpendicular term `-PUSHER_ACCEL_LIMIT * pToM.perp()` and every `c <= 0`, the tie
`c = 0` included, gives `+PUSHER_ACCEL_LIMIT * pToM.perp()`; the threshold is 0 and the
tie goes with the negative side. -/
theorem getBehind_circling_sign (p : Pusher ℝ) (m : Marker ℝ)
    (target force : Vector2D ℝ) (hp : p.pos ≠ m.pos) (ht : target ≠ m.pos)
    (hf : (getBehind Real.sqrt p m target force).1 = false) :
    let u := (m.pos.sub p.pos).norm Real.sqrt
    let c := u.cross ((target.sub m.pos).norm Real.sqrt)
    let out := (getBehind Real.sqrt p m target force).2
    (0 < c → out = (u.perp.scale (-(PUSHER_ACCEL_LIMIT ℝ))).add
        (Vector2D.lscale (out.dot u) u) ∧ out.dot u.perp = -(PUSHER_ACCEL_LIMIT ℝ)) ∧
    (c ≤ 0 → out = (u.perp.scale (PUSHER_ACCEL_LIMIT ℝ)).add
        (Vector2D.lscale (out.dot u) u) ∧ out.dot u.perp = PUSHER_ACCEL_LIMIT ℝ) := by
  intro u c out
  have _hmT := mag_pos_of_ne ht
  have hu : u.x * u.x + u.y * u.y = 1 := norm_unit (Ne.symm hp)
  have hform : out = _ := getBehind_false_form p m target force hf
  change out = ⟨-u.y * (if c > 0 then (-2 : ℝ) else 2) + u.x * _,
    u.x * (if c > 0 then (-2 : ℝ) else 2) + u.y * _⟩ at hform
  simp only [PUSHER_ACCEL_LIMIT]
  generalize (if (m.pos.sub p.pos).mag Real.sqrt > 8 then (m.pos.sub p.pos).mag Real.sqrt - 8
    else if (m.pos.sub p.pos).mag Real.sqrt < 6 then -(6 - (m.pos.sub p.pos).mag Real.sqrt)
    else -(p.vel.dot u)) = r at hform
  constructor
  · intro hc
    rw [if_pos hc] at hform
    have hrad : out.dot u = r := by
      rw [hform]; simp only [Vector2D.dot]
      linear_combination r * hu
    refine ⟨?_, ?_⟩
    · rw [hrad, hform, vec_eq_iff]
      simp only [Vector2D.add, Vector2D.lscale, Vector2D.scale, Vector2D.perp]
      constructor <;> ring
    · rw [hform]; simp only [Vector2D.dot, Vector2D.perp]
      linear_combination (-2) * hu
  · intro hc
    rw [if_neg (not_lt.2 hc)] at hform
    have hrad : out.dot u = r := by
      rw [hform]; simp only [Vector2D.dot]
      linear_combination r * hu
    refine ⟨?_, ?_⟩
    · rw [hrad, hform, vec_eq_iff]
      simp only [Vector2D.add, Vector2D.lscale, Vector2D.scale, Vector2D.perp]
      constructor <;> ring
    · rw [hform]; simp only [Vector2D.dot, Vector2D.perp]
      linear_combination 2 * hu

theorem getBehind_circling_sign_witness :
    (⟨10, 0⟩ : Vector2D ℝ) ≠ ⟨5, 0⟩ ∧ (⟨6, 0⟩ : Vector2D ℝ) ≠ ⟨5, 0⟩ ∧
      (getBehind Real.sqrt ⟨⟨10, 0⟩, ⟨0, 0⟩, true, 0, 0, ⟨6, 0⟩⟩ ⟨⟨5, 0⟩, ⟨0, 0⟩, 1⟩
        ⟨6, 0⟩ ⟨0, 0⟩).1 = false ∧
      (getBehind Real.sqrt ⟨⟨10, 0⟩, ⟨0, 0⟩, true, 0, 0, ⟨6, 0⟩⟩ ⟨⟨5, 0⟩, ⟨0, 0⟩, 1⟩
        ⟨6, 0⟩ ⟨0, 0⟩).2.dot ((((⟨5, 0⟩ : Vector2D ℝ).sub ⟨10, 0⟩).norm Real.sqrt).perp)
        = PUSHER_ACCEL_LIMIT ℝ := by
  have h1 : (⟨10, 0⟩ : Vector2D ℝ) ≠ ⟨5, 0⟩ := by simp [vec_eq_iff]
  have h2 : (⟨6, 0⟩ : Vector2D ℝ) ≠ ⟨5, 0⟩ := by simp [vec_eq_iff]
  have h3 : (getBehind Real.sqrt ⟨⟨10, 0⟩, ⟨0, 0⟩, true, 0, 0, ⟨6, 0⟩⟩
      ⟨⟨5, 0⟩, ⟨0, 0⟩, 1⟩ ⟨6, 0⟩ ⟨0, 0⟩).1 = false := by
    rw [getBehind_example_tie]
  have a1 : ((⟨6, 0⟩ : Vector2D ℝ).sub ⟨5, 0⟩).norm Real.sqrt = ⟨1, 0⟩ := by
    norm_num [Vector2D.sub, norm_axis_x]
  have a2 : ((⟨5, 0⟩ : Vector2D ℝ).sub ⟨10, 0⟩).norm Real.sqrt = ⟨-1, 0⟩ := by
    norm_num [Vector2D.sub, norm_axis_x]
  have hc : (((⟨5, 0⟩ : Vector2D ℝ).sub ⟨10, 0⟩).norm Real.sqrt).cross
      (((⟨6, 0⟩ : Vector2D ℝ).sub ⟨5, 0⟩).norm Real.sqrt) ≤ 0 := by
    rw [a1, a2]; norm_num [Vector2D.cross]
  exact ⟨h1, h2, h3, ((getBehind_circling_sign _ _ _ _ h1 h2 h3).2 hc).2⟩

end GetBehind

/-! ## The pieces of one decision step -/

section StepFacts

theorem range_PCOUNT : List.range PCOUNT = [0, 1, 2] := by
  decide

theorem markerAt_isSome {K : Type} (mList : List (Marker K)) (i : Int) (h0 : 0 ≤ i)
    (h1 : i < (mList.length : Int)) : ∃ mk, markerAt mList i = some mk := by
  have hlt : i.toNat < mList.length := (Int.toNat_lt h0).2 h1
  exact ⟨mList[i.toNat], by simp [markerAt, h0, List.getElem?_eq_getElem hlt]⟩

theorem markerAt_drawn {K : Type} (mList : List (Marker K)) (r : Nat) (h : mList ≠ []) :
    ∃ mk, markerAt mList ((r % mList.length : Nat) : Int) = some mk := by
  have hpos : 0 < mList.length := List.length_pos.2 h
  exact markerAt_isSome mList _ (Int.ofNat_nonneg _)
    (Int.ofNat_lt.2 (Nat.mod_lt r hpos))

/-- What `updateJob` does to an idle pusher: nothing. -/
theorem updateJob_idle {K : Type} [LinearOrderedField K] (sqrt : K → K) (mList : List (Marker K)) (p : Pusher K)
    (h : p.busy = false) : updateJob sqrt mList p = some p := by
  simp [updateJob, h]

/-- What `updateJob` does to a busy pusher whose marker index is inside the list. -/
theorem updateJob_busy {K : Type} [LinearOrderedField K] (sqrt : K → K) (mList : List (Marker K)) (p : Pusher K)
    (mk : Marker K) (h : p.busy = true) (hm : markerAt mList p.mdex = some mk) :
    ∃ p1, updateJob sqrt mList p = some p1 ∧ p1.pos = p.pos ∧ p1.vel = p.vel ∧
      p1.mdex = p.mdex ∧ p1.targetPos = p.targetPos ∧ p1.jobTime = incInt32 p.jobTime ∧
      (p1.busy = true ↔
        incInt32 p.jobTime < 35 ∧ ¬ (mk.pos.sub p.targetPos).mag sqrt < 5) := by
  unfold updateJob
  rw [if_pos h]
  by_cases ht : incInt32 p.jobTime ≥ 35
  · by_cases hd : (mk.pos.sub p.targetPos).mag sqrt < 5
    · simp [ht, hd, hm]
    · simp [ht, hd, hm]
  · by_cases hd : (mk.pos.sub p.targetPos).mag sqrt < 5
    · simp [ht, hd, hm]
    · simp [ht, hd, hm, h]
      omega

/-- A busy pusher passes through job selection untouched and draws nothing. -/
theorem chooseJob_busy {K : Type} [LinearOrderedField K] (draws : Nat → Nat) (mList : List (Marker K))
    (pList : List (Pusher K)) (pdex : Nat) (p : Pusher K) (cur : Nat)
    (h : p.busy = true) : chooseJob draws mList pList pdex p cur = some (p, cur) := by
  simp [chooseJob, h]

/-- An idle pusher whose drawn marker is taken stays as it is; one value was drawn. -/
theorem chooseJob_taken {K : Type} [LinearOrderedField K] (draws : Nat → Nat) (mList : List (Marker K))
    (pList : List (Pusher K)) (pdex : Nat) (p : Pusher K) (cur : Nat)
    (h : p.busy = false) (hm : mList ≠ [])
    (ha : available pList pdex ((draws cur % mList.length : Nat) : Int) = some false) :
    chooseJob draws mList pList pdex p cur = some (p, cur + 1) := by
  have hlen : mList.length ≠ 0 := fun h0 => hm (List.length_eq_zero.1 h0)
  unfold chooseJob
  rw [h]
  simp only [Bool.not_false, reduceIte, hlen, ha]

/-- An idle pusher whose drawn marker is free takes the job. -/
theorem chooseJob_free {K : Type} [LinearOrderedField K] (draws : Nat → Nat) (mList : List (Marker K))
    (pList : List (Pusher K)) (pdex : Nat) (p : Pusher K) (cur : Nat)
    (h : p.busy = false) (hm : mList ≠ [])
    (ha : available pList pdex ((draws cur % mList.length : Nat) : Int) = some true) :
    ∃ p2 cur2, chooseJob draws mList pList pdex p cur = some (p2, cur2) ∧
      p2.pos = p.pos ∧ p2.vel = p.vel ∧ p2.busy = true ∧ p2.jobTime = 0 ∧
      p2.mdex = ((draws cur % mList.length : Nat) : Int) := by
  have hlen : mList.length ≠ 0 := fun h0 => hm (List.length_eq_zero.1 h0)
  obtain ⟨mk, hmk⟩ := markerAt_drawn mList (draws cur) hm
  unfold chooseJob
  rw [h]
  simp only [Bool.not_false, reduceIte, hlen, ha, hmk]
  by_cases hc : (mk.color == RED) = true
  · rw [if_pos hc]
    exact ⟨_, _, rfl, rfl, rfl, rfl, rfl, rfl⟩
  · rw [if_neg hc]
    exact ⟨_, _, rfl, rfl, rfl, rfl, rfl, rfl⟩

theorem chooseForce_isSome {K : Type} [LinearOrderedField K] (sqrt : K → K)
    (mList : List (Marker K)) (p : Pusher K) (h : JobInRange mList p) :
    ∃ f, chooseForce sqrt mList p = some f := by
  unfold chooseForce
  by_cases hb : p.busy = true
  · obtain ⟨mk, hmk⟩ := markerAt_isSome mList p.mdex (h hb).1 (h hb).2
    simp only [hb, reduceIte, hmk]
    split <;> exact ⟨_, rfl⟩
  · exact ⟨⟨0, 0⟩, by simp [hb]⟩

/-- The teammate test does not look at the entry of the pusher itself. -/
theorem teammateOn_set {K : Type} (pList : List (Pusher K)) (pdex : Nat) (mdex : Int)
    (q : Pusher K) (j : Nat) :
    teammateOn (pList.set pdex q) pdex mdex j = teammateOn pList pdex mdex j := by
  unfold teammateOn
  by_cases hj : j = pdex
  · simp [hj]
  · have hne : pdex ≠ j := fun h => hj h.symm
    simp [hj, List.getElem?_set_ne hne]

theorem availableLoop_set {K : Type} (pList : List (Pusher K)) (pdex : Nat) (mdex : Int)
    (q : Pusher K) (js : List Nat) (a : Bool) :
    availableLoop (pList.set pdex q) pdex mdex js a = availableLoop pList pdex mdex js a := by
  induction js generalizing a with
  | nil => rfl
  | cons j js ih =>
    simp only [availableLoop, teammateOn_set]
    cases teammateOn pList pdex mdex j with
    | none => rfl
    | some hit => exact ih _

theorem teammateOn_isSome {K : Type} (pList : List (Pusher K)) (pdex : Nat) (mdex : Int)
    (j : Nat) (hj : j < pList.length) : ∃ b, teammateOn pList pdex mdex j = some b := by
  unfold teammateOn
  by_cases h : j = pdex
  · exact ⟨false, by simp [h]⟩
  · exact ⟨pList[j].busy && pList[j].mdex == mdex,
      by simp [h, List.getElem?_eq_getElem hj]⟩

theorem availableLoop_isSome {K : Type} (pList : List (Pusher K)) (pdex : Nat) (mdex : Int)
    (js : List Nat) (a : Bool) (hjs : ∀ j ∈ js, j < pList.length) :
    ∃ b, availableLoop pList pdex mdex js a = some b := by
  induction js generalizing a with
  | nil => exact ⟨a, rfl⟩
  | cons j js ih =>
    obtain ⟨b, hb⟩ := teammateOn_isSome pList pdex mdex j (hjs j (List.mem_cons_self _ _))
    simp only [availableLoop, hb]
    exact ih _ (fun k hk => hjs k (List.mem_cons_of_mem _ hk))

/-- Once the flag `available` is false the rest of the loop leaves it false. -/
theorem availableLoop_false {K : Type} (pList : List (Pusher K)) (pdex : Nat) (mdex : Int)
    (js : List Nat) (hjs : ∀ j ∈ js, j < pList.length) :
    availableLoop pList pdex mdex js false = some false := by
  induction js with
  | nil => rfl
  | cons j js ih =>
    obtain ⟨b, hb⟩ := teammateOn_isSome pList pdex mdex j (hjs j (List.mem_cons_self _ _))
    simp only [availableLoop, hb, ite_self]
    exact ih (fun k hk => hjs k (List.mem_cons_of_mem _ hk))

/-- A busy teammate on the drawn marker makes the loop end with `available = false`. -/
theorem availableLoop_hit {K : Type} (pList : List (Pusher K)) (pdex : Nat) (mdex : Int)
    (js : List Nat) (a : Bool) (hjs : ∀ j ∈ js, j < pList.length) (j : Nat) (hj : j ∈ js)
    (hit : teammateOn pList pdex mdex j = some true) :
    availableLoop pList pdex mdex js a = some false := by
  induction js generalizing a with
  | nil => exact absurd hj (List.not_mem_nil _)
  | cons k js ih =>
    have hrest : ∀ i ∈ js, i < pList.length := fun i hi => hjs i (List.mem_cons_of_mem _ hi)
    rcases List.mem_cons.1 hj with rfl | hmem
    · simp only [availableLoop, hit, reduceIte]
      exact availableLoop_false pList pdex mdex js hrest
    · obtain ⟨b, hb⟩ := teammateOn_isSome pList pdex mdex k (hjs k (List.mem_cons_self _ _))
      simp only [availableLoop, hb]
      exact ih _ hrest hmem

theorem available_isSome {K : Type} (pList : List (Pusher K)) (pdex : Nat) (mdex : Int)
    (hlen : PCOUNT ≤ pList.length) : ∃ b, available pList pdex mdex = some b :=
  availableLoop_isSome pList pdex mdex _ true
    (fun _ hj => lt_of_lt_of_le (List.mem_range.1 hj) hlen)

theorem updateJob_total {K : Type} [LinearOrderedField K] (sqrt : K → K)
    (mList : List (Marker K)) (p : Pusher K) (h : JobInRange mList p) :
    ∃ p1, updateJob sqrt mList p = some p1 ∧ JobInRange mList p1 := by
  by_cases hb : p.busy = true
  · obtain ⟨mk, hmk⟩ := markerAt_isSome mList p.mdex (h hb).1 (h hb).2
    obtain ⟨p1, h1, _, _, hm, _, _, _⟩ := updateJob_busy sqrt mList p mk hb hmk
    exact ⟨p1, h1, fun _ => by rw [hm]; exact h hb⟩
  · have hf : p.busy = false := by simpa using hb
    exact ⟨p, updateJob_idle sqrt mList p hf, h⟩

/-- Job selection on a well-formed state returns, and either leaves the pusher as it is
or makes an idle pusher busy with a fresh job. -/
theorem chooseJob_total {K : Type} [LinearOrderedField K] (draws : Nat → Nat)
    (mList : List (Marker K)) (pList : List (Pusher K)) (pdex : Nat) (p1 : Pusher K)
    (cur : Nat) (hm : mList ≠ []) (hlen : PCOUNT ≤ pList.length)
    (h : JobInRange mList p1) :
    ∃ p2 cur2, chooseJob draws mList pList pdex p1 cur = some (p2, cur2) ∧
      JobInRange mList p2 ∧
      (p2 = p1 ∨ (p1.busy = false ∧ p2.busy = true ∧ p2.jobTime = 0)) := by
  by_cases hb : p1.busy = true
  · exact ⟨p1, cur, chooseJob_busy draws mList pList pdex p1 cur hb, h, Or.inl rfl⟩
  · have hf : p1.busy = false := by simpa using hb
    obtain ⟨b, hav⟩ := available_isSome pList pdex
      ((draws cur % mList.length : Nat) : Int) hlen
    cases b with
    | false =>
      exact ⟨p1, cur + 1, chooseJob_taken draws mList pList pdex p1 cur hf hm hav, h,
        Or.inl rfl⟩
    | true =>
      obtain ⟨p2, cur2, h2, _, _, hbusy, hjt, hmd⟩ :=
        chooseJob_free draws mList pList pdex p1 cur hf hm hav
      have hpos : 0 < mList.length := List.length_pos.2 hm
      refine ⟨p2, cur2, h2, fun _ => ?_, Or.inr ⟨hf, hbusy, hjt⟩⟩
      rw [hmd]
      exact ⟨Int.ofNat_nonneg _, Int.ofNat_lt.2 (Nat.mod_lt _ hpos)⟩

/-- One iteration of the decision loop on a well-formed state returns; the new state
differs from the old one only in the entry of the pusher, which is the result of
`updateJob` followed by `chooseJob`, and the force is `chooseForce` of that entry. -/
theorem pusherStep_spec {K : Type} [LinearOrderedField K] (sqrt : K → K)
    (draws : Nat → Nat) (mList : List (Marker K)) (c : Control K) (pdex : Nat)
    (hwf : WellFormed mList c) (hp : pdex < PCOUNT) :
    ∃ p p1 p2 cur2 f, c.pList[pdex]? = some p ∧ updateJob sqrt mList p = some p1 ∧
      chooseJob draws mList (c.pList.set pdex p1) pdex p1 c.cur = some (p2, cur2) ∧
      chooseForce sqrt mList p2 = some f ∧
      pusherStep sqrt draws mList c pdex = some (⟨c.pList.set pdex p2, cur2⟩, f) ∧
      JobInRange mList p2 ∧
      (p2 = p1 ∨ (p1.busy = false ∧ p2.busy = true ∧ p2.jobTime = 0)) := by
  obtain ⟨hlen, hm, hjobs⟩ := hwf
  have h3 : PCOUNT ≤ c.pList.length := by rw [hlen]; decide
  have hlt : pdex < c.pList.length := lt_of_lt_of_le hp h3
  have hget : c.pList[pdex]? = some c.pList[pdex] := List.getElem?_eq_getElem hlt
  obtain ⟨p1, h1, hr1⟩ := updateJob_total sqrt mList _ (hjobs pdex hp _ hget)
  obtain ⟨p2, cur2, h2, hr2, hcase⟩ := chooseJob_total draws mList (c.pList.set pdex p1)
    pdex p1 c.cur hm (by rw [List.length_set]; exact h3) hr1
  obtain ⟨f, hf⟩ := chooseForce_isSome sqrt mList p2 hr2
  refine ⟨_, p1, p2, cur2, f, hget, h1, h2, hf, ?_, hr2, hcase⟩
  unfold pusherStep
  simp only [hget, h1, h2, hf]

theorem pusherStep_wellFormed {K : Type} (mList : List (Marker K)) (c : Control K)
    (pdex : Nat) (p2 : Pusher K) (cur2 : Nat) (hwf : WellFormed mList c)
    (hr : JobInRange mList p2) : WellFormed mList ⟨c.pList.set pdex p2, cur2⟩ := by
  obtain ⟨hlen, hm, hjobs⟩ := hwf
  refine ⟨by simpa using hlen, hm, ?_⟩
  intro j hj q hq
  by_cases hjp : pdex = j
  · subst hjp
    have hlt : pdex < c.pList.length := by rw [hlen]; exact lt_of_lt_of_le hj (by decide)
    simp only [List.getElem?_set_self hlt, Option.some.injEq] at hq
    rw [← hq]; exact hr
  · simp only [List.getElem?_set_ne hjp] at hq
    exact hjobs j hj q hq

theorem set_same {α : Type} (l : List α) (i : Nat) (a : α) (h : l[i]? = some a) :
    l.set i a = l := by
  induction l generalizing i with
  | nil => rfl
  | cons b l ih =>
    cases i with
    | zero =>
      simp only [List.getElem?_cons_zero, Option.some.injEq] at h
      simp [h]
    | succ i =>
      simp only [List.getElem?_cons_succ] at h
      simp [ih i h]

end StepFacts

/-! ## The decision loop and one whole turn -/

section TickFacts

theorem readPushers_length {K : Type} (snap : List (Vector2D K × Vector2D K))
    (ps : List (Pusher K)) : (readPushers snap ps).length = ps.length := by
  induction snap generalizing ps with
  | nil => cases ps <;> rfl
  | cons pv snap ih =>
    cases ps with
    | nil => rfl
    | cons p ps => simp [readPushers, ih]

/-- Reading a snapshot keeps the task state of every pusher. -/
theorem readPushers_getElem? {K : Type} (snap : List (Vector2D K × Vector2D K))
    (ps : List (Pusher K)) (j : Nat) (q : Pusher K) (h : ps[j]? = some q) :
    ∃ pv : Vector2D K × Vector2D K,
      (readPushers snap ps)[j]? = some { q with pos := pv.1, vel := pv.2 } := by
  induction snap generalizing ps j with
  | nil =>
    refine ⟨(q.pos, q.vel), ?_⟩
    cases ps with
    | nil => simp at h
    | cons p ps => simpa [readPushers] using h
  | cons pv snap ih =>
    cases ps with
    | nil => simp at h
    | cons p ps =>
      cases j with
      | zero =>
        simp only [List.getElem?_cons_zero, Option.some.injEq] at h
        exact ⟨pv, by simp [readPushers, h]⟩
      | succ j =>
        simp only [List.getElem?_cons_succ] at h
        obtain ⟨pv2, h2⟩ := ih ps j h
        exact ⟨pv2, by simpa [readPushers] using h2⟩

theorem readPushers_getElem?_inv {K : Type} (snap : List (Vector2D K × Vector2D K))
    (ps : List (Pusher K)) (j : Nat) (q1 : Pusher K)
    (h : (readPushers snap ps)[j]? = some q1) :
    ∃ q, ps[j]? = some q ∧ q1.busy = q.busy ∧ q1.mdex = q.mdex := by
  have hlt : j < ps.length := by
    rw [← readPushers_length snap ps]
    exact (List.getElem?_eq_some_iff.1 h).1
  obtain ⟨pv, hpv⟩ := readPushers_getElem? snap ps j ps[j] (List.getElem?_eq_getElem hlt)
  rw [hpv, Option.some.injEq] at h
  exact ⟨ps[j], List.getElem?_eq_getElem hlt, by rw [← h], by rw [← h]⟩

theorem readPushers_wellFormed {K : Type} (snap : List (Vector2D K × Vector2D K))
    (mList : List (Marker K)) (c : Control K) (hwf : WellFormed mList c) :
    WellFormed mList ⟨readPushers snap c.pList, c.cur⟩ := by
  obtain ⟨hlen, hm, hjobs⟩ := hwf
  refine ⟨by rw [← hlen]; exact readPushers_length snap c.pList, hm, ?_⟩
  intro j hj q1 hq1
  obtain ⟨q, hq, hb, hmd⟩ := readPushers_getElem?_inv snap c.pList j q1 hq1
  intro hbusy
  rw [hmd]
  exact hjobs j hj q hq (by rw [← hb]; exact hbusy)

/-- The decision loop over distinct own pushers returns on a well-formed state; it
touches only the entries it visits, and the final entry of a visited pusher is the result
of `updateJob`, possibly replaced by a fresh job with `jobTime = 0` when that result is
idle. -/
theorem decideLoop_own {K : Type} [LinearOrderedField K] (sqrt : K → K)
    (draws : Nat → Nat) (mList : List (Marker K)) (ps : List Nat) (c : Control K)
    (hwf : WellFormed mList c) (hps : ∀ j ∈ ps, j < PCOUNT) (hnd : ps.Nodup) :
    ∃ c2 fs, decideLoop sqrt draws mList ps c = some (c2, fs) ∧ WellFormed mList c2 ∧
      fs.length = ps.length ∧
      (∀ i, i ∉ ps → c2.pList[i]? = c.pList[i]?) ∧
      (∀ i, i ∈ ps → ∀ p, c.pList[i]? = some p →
        ∃ p1 p2, updateJob sqrt mList p = some p1 ∧ c2.pList[i]? = some p2 ∧
          (p2 = p1 ∨ (p1.busy = false ∧ p2.busy = true ∧ p2.jobTime = 0))) := by
  induction ps generalizing c with
  | nil => exact ⟨c, [], rfl, hwf, rfl, fun _ _ => rfl, fun i hi => absurd hi (List.not_mem_nil _)⟩
  | cons pdex ps ih =>
    have hpd : pdex < PCOUNT := hps pdex (List.mem_cons_self _ _)
    obtain ⟨p, p1, p2, cur2, f, hget, h1, _, _, hstep, hr2, hcase⟩ :=
      pusherStep_spec sqrt draws mList c pdex hwf hpd
    have hlt : pdex < c.pList.length := (List.getElem?_eq_some_iff.1 hget).1
    have hwf1 := pusherStep_wellFormed mList c pdex p2 cur2 hwf hr2
    obtain ⟨c2, fs, hloop, hwf2, hfs, hframe, hown⟩ :=
      ih ⟨c.pList.set pdex p2, cur2⟩ hwf1
        (fun j hj => hps j (List.mem_cons_of_mem _ hj)) (List.nodup_cons.1 hnd).2
    refine ⟨c2, f :: fs, ?_, hwf2, by simp [hfs], ?_, ?_⟩
    · simp only [decideLoop, hstep, hloop]
    · intro i hi
      have hne : pdex ≠ i := fun h => hi (h ▸ List.mem_cons_self _ _)
      rw [hframe i (fun h => hi (List.mem_cons_of_mem _ h))]
      exact List.getElem?_set_ne hne
    · intro i hi q hq
      rcases List.mem_cons.1 hi with rfl | hmem
      · rw [hget, Option.some.injEq] at hq
        subst hq
        refine ⟨p1, p2, h1, ?_, hcase⟩
        rw [hframe i (List.nodup_cons.1 hnd).1]
        exact List.getElem?_set_self hlt
      · have hne : pdex ≠ i := fun h => (List.nodup_cons.1 hnd).1 (h ▸ hmem)
        exact hown i hmem q (by
          show (c.pList.set pdex p2)[i]? = some q
          rw [List.getElem?_set_ne hne]; exact hq)

/-- One whole turn on a well-formed state returns a well-formed state, and the final
task state of an own pusher is the result of `updateJob` on its refreshed entry,
possibly replaced by a fresh job with `jobTime = 0` when that result is idle. -/
theorem tick_own {K : Type} [LinearOrderedField K] (sqrt : K → K) (draws : Nat → Nat)
    (snap : List (Vector2D K × Vector2D K)) (mList : List (Marker K)) (c : Control K)
    (hwf : WellFormed mList c) (i : Nat) (hi : i < PCOUNT) (p : Pusher K)
    (hp : c.pList[i]? = some p) :
    ∃ c2 fs, tick sqrt draws snap mList c = some (c2, fs) ∧ WellFormed mList c2 ∧
      ∃ (pv : Vector2D K × Vector2D K) (p1 p2 : Pusher K),
        updateJob sqrt mList { p with pos := pv.1, vel := pv.2 } = some p1 ∧
        c2.pList[i]? = some p2 ∧
        (p2 = p1 ∨ (p1.busy = false ∧ p2.busy = true ∧ p2.jobTime = 0)) := by
  obtain ⟨c2, fs, hloop, hwf2, _, _, hown⟩ :=
    decideLoop_own sqrt draws mList (List.range PCOUNT) ⟨readPushers snap c.pList, c.cur⟩
      (readPushers_wellFormed snap mList c hwf) (fun j hj => List.mem_range.1 hj)
      (List.nodup_range _)
  obtain ⟨pv, hpv⟩ := readPushers_getElem? snap c.pList i p hp
  obtain ⟨p1, p2, h1, h2, hcase⟩ := hown i (List.mem_range.2 hi) _ hpv
  exact ⟨c2, fs, hloop, hwf2, pv, p1, p2, h1, h2, hcase⟩

theorem wellFormed_six {K : Type} (mList : List (Marker K)) (p0 p1 p2 p3 p4 p5 : Pusher K)
    (cur : Nat) (hm : mList ≠ []) (h0 : JobInRange mList p0) (h1 : JobInRange mList p1)
    (h2 : JobInRange mList p2) : WellFormed mList ⟨[p0, p1, p2, p3, p4, p5], cur⟩ := by
  refine ⟨rfl, hm, ?_⟩
  intro j hj q hq
  have hj3 : j < 3 := hj
  interval_cases j
  · simp only [List.getElem?_cons_zero, Option.some.injEq] at hq
    rw [← hq]; exact h0
  · simp only [List.getElem?_cons_succ, List.getElem?_cons_zero, Option.some.injEq] at hq
    rw [← hq]; exact h1
  · simp only [List.getElem?_cons_succ, List.getElem?_cons_zero, Option.some.injEq] at hq
    rw [← hq]; exact h2

end TickFacts

/-! ## The force emitted by one decision step -/

section EmittedForce

open Vector2D

/-- The parts of an iteration of the decision loop that returned. -/
theorem pusherStep_inv {K : Type} [LinearOrderedField K] (sqrt : K → K)
    (draws : Nat → Nat) (mList : List (Marker K)) (c c2 : Control K) (pdex : Nat)
    (f : Vector2D K) (h : pusherStep sqrt draws mList c pdex = some (c2, f)) :
    ∃ p p1 p2, c.pList[pdex]? = some p ∧ updateJob sqrt mList p = some p1 ∧
      chooseJob draws mList (c.pList.set pdex p1) pdex p1 c.cur = some (p2, c2.cur) ∧
      chooseForce sqrt mList p2 = some f ∧ c2.pList = c.pList.set pdex p2 := by
  unfold pusherStep at h
  cases hp : c.pList[pdex]? with
  | none => simp [hp] at h
  | some p =>
    cases h1 : updateJob sqrt mList p with
    | none => simp [hp, h1] at h
    | some p1 =>
      cases h2 : chooseJob draws mList (c.pList.set pdex p1) pdex p1 c.cur with
      | none => simp [hp, h1, h2] at h
      | some r =>
        obtain ⟨p2, cur2⟩ := r
        cases h3 : chooseForce sqrt mList p2 with
        | none => simp [hp, h1, h2, h3] at h
        | some f2 =>
          simp only [hp, h1, h2, h3, Option.some.injEq, Prod.mk.injEq] at h
          obtain ⟨hc, hf⟩ := h
          subst hc hf
          exact ⟨p, p1, p2, rfl, h1, h2, h3, rfl⟩

/-- The state of the example: pusher 0 at (0,0) is busy with marker 0 at (10,0), to be
moved to (10,10); the other pushers are idle. -/
theorem pusherStep_example :
    pusherStep Real.sqrt (fun _ => 0) [⟨⟨10, 0⟩, ⟨0, 0⟩, 1⟩]
      ⟨[⟨⟨0, 0⟩, ⟨0, 0⟩, true, 0, 0, ⟨10, 10⟩⟩, ⟨⟨1, 1⟩, ⟨0, 0⟩, false, 0, 0, ⟨0, 0⟩⟩,
        ⟨⟨2, 2⟩, ⟨0, 0⟩, false, 0, 0, ⟨0, 0⟩⟩, ⟨⟨3, 3⟩, ⟨0, 0⟩, false, 0, 0, ⟨0, 0⟩⟩,
        ⟨⟨4, 4⟩, ⟨0, 0⟩, false, 0, 0, ⟨0, 0⟩⟩, ⟨⟨5, 5⟩, ⟨0, 0⟩, false, 0, 0, ⟨0, 0⟩⟩], 0⟩ 0
    = some (⟨[⟨⟨0, 0⟩, ⟨0, 0⟩, true, 1, 0, ⟨10, 10⟩⟩, ⟨⟨1, 1⟩, ⟨0, 0⟩, false, 0, 0, ⟨0, 0⟩⟩,
        ⟨⟨2, 2⟩, ⟨0, 0⟩, false, 0, 0, ⟨0, 0⟩⟩, ⟨⟨3, 3⟩, ⟨0, 0⟩, false, 0, 0, ⟨0, 0⟩⟩,
        ⟨⟨4, 4⟩, ⟨0, 0⟩, false, 0, 0, ⟨0, 0⟩⟩, ⟨⟨5, 5⟩, ⟨0, 0⟩, false, 0, 0, ⟨0, 0⟩⟩], 0⟩,
      (⟨2, -2⟩ : Vector2D ℝ)) := by
  have hm : ((⟨10, 0⟩ : Vector2D ℝ).sub ⟨10, 10⟩).mag Real.sqrt = 10 := by
    norm_num [Vector2D.sub, mag_axis_y]
  have hu : updateJob Real.sqrt [(⟨⟨10, 0⟩, ⟨0, 0⟩, 1⟩ : Marker ℝ)]
      ⟨⟨0, 0⟩, ⟨0, 0⟩, true, 0, 0, ⟨10, 10⟩⟩
      = some ⟨⟨0, 0⟩, ⟨0, 0⟩, true, 1, 0, ⟨10, 10⟩⟩ := by
    simp only [updateJob, markerAt, incInt32, reduceIte]
    norm_num [hm]
  have hf : chooseForce Real.sqrt [(⟨⟨10, 0⟩, ⟨0, 0⟩, 1⟩ : Marker ℝ)]
      ⟨⟨0, 0⟩, ⟨0, 0⟩, true, 1, 0, ⟨10, 10⟩⟩ = some ⟨2, -2⟩ := by
    simp [chooseForce, markerAt, getBehind_far]
  simp [pusherStep, hu, chooseJob, hf]

/-- The squared magnitude of the force `getBehind` writes when it returns false: the
square of the acceleration limit plus the square of the radial component. -/
theorem getBehind_false_sqmag (p : Pusher ℝ) (m : Marker ℝ) (target force : Vector2D ℝ)
    (hp : p.pos ≠ m.pos) (hf : (getBehind Real.sqrt p m target force).1 = false) :
    (getBehind Real.sqrt p m target force).2.x * (getBehind Real.sqrt p m target force).2.x
      + (getBehind Real.sqrt p m target force).2.y
        * (getBehind Real.sqrt p m target force).2.y
      = 2 ^ 2 + ((getBehind Real.sqrt p m target force).2.dot
          ((m.pos.sub p.pos).norm Real.sqrt)) ^ 2 := by
  have hu : ((m.pos.sub p.pos).norm Real.sqrt).x * ((m.pos.sub p.pos).norm Real.sqrt).x
      + ((m.pos.sub p.pos).norm Real.sqrt).y * ((m.pos.sub p.pos).norm Real.sqrt).y = 1 :=
    norm_unit (Ne.symm hp)
  have hform := getBehind_false_form p m target force hf
  dsimp only at hform
  rw [hform]
  generalize (m.pos.sub p.pos).norm Real.sqrt = u at hu
  generalize (if (m.pos.sub p.pos).mag Real.sqrt > 8 then (m.pos.sub p.pos).mag Real.sqrt - 8
    else if (m.pos.sub p.pos).mag Real.sqrt < 6 then -(6 - (m.pos.sub p.pos).mag Real.sqrt)
    else -(p.vel.dot u)) = r
  generalize hs : (if u.cross ((target.sub m.pos).norm Real.sqrt) > 0 then (-2 : ℝ) else 2)
    = s2
  have hsq : s2 * s2 = 4 := by
    rw [← hs]; split_ifs <;> norm_num
  simp only [Vector2D.dot]
  have hrad : (-u.y * s2 + u.x * r) * u.x + (u.x * s2 + u.y * r) * u.y = r := by
    linear_combination r * hu
  rw [hrad]
  linear_combination (s2 * s2 + r * r) * hu + hsq

/-- Where the force of `chooseForce` comes from. -/
theorem chooseForce_spec {K : Type} [LinearOrderedField K] (sqrt : K → K)
    (mList : List (Marker K)) (p : Pusher K) (f : Vector2D K)
    (h : chooseForce sqrt mList p = some f) :
    (p.busy = false → f = ⟨0, 0⟩) ∧
    (p.busy = true → ∃ marker, markerAt mList p.mdex = some marker ∧
      ((getBehind sqrt p marker p.targetPos ⟨0, 0⟩).1 = true →
        f = (runTo sqrt p.pos p.vel
          (marker.pos.sub ((p.targetPos.sub marker.pos).norm sqrt)) (defaultEpsilon K)).2) ∧
      ((getBehind sqrt p marker p.targetPos ⟨0, 0⟩).1 = false →
        f = (getBehind sqrt p marker p.targetPos ⟨0, 0⟩).2)) := by
  unfold chooseForce at h
  constructor
  · intro hb
    simp only [hb, Bool.false_eq_true, reduceIte, Option.some.injEq] at h
    exact h.symm
  · intro hb
    simp only [hb, reduceIte] at h
    cases hm : markerAt mList p.mdex with
    | none => simp [hm] at h
    | some marker =>
      simp only [hm] at h
      refine ⟨marker, rfl, ?_, ?_⟩
      · intro hg
        simp only [hg, reduceIte, Option.some.injEq] at h
        exact h.symm
      · intro hg
        simp only [hg, Bool.false_eq_true, reduceIte, Option.some.injEq] at h
        exact h.symm

/-- C7, as stated, fails.  Pusher 0 at (0,0), busy with the marker at (10,0) that is to
go to (10,10): the geometry is non-degenerate, `getBehind` reports not in position, and
the step emits the force (2,-2), whose magnitude exceeds `PUSHER_ACCEL_LIMIT`. -/
theorem emitted_force_bound_counterexample :
    pusherStep Real.sqrt (fun _ => 0) [⟨⟨10, 0⟩, ⟨0, 0⟩, 1⟩]
      ⟨[⟨⟨0, 0⟩, ⟨0, 0⟩, true, 0, 0, ⟨10, 10⟩⟩, ⟨⟨1, 1⟩, ⟨0, 0⟩, false, 0, 0, ⟨0, 0⟩⟩,
        ⟨⟨2, 2⟩, ⟨0, 0⟩, false, 0, 0, ⟨0, 0⟩⟩, ⟨⟨3, 3⟩, ⟨0, 0⟩, false, 0, 0, ⟨0, 0⟩⟩,
        ⟨⟨4, 4⟩, ⟨0, 0⟩, false, 0, 0, ⟨0, 0⟩⟩, ⟨⟨5, 5⟩, ⟨0, 0⟩, false, 0, 0, ⟨0, 0⟩⟩], 0⟩ 0
    = some (⟨[⟨⟨0, 0⟩, ⟨0, 0⟩, true, 1, 0, ⟨10, 10⟩⟩, ⟨⟨1, 1⟩, ⟨0, 0⟩, false, 0, 0, ⟨0, 0⟩⟩,
        ⟨⟨2, 2⟩, ⟨0, 0⟩, false, 0, 0, ⟨0, 0⟩⟩, ⟨⟨3, 3⟩, ⟨0, 0⟩, false, 0, 0, ⟨0, 0⟩⟩,
        ⟨⟨4, 4⟩, ⟨0, 0⟩, false, 0, 0, ⟨0, 0⟩⟩, ⟨⟨5, 5⟩, ⟨0, 0⟩, false, 0, 0, ⟨0, 0⟩⟩], 0⟩,
      (⟨2, -2⟩ : Vector2D ℝ)) ∧
    PUSHER_ACCEL_LIMIT ℝ < (⟨2, -2⟩ : Vector2D ℝ).mag Real.sqrt ∧
    (⟨0, 0⟩ : Vector2D ℝ) ≠ ⟨10, 0⟩ ∧ (⟨10, 10⟩ : Vector2D ℝ) ≠ ⟨10, 0⟩ ∧
    (⟨0, 0⟩ : Vector2D ℝ) ≠ ⟨10, 10⟩ ∧
    (⟨10, 0⟩ : Vector2D ℝ).sub (((⟨10, 10⟩ : Vector2D ℝ).sub ⟨10, 0⟩).norm Real.sqrt)
      ≠ ⟨0, 0⟩ := by
  refine ⟨pusherStep_example, ?_, by simp [vec_eq_iff], by simp [vec_eq_iff],
    by simp [vec_eq_iff], ?_⟩
  · simp only [PUSHER_ACCEL_LIMIT, Vector2D.mag]
    rw [Real.lt_sqrt (by norm_num)]
    norm_num
  · have n1 : ((⟨10, 10⟩ : Vector2D ℝ).sub ⟨10, 0⟩).norm Real.sqrt = ⟨0, 1⟩ := by
      norm_num [Vector2D.sub, norm_axis_y]
    rw [n1]
    norm_num [Vector2D.sub, vec_eq_iff]

/-- C7, amended: the force emitted by a decision step that returns is (0,0) when the
pusher ends the step idle and is the force of `runTo` when `getBehind` reports in
position, and in both cases its magnitude is at most `PUSHER_ACCEL_LIMIT`; when
`getBehind` reports not in position it is the force of `getBehind`, whose squared
magnitude is `PUSHER_ACCEL_LIMIT^2` plus the square of its radial component, so its
magnitude is at least `PUSHER_ACCEL_LIMIT`. -/
theorem emitted_force_bound (draws : Nat → Nat) (mList : List (Marker ℝ))
    (c c2 : Control ℝ) (pdex : Nat) (f : Vector2D ℝ)
    (hstep : pusherStep Real.sqrt draws mList c pdex = some (c2, f)) :
    ∃ p2, c2.pList[pdex]? = some p2 ∧
      (p2.busy = false → f = ⟨0, 0⟩ ∧ f.mag Real.sqrt ≤ PUSHER_ACCEL_LIMIT ℝ) ∧
      (p2.busy = true → ∃ marker, markerAt mList p2.mdex = some marker ∧
        (p2.pos ≠ marker.pos → p2.targetPos ≠ marker.pos →
          marker.pos.sub ((p2.targetPos.sub marker.pos).norm Real.sqrt) ≠ p2.pos →
          ((getBehind Real.sqrt p2 marker p2.targetPos ⟨0, 0⟩).1 = true →
            f = (runTo Real.sqrt p2.pos p2.vel
              (marker.pos.sub ((p2.targetPos.sub marker.pos).norm Real.sqrt))
              (defaultEpsilon ℝ)).2 ∧
            f.mag Real.sqrt ≤ PUSHER_ACCEL_LIMIT ℝ) ∧
          ((getBehind Real.sqrt p2 marker p2.targetPos ⟨0, 0⟩).1 = false →
            f = (getBehind Real.sqrt p2 marker p2.targetPos ⟨0, 0⟩).2 ∧
            f.x * f.x + f.y * f.y = PUSHER_ACCEL_LIMIT ℝ ^ 2
              + (f.dot ((marker.pos.sub p2.pos).norm Real.sqrt)) ^ 2 ∧
            PUSHER_ACCEL_LIMIT ℝ ≤ f.mag Real.sqrt))) := by
  obtain ⟨p, p1, p2, hget, _, _, hforce, hset⟩ :=
    pusherStep_inv Real.sqrt draws mList c c2 pdex f hstep
  have hlt : pdex < c.pList.length := (List.getElem?_eq_some_iff.1 hget).1
  obtain ⟨hidle, hbusy⟩ := chooseForce_spec Real.sqrt mList p2 f hforce
  refine ⟨p2, by rw [hset]; exact List.getElem?_set_self hlt, ?_, ?_⟩
  · intro hb
    have hf0 := hidle hb
    refine ⟨hf0, ?_⟩
    rw [hf0]
    simp [Vector2D.mag, PUSHER_ACCEL_LIMIT]
  · intro hb
    obtain ⟨marker, hmk, hrun, hget2⟩ := hbusy hb
    refine ⟨marker, hmk, fun hpm _ hrt => ⟨?_, ?_⟩⟩
    · intro hg
      refine ⟨hrun hg, ?_⟩
      rw [hrun hg, runTo_snd]
      exact runToForce_mag_le _ _ _ hrt
    · intro hg
      have hsq := getBehind_false_sqmag p2 marker p2.targetPos ⟨0, 0⟩ hpm hg
      rw [← hget2 hg] at hsq
      refine ⟨hget2 hg, ?_, ?_⟩
      · simp only [PUSHER_ACCEL_LIMIT]; exact hsq
      · simp only [PUSHER_ACCEL_LIMIT, Vector2D.mag]
        rw [hsq]
        apply Real.le_sqrt_of_sq_le
        nlinarith [sq_nonneg (f.dot ((marker.pos.sub p2.pos).norm Real.sqrt))]

theorem emitted_force_bound_witness :
    pusherStep Real.sqrt (fun _ => 0) [⟨⟨10, 0⟩, ⟨0, 0⟩, 1⟩]
      ⟨[⟨⟨0, 0⟩, ⟨0, 0⟩, true, 0, 0, ⟨10, 10⟩⟩, ⟨⟨1, 1⟩, ⟨0, 0⟩, false, 0, 0, ⟨0, 0⟩⟩,
        ⟨⟨2, 2⟩, ⟨0, 0⟩, false, 0, 0, ⟨0, 0⟩⟩, ⟨⟨3, 3⟩, ⟨0, 0⟩, false, 0, 0, ⟨0, 0⟩⟩,
        ⟨⟨4, 4⟩, ⟨0, 0⟩, false, 0, 0, ⟨0, 0⟩⟩, ⟨⟨5, 5⟩, ⟨0, 0⟩, false, 0, 0, ⟨0, 0⟩⟩], 0⟩ 0
    = some (⟨[⟨⟨0, 0⟩, ⟨0, 0⟩, true, 1, 0, ⟨10, 10⟩⟩, ⟨⟨1, 1⟩, ⟨0, 0⟩, false, 0, 0, ⟨0, 0⟩⟩,
        ⟨⟨2, 2⟩, ⟨0, 0⟩, false, 0, 0, ⟨0, 0⟩⟩, ⟨⟨3, 3⟩, ⟨0, 0⟩, false, 0, 0, ⟨0, 0⟩⟩,
        ⟨⟨4, 4⟩, ⟨0, 0⟩, false, 0, 0, ⟨0, 0⟩⟩, ⟨⟨5, 5⟩, ⟨0, 0⟩, false, 0, 0, ⟨0, 0⟩⟩], 0⟩,
      (⟨2, -2⟩ : Vector2D ℝ)) ∧
    (⟨2, -2⟩ : Vector2D ℝ) = (getBehind Real.sqrt ⟨⟨0, 0⟩, ⟨0, 0⟩, true, 1, 0, ⟨10, 10⟩⟩
      ⟨⟨10, 0⟩, ⟨0, 0⟩, 1⟩ ⟨10, 10⟩ ⟨0, 0⟩).2 ∧
    PUSHER_ACCEL_LIMIT ℝ ≤ (⟨2, -2⟩ : Vector2D ℝ).mag Real.sqrt := by
  obtain ⟨p2, h1, _, h3⟩ := emitted_force_bound (fun _ => 0) _ _ _ 0 _ pusherStep_example
  simp only [List.getElem?_cons_zero, Option.some.injEq] at h1
  subst h1
  obtain ⟨marker, hmk, hrest⟩ := h3 rfl
  simp only [markerAt, le_refl, reduceIte, Int.toNat_zero, List.getElem?_cons_zero,
    Option.some.injEq] at hmk
  subst hmk
  have n1 : ((⟨10, 10⟩ : Vector2D ℝ).sub ⟨10, 0⟩).norm Real.sqrt = ⟨0, 1⟩ := by
    norm_num [Vector2D.sub, norm_axis_y]
  have hfar := (hrest (by simp [vec_eq_iff]) (by simp [vec_eq_iff])
    (by rw [n1]; norm_num [Vector2D.sub, vec_eq_iff])).2
    (by rw [getBehind_far _ _ _ rfl rfl])
  exact ⟨pusherStep_example, hfar.1, hfar.2.2⟩

end EmittedForce

/-! ## The task state machine -/

section TaskState

theorem jobInRange_idle {K : Type} (mList : List (Marker K)) (p : Pusher K)
    (h : p.busy = false) : JobInRange mList p := by
  intro hb
  rw [h] at hb
  exact absurd hb (by simp)

theorem jobInRange_first {K : Type} (m : Marker K) (ms : List (Marker K)) (p : Pusher K)
    (h : p.mdex = 0) : JobInRange (m :: ms) p := by
  intro _
  rw [h]
  refine ⟨le_refl _, ?_⟩
  simp only [List.length_cons]
  omega

/-- C8: an idle pusher `pdex` whose drawn marker index is the `mdex` of another own
pusher `j` that is busy: its step returns with the vector `pList` exactly as it was (so
`busy`, `jobTime`, `mdex` and `targetPos` of the pusher are unchanged), with one call of
`rand()` made (the marker index; none for a destination), and emits the force (0,0). -/
theorem idle_pick_taken_keeps_state (draws : Nat → Nat) (mList : List (Marker ℝ))
    (c : Control ℝ) (pdex j : Nat) (p q : Pusher ℝ)
    (hlen : c.pList.length = 2 * PCOUNT) (hm : mList ≠ [])
    (hp : pdex < PCOUNT) (hj : j < PCOUNT) (hne : j ≠ pdex)
    (hP : c.pList[pdex]? = some p) (hidle : p.busy = false)
    (hQ : c.pList[j]? = some q) (hqb : q.busy = true)
    (hqm : q.mdex = ((draws c.cur % mList.length : Nat) : Int)) :
    pusherStep Real.sqrt draws mList c pdex = some (⟨c.pList, c.cur + 1⟩, ⟨0, 0⟩) := by
  have _hown : pdex < c.pList.length := by rw [hlen]; exact lt_of_lt_of_le hp (by decide)
  have h3 : ∀ k ∈ List.range PCOUNT, k < c.pList.length := fun k hk => by
    rw [hlen]; exact lt_of_lt_of_le (List.mem_range.1 hk) (by decide)
  have hteam : teammateOn c.pList pdex ((draws c.cur % mList.length : Nat) : Int) j
      = some true := by
    unfold teammateOn
    simp only [bne_iff_ne, ne_eq, hne, not_false_eq_true, reduceIte, hQ, hqb, hqm,
      Bool.true_and, beq_self_eq_true]
  have hav : available (c.pList.set pdex p) pdex ((draws c.cur % mList.length : Nat) : Int)
      = some false := by
    unfold available
    rw [availableLoop_set]
    exact availableLoop_hit c.pList pdex _ _ true h3 j (List.mem_range.2 hj) hteam
  have h1 := updateJob_idle Real.sqrt mList p hidle
  have h2 := chooseJob_taken draws mList (c.pList.set pdex p) pdex p c.cur hidle hm hav
  have hf : chooseForce Real.sqrt mList p = some ⟨0, 0⟩ := by
    simp [chooseForce, hidle]
  have hs := set_same c.pList pdex p hP
  rw [hs] at h2
  unfold pusherStep
  simp only [hP, h1, hs, h2, hf]

theorem idle_pick_taken_keeps_state_witness :
    pusherStep Real.sqrt (fun _ => 7) [⟨⟨10, 0⟩, ⟨0, 0⟩, 1⟩]
      ⟨[⟨⟨0, 0⟩, ⟨0, 0⟩, true, 3, 0, ⟨10, 10⟩⟩, ⟨⟨1, 1⟩, ⟨0, 0⟩, false, 35, 4, ⟨9, 9⟩⟩,
        ⟨⟨2, 2⟩, ⟨0, 0⟩, false, 0, 0, ⟨0, 0⟩⟩, ⟨⟨3, 3⟩, ⟨0, 0⟩, false, 0, 0, ⟨0, 0⟩⟩,
        ⟨⟨4, 4⟩, ⟨0, 0⟩, false, 0, 0, ⟨0, 0⟩⟩, ⟨⟨5, 5⟩, ⟨0, 0⟩, false, 0, 0, ⟨0, 0⟩⟩], 5⟩ 1
    = some (⟨[⟨⟨0, 0⟩, ⟨0, 0⟩, true, 3, 0, ⟨10, 10⟩⟩, ⟨⟨1, 1⟩, ⟨0, 0⟩, false, 35, 4, ⟨9, 9⟩⟩,
        ⟨⟨2, 2⟩, ⟨0, 0⟩, false, 0, 0, ⟨0, 0⟩⟩, ⟨⟨3, 3⟩, ⟨0, 0⟩, false, 0, 0, ⟨0, 0⟩⟩,
        ⟨⟨4, 4⟩, ⟨0, 0⟩, false, 0, 0, ⟨0, 0⟩⟩, ⟨⟨5, 5⟩, ⟨0, 0⟩, false, 0, 0, ⟨0, 0⟩⟩], 6⟩,
      (⟨0, 0⟩ : Vector2D ℝ)) :=
  idle_pick_taken_keeps_state (fun _ => 7) [⟨⟨10, 0⟩, ⟨0, 0⟩, 1⟩] _ 1 0
    ⟨⟨1, 1⟩, ⟨0, 0⟩, false, 35, 4, ⟨9, 9⟩⟩ ⟨⟨0, 0⟩, ⟨0, 0⟩, true, 3, 0, ⟨10, 10⟩⟩
    rfl (by simp) (by decide) (by decide) (by decide) rfl rfl rfl rfl (by simp)

/-- The increment of an `int` that does not overflow. -/
theorem incInt32_eq (x : Int) (h0 : -(2 ^ 31) ≤ x) (h1 : x + 1 < 2 ^ 31) :
    incInt32 x = x + 1 := by
  unfold incInt32
  omega

/-- C9: an own pusher that is busy at the start of a turn with `jobTime = 34`: the turn
returns, `updateJob` clears the busy flag (whatever marker list and `targetPos`) before
job selection runs, and at the end of the turn the pusher is idle or busy with a job
selected on this turn with `jobTime = 0`; it is not busy with `jobTime >= 35`. -/
theorem busy_timeout_goes_idle (draws : Nat → Nat)
    (snap : List (Vector2D ℝ × Vector2D ℝ)) (mList : List (Marker ℝ)) (c : Control ℝ)
    (hwf : WellFormed mList c) (i : Nat) (hi : i < PCOUNT) (p : Pusher ℝ)
    (hp : c.pList[i]? = some p) (hb : p.busy = true) (hj : p.jobTime = 34) :
    ∃ c2 fs, tick Real.sqrt draws snap mList c = some (c2, fs) ∧
      ∃ (pv : Vector2D ℝ × Vector2D ℝ) (p1 p2 : Pusher ℝ),
        updateJob Real.sqrt mList { p with pos := pv.1, vel := pv.2 } = some p1 ∧
        p1.busy = false ∧ c2.pList[i]? = some p2 ∧
        (p2.busy = false ∨ (p2.busy = true ∧ p2.jobTime = 0)) ∧
        ¬ (p2.busy = true ∧ 35 ≤ p2.jobTime) := by
  obtain ⟨c2, fs, htick, _, pv, p1, p2, h1, h2, hcase⟩ :=
    tick_own Real.sqrt draws snap mList c hwf i hi p hp
  have hr := hwf.2.2 i hi p hp hb
  obtain ⟨mk, hmk⟩ := markerAt_isSome mList p.mdex hr.1 hr.2
  obtain ⟨q1, hq1, _, _, _, _, _, hbusy⟩ :=
    updateJob_busy Real.sqrt mList { p with pos := pv.1, vel := pv.2 } mk hb hmk
  rw [h1, Option.some.injEq] at hq1
  subst hq1
  have hidle : p1.busy = false := by
    cases hp1 : p1.busy with
    | false => rfl
    | true =>
      have := (hbusy.1 hp1).1
      simp only [hj] at this
      exact absurd this (by decide)
  refine ⟨c2, fs, htick, pv, p1, p2, h1, hidle, h2, ?_, ?_⟩
  · rcases hcase with h | ⟨_, hb2, hj2⟩
    · exact Or.inl (by rw [h]; exact hidle)
    · exact Or.inr ⟨hb2, hj2⟩
  · rintro ⟨hb2, hj2⟩
    rcases hcase with h | ⟨_, _, hj0⟩
    · rw [h, hidle] at hb2
      exact absurd hb2 (by simp)
    · rw [hj0] at hj2
      exact absurd hj2 (by decide)

theorem busy_timeout_goes_idle_witness :
    ∃ c2 fs, tick Real.sqrt (fun _ => 0) [] [⟨⟨10, 0⟩, ⟨0, 0⟩, 1⟩]
      ⟨[⟨⟨0, 0⟩, ⟨0, 0⟩, true, 34, 0, ⟨50, 50⟩⟩, ⟨⟨1, 1⟩, ⟨0, 0⟩, false, 0, 0, ⟨0, 0⟩⟩,
        ⟨⟨2, 2⟩, ⟨0, 0⟩, false, 0, 0, ⟨0, 0⟩⟩, ⟨⟨3, 3⟩, ⟨0, 0⟩, false, 0, 0, ⟨0, 0⟩⟩,
        ⟨⟨4, 4⟩, ⟨0, 0⟩, false, 0, 0, ⟨0, 0⟩⟩, ⟨⟨5, 5⟩, ⟨0, 0⟩, false, 0, 0, ⟨0, 0⟩⟩], 0⟩
      = some (c2, fs) ∧
      ∃ p2 : Pusher ℝ, c2.pList[0]? = some p2 ∧
        (p2.busy = false ∨ (p2.busy = true ∧ p2.jobTime = 0)) := by
  obtain ⟨c2, fs, htick, _, _, p2, _, _, h2, hcase, _⟩ :=
    busy_timeout_goes_idle (fun _ => 0) [] [⟨⟨10, 0⟩, ⟨0, 0⟩, 1⟩]
      ⟨[⟨⟨0, 0⟩, ⟨0, 0⟩, true, 34, 0, ⟨50, 50⟩⟩, ⟨⟨1, 1⟩, ⟨0, 0⟩, false, 0, 0, ⟨0, 0⟩⟩,
        ⟨⟨2, 2⟩, ⟨0, 0⟩, false, 0, 0, ⟨0, 0⟩⟩, ⟨⟨3, 3⟩, ⟨0, 0⟩, false, 0, 0, ⟨0, 0⟩⟩,
        ⟨⟨4, 4⟩, ⟨0, 0⟩, false, 0, 0, ⟨0, 0⟩⟩, ⟨⟨5, 5⟩, ⟨0, 0⟩, false, 0, 0, ⟨0, 0⟩⟩], 0⟩
      (wellFormed_six _ _ _ _ _ _ _ _ (by simp) (jobInRange_first _ _ _ rfl)
        (jobInRange_idle _ _ rfl) (jobInRange_idle _ _ rfl))
      0 (by decide) ⟨⟨0, 0⟩, ⟨0, 0⟩, true, 34, 0, ⟨50, 50⟩⟩ rfl rfl rfl
  exact ⟨c2, fs, htick, p2, h2, hcase⟩

/-- C10: an own pusher that is busy at the start of a turn, with tracked marker `mk`.
The turn returns.  If `mk` lies at distance strictly less than 5 from `targetPos`,
whatever `jobTime` is, `updateJob` clears the busy flag before job selection runs and at
the end of the turn the pusher is idle or busy with a job selected on this turn with
`jobTime = 0`.  If `mk` lies at distance at least 5 and `jobTime + 1 < 35` (`jobTime`
being an `int`), the pusher is still busy at the end of the turn with the same `mdex` and
`targetPos` and with `jobTime` increased by exactly 1. -/
theorem busy_finished_goes_idle (draws : Nat → Nat)
    (snap : List (Vector2D ℝ × Vector2D ℝ)) (mList : List (Marker ℝ)) (c : Control ℝ)
    (hwf : WellFormed mList c) (i : Nat) (hi : i < PCOUNT) (p : Pusher ℝ)
    (hp : c.pList[i]? = some p) (hb : p.busy = true) (mk : Marker ℝ)
    (hmk : markerAt mList p.mdex = some mk) :
    ∃ c2 fs, tick Real.sqrt draws snap mList c = some (c2, fs) ∧
      ∃ (pv : Vector2D ℝ × Vector2D ℝ) (p1 p2 : Pusher ℝ),
        updateJob Real.sqrt mList { p with pos := pv.1, vel := pv.2 } = some p1 ∧
        c2.pList[i]? = some p2 ∧
        ((mk.pos.sub p.targetPos).mag Real.sqrt < 5 →
          p1.busy = false ∧ (p2.busy = false ∨ (p2.busy = true ∧ p2.jobTime = 0))) ∧
        (5 ≤ (mk.pos.sub p.targetPos).mag Real.sqrt →
          -(2 ^ 31) ≤ p.jobTime → p.jobTime + 1 < 35 →
          p2.busy = true ∧ p2.mdex = p.mdex ∧ p2.targetPos = p.targetPos ∧
            p2.jobTime = p.jobTime + 1) := by
  obtain ⟨c2, fs, htick, _, pv, p1, p2, h1, h2, hcase⟩ :=
    tick_own Real.sqrt draws snap mList c hwf i hi p hp
  obtain ⟨q1, hq1, _, _, hmd, htp, hjt, hbusy⟩ :=
    updateJob_busy Real.sqrt mList { p with pos := pv.1, vel := pv.2 } mk hb hmk
  rw [h1, Option.some.injEq] at hq1
  subst hq1
  refine ⟨c2, fs, htick, pv, p1, p2, h1, h2, ?_, ?_⟩
  · intro hclose
    have hidle : p1.busy = false := by
      cases hp1 : p1.busy with
      | false => rfl
      | true => exact absurd hclose (hbusy.1 hp1).2
    refine ⟨hidle, ?_⟩
    rcases hcase with h | ⟨_, hb2, hj2⟩
    · exact Or.inl (by rw [h]; exact hidle)
    · exact Or.inr ⟨hb2, hj2⟩
  · intro hfar hlo hhi
    have hinc : incInt32 p.jobTime = p.jobTime + 1 :=
      incInt32_eq p.jobTime hlo (by omega)
    have hb1 : p1.busy = true := hbusy.2 ⟨by rw [hinc]; exact hhi, not_lt.2 hfar⟩
    rcases hcase with h | ⟨hf1, _, _⟩
    · rw [h]
      exact ⟨hb1, hmd, htp, by rw [hjt, hinc]⟩
    · rw [hf1] at hb1
      exact absurd hb1 (by simp)

theorem busy_finished_goes_idle_witness :
    ∃ c2 fs, tick Real.sqrt (fun _ => 0) [] [⟨⟨10, 0⟩, ⟨0, 0⟩, 1⟩]
      ⟨[⟨⟨0, 0⟩, ⟨0, 0⟩, true, 3, 0, ⟨10, 10⟩⟩, ⟨⟨1, 1⟩, ⟨0, 0⟩, false, 0, 0, ⟨0, 0⟩⟩,
        ⟨⟨2, 2⟩, ⟨0, 0⟩, false, 0, 0, ⟨0, 0⟩⟩, ⟨⟨3, 3⟩, ⟨0, 0⟩, false, 0, 0, ⟨0, 0⟩⟩,
        ⟨⟨4, 4⟩, ⟨0, 0⟩, false, 0, 0, ⟨0, 0⟩⟩, ⟨⟨5, 5⟩, ⟨0, 0⟩, false, 0, 0, ⟨0, 0⟩⟩], 0⟩
      = some (c2, fs) ∧
      ∃ p2 : Pusher ℝ, c2.pList[0]? = some p2 ∧ p2.busy = true ∧ p2.mdex = 0 ∧
        p2.targetPos = ⟨10, 10⟩ ∧ p2.jobTime = 4 := by
  have hm : ((⟨10, 0⟩ : Vector2D ℝ).sub ⟨10, 10⟩).mag Real.sqrt = 10 := by
    norm_num [Vector2D.sub, mag_axis_y]
  obtain ⟨c2, fs, htick, _, _, p2, _, h2, _, hstay⟩ :=
    busy_finished_goes_idle (fun _ => 0) [] [⟨⟨10, 0⟩, ⟨0, 0⟩, 1⟩]
      ⟨[⟨⟨0, 0⟩, ⟨0, 0⟩, true, 3, 0, ⟨10, 10⟩⟩, ⟨⟨1, 1⟩, ⟨0, 0⟩, false, 0, 0, ⟨0, 0⟩⟩,
        ⟨⟨2, 2⟩, ⟨0, 0⟩, false, 0, 0, ⟨0, 0⟩⟩, ⟨⟨3, 3⟩, ⟨0, 0⟩, false, 0, 0, ⟨0, 0⟩⟩,
        ⟨⟨4, 4⟩, ⟨0, 0⟩, false, 0, 0, ⟨0, 0⟩⟩, ⟨⟨5, 5⟩, ⟨0, 0⟩, false, 0, 0, ⟨0, 0⟩⟩], 0⟩
      (wellFormed_six _ _ _ _ _ _ _ _ (by simp) (jobInRange_first _ _ _ rfl)
        (jobInRange_idle _ _ rfl) (jobInRange_idle _ _ rfl))
      0 (by decide) ⟨⟨0, 0⟩, ⟨0, 0⟩, true, 3, 0, ⟨10, 10⟩⟩ rfl rfl
      ⟨⟨10, 0⟩, ⟨0, 0⟩, 1⟩ (by simp [markerAt])
  have h := hstay
    (by change (5 : ℝ) ≤ ((⟨10, 0⟩ : Vector2D ℝ).sub ⟨10, 10⟩).mag Real.sqrt
        rw [hm]; norm_num)
    (by norm_num) (by norm_num)
  exact ⟨c2, fs, htick, p2, h2, h.1, h.2.1, h.2.2.1, by rw [h.2.2.2]; norm_num⟩

end TaskState

/-! ## `limit` and `norm` -/

section LimitNorm

open Vector2D

theorem mag_lscale (k : ℝ) (v : Vector2D ℝ) :
    (Vector2D.lscale k v).mag Real.sqrt = |k| * v.mag Real.sqrt := by
  simp only [Vector2D.mag, Vector2D.lscale]
  have h : k * v.x * (k * v.x) + k * v.y * (k * v.y) = k * k * (v.x * v.x + v.y * v.y) := by
    ring
  rw [h, Real.sqrt_mul (mul_self_nonneg k), Real.sqrt_mul_self_eq_abs]

/-- Above the limit, `limit` rescales by the factor `d / mag`. -/
theorem limit_of_gt (v : Vector2D ℝ) (d : ℝ) (h : d < v.mag Real.sqrt) :
    v.limit Real.sqrt d = Vector2D.lscale (d / v.mag Real.sqrt) v := by
  unfold Vector2D.limit
  simp only [gt_iff_lt, h, reduceIte, Vector2D.lscale]
  rw [vec_eq_iff]
  constructor <;> ring

theorem limit_of_le (v : Vector2D ℝ) (d : ℝ) (h : v.mag Real.sqrt ≤ d) :
    v.limit Real.sqrt d = v := by
  unfold Vector2D.limit
  simp only [gt_iff_lt, not_lt.2 h, reduceIte]

theorem mag_limit (v : Vector2D ℝ) (d : ℝ) (hd : 0 ≤ d) :
    (v.limit Real.sqrt d).mag Real.sqrt = min (v.mag Real.sqrt) d := by
  by_cases h : d < v.mag Real.sqrt
  · have hm : 0 < v.mag Real.sqrt := lt_of_le_of_lt hd h
    rw [limit_of_gt v d h, mag_lscale, min_eq_right (le_of_lt h),
      abs_of_nonneg (div_nonneg hd (le_of_lt hm))]
    field_simp
  · have hle : v.mag Real.sqrt ≤ d := not_lt.1 h
    rw [limit_of_le v d hle, min_eq_left hle]

/-- C14: for `d >= 0`, `v.limit(d)` is `v` itself when `v.mag() <= d`, and otherwise the
non-negative multiple `(d / v.mag()) * v`, whose magnitude is exactly `d`; in all cases
the magnitude of the result is `min(v.mag(), d)` and the result is a non-negative
multiple of `v` (a positive one when `d > 0`). -/
theorem limit_spec (v : Vector2D ℝ) (d : ℝ) (hd : 0 ≤ d) :
    (v.mag Real.sqrt ≤ d → v.limit Real.sqrt d = v) ∧
    (d < v.mag Real.sqrt →
      v.limit Real.sqrt d = Vector2D.lscale (d / v.mag Real.sqrt) v ∧
      0 ≤ d / v.mag Real.sqrt ∧ (v.limit Real.sqrt d).mag Real.sqrt = d) ∧
    (v.limit Real.sqrt d).mag Real.sqrt = min (v.mag Real.sqrt) d ∧
    (∃ k : ℝ, 0 ≤ k ∧ (0 < d → 0 < k) ∧ v.limit Real.sqrt d = Vector2D.lscale k v) := by
  refine ⟨limit_of_le v d, ?_, mag_limit v d hd, ?_⟩
  · intro h
    have hm : 0 < v.mag Real.sqrt := lt_of_le_of_lt hd h
    refine ⟨limit_of_gt v d h, div_nonneg hd (le_of_lt hm), ?_⟩
    rw [mag_limit v d hd, min_eq_right (le_of_lt h)]
  · by_cases h : d < v.mag Real.sqrt
    · have hm : 0 < v.mag Real.sqrt := lt_of_le_of_lt hd h
      exact ⟨d / v.mag Real.sqrt, div_nonneg hd (le_of_lt hm),
        fun hpos => div_pos hpos hm, limit_of_gt v d h⟩
    · refine ⟨1, by norm_num, fun _ => by norm_num, ?_⟩
      rw [limit_of_le v d (not_lt.1 h), vec_eq_iff]
      simp [Vector2D.lscale]

theorem limit_spec_witness :
    (0 : ℝ) ≤ 2 ∧
      ((⟨3, 0⟩ : Vector2D ℝ).limit Real.sqrt 2).mag Real.sqrt
        = min ((⟨3, 0⟩ : Vector2D ℝ).mag Real.sqrt) 2 :=
  ⟨by norm_num, (limit_spec ⟨3, 0⟩ 2 (by norm_num)).2.2.1⟩

/-- C15: `limit` is idempotent for every limit `d >= 0`. -/
theorem limit_idempotent (v : Vector2D ℝ) (d : ℝ) (hd : 0 ≤ d) :
    (v.limit Real.sqrt d).limit Real.sqrt d = v.limit Real.sqrt d := by
  apply limit_of_le
  rw [mag_limit v d hd]
  exact min_le_right _ _

theorem limit_idempotent_witness :
    (0 : ℝ) ≤ 2 ∧
      (((⟨3, 0⟩ : Vector2D ℝ).limit Real.sqrt 2).limit Real.sqrt 2)
        = (⟨3, 0⟩ : Vector2D ℝ).limit Real.sqrt 2 :=
  ⟨by norm_num, limit_idempotent ⟨3, 0⟩ 2 (by norm_num)⟩

/-- C16: for every vector `v` other than (0,0), `v.norm()` has magnitude exactly 1 and is
a positive scalar multiple of `v`. -/
theorem norm_spec (v : Vector2D ℝ) (hv : v ≠ ⟨0, 0⟩) :
    (v.norm Real.sqrt).mag Real.sqrt = 1 ∧
    ∃ k : ℝ, 0 < k ∧ v.norm Real.sqrt = Vector2D.lscale k v := by
  have hpos : 0 < v.x * v.x + v.y * v.y := by
    have := dot_self_pos_of_ne_zero hv
    simpa [Vector2D.dot] using this
  have hm : 0 < v.mag Real.sqrt := Real.sqrt_pos.2 hpos
  have hk : v.norm Real.sqrt = Vector2D.lscale (1 / v.mag Real.sqrt) v := by
    rw [vec_eq_iff]
    simp only [Vector2D.norm, Vector2D.lscale]
    constructor <;> ring
  refine ⟨?_, 1 / v.mag Real.sqrt, one_div_pos.2 hm, hk⟩
  rw [hk, mag_lscale, abs_of_pos (one_div_pos.2 hm)]
  field_simp

theorem norm_spec_witness :
    (⟨3, 0⟩ : Vector2D ℝ) ≠ ⟨0, 0⟩ ∧
      ((⟨3, 0⟩ : Vector2D ℝ).norm Real.sqrt).mag Real.sqrt = 1 :=
  ⟨by simp [vec_eq_iff], (norm_spec ⟨3, 0⟩ (by simp [vec_eq_iff])).1⟩

end LimitNorm

/-! ## `runTo` for a pusher already running straight at the target -/

section Straight

open Vector2D

theorem clamp_zero_sym : clamp (-(0 : ℝ)) (-2) 2 = 0 := by
  rw [clamp_sym _ 2 (by norm_num)]
  norm_num

/-- The value of `clamp x 0 1` by cases. -/
theorem clamp_unit_eq (x : ℝ) (hx : 0 ≤ x) : clamp x 0 1 = if 1 < x then 1 else x := by
  unfold clamp
  simp only [not_lt.2 hx, reduceIte, gt_iff_lt]

/-- C17: a pusher that already moves straight at the target at the speed limit,
`vel = PUSHER_SPEED_LIMIT * (target - pos).norm()`, with `target != pos` and
`epsilon > 0`: `runTo` writes the force `PUSHER_ACCEL_LIMIT * (target - pos).norm()` and
returns true exactly when `|target - pos| < PUSHER_SPEED_LIMIT + epsilon`; in particular
it returns true whenever the pusher is within `epsilon` of the target. -/
theorem runTo_straight_at_speed_limit (pos target : Vector2D ℝ) (epsilon : ℝ)
    (h : target ≠ pos) (he : 0 < epsilon) :
    (runTo Real.sqrt pos
        (Vector2D.lscale (PUSHER_SPEED_LIMIT ℝ) ((target.sub pos).norm Real.sqrt))
        target epsilon).2
      = Vector2D.lscale (PUSHER_ACCEL_LIMIT ℝ) ((target.sub pos).norm Real.sqrt) ∧
    ((runTo Real.sqrt pos
        (Vector2D.lscale (PUSHER_SPEED_LIMIT ℝ) ((target.sub pos).norm Real.sqrt))
        target epsilon).1 = true ↔
      (target.sub pos).mag Real.sqrt < PUSHER_SPEED_LIMIT ℝ + epsilon) ∧
    ((target.sub pos).mag Real.sqrt < epsilon →
      (runTo Real.sqrt pos
        (Vector2D.lscale (PUSHER_SPEED_LIMIT ℝ) ((target.sub pos).norm Real.sqrt))
        target epsilon).1 = true) := by
  have hu := norm_unit h
  have hL : 0 < (target.sub pos).mag Real.sqrt := mag_pos_of_ne h
  have hwx : (target.sub pos).x
      = (target.sub pos).mag Real.sqrt * ((target.sub pos).norm Real.sqrt).x := by
    simp only [Vector2D.norm]; field_simp
  have hwy : (target.sub pos).y
      = (target.sub pos).mag Real.sqrt * ((target.sub pos).norm Real.sqrt).y := by
    simp only [Vector2D.norm]; field_simp
  generalize hd : (target.sub pos).norm Real.sqrt = d at hu hwx hwy ⊢
  generalize hLL : (target.sub pos).mag Real.sqrt = L at hL hwx hwy ⊢
  simp only [PUSHER_SPEED_LIMIT, PUSHER_ACCEL_LIMIT]
  have hforce : runToForce Real.sqrt pos (Vector2D.lscale 6 d) target
      = Vector2D.lscale 2 d := by
    have hfr := runToForce_frame pos (Vector2D.lscale 6 d) target h
    rw [hd] at hfr
    dsimp only at hfr
    have hz : d.perp.dot (Vector2D.lscale 6 d) = 0 := by
      simp only [Vector2D.dot, Vector2D.perp, Vector2D.lscale]; ring
    rw [hfr, hz, clamp_zero_sym, vec_eq_iff]
    simp only [Vector2D.lscale, abs_zero]
    constructor <;> ring
  have hnvel : runToNvel Real.sqrt pos (Vector2D.lscale 6 d) target
      = Vector2D.lscale 6 d := by
    unfold runToNvel
    rw [hforce]
    have hsum : (Vector2D.lscale 6 d).add (Vector2D.lscale 2 d) = Vector2D.lscale 8 d := by
      rw [vec_eq_iff]; simp only [Vector2D.add, Vector2D.lscale]; constructor <;> ring
    have hmag : (Vector2D.lscale 8 d).mag Real.sqrt = 8 := by
      rw [mag_lscale, mag_of_unit hu]; norm_num
    rw [hsum, limit_of_gt _ _ (by rw [hmag]; norm_num [PUSHER_SPEED_LIMIT]), hmag, vec_eq_iff]
    simp only [Vector2D.lscale, PUSHER_SPEED_LIMIT]
    constructor <;> ring
  have ht : runToT Real.sqrt pos (Vector2D.lscale 6 d) target
      = if 1 < L / 6 then 1 else L / 6 := by
    unfold runToT
    rw [hnvel]
    have hq : (target.sub pos).dot (Vector2D.lscale 6 d) / (Vector2D.lscale 6 d).dot
        (Vector2D.lscale 6 d) = L / 6 := by
      simp only [Vector2D.dot, Vector2D.lscale, hwx, hwy]
      have h1 : L * d.x * (6 * d.x) + L * d.y * (6 * d.y) = 6 * L := by
        linear_combination (6 * L) * hu
      have h2 : 6 * d.x * (6 * d.x) + 6 * d.y * (6 * d.y) = 36 := by
        linear_combination 36 * hu
      rw [h1, h2]; ring
    dsimp only
    rw [hq]
    exact clamp_unit_eq _ (by positivity)
  have hdist : ∀ t : ℝ, ((pos.add (Vector2D.lscale t (Vector2D.lscale 6 d))).sub
      target).mag Real.sqrt = |6 * t - L| := by
    intro t
    have hx : target.x - pos.x = L * d.x := by simpa [Vector2D.sub] using hwx
    have hy : target.y - pos.y = L * d.y := by simpa [Vector2D.sub] using hwy
    have he2 : (pos.add (Vector2D.lscale t (Vector2D.lscale 6 d))).sub target
        = Vector2D.lscale (6 * t - L) d := by
      rw [vec_eq_iff]
      simp only [Vector2D.add, Vector2D.sub, Vector2D.lscale]
      constructor
      · linear_combination -hx
      · linear_combination -hy
    rw [he2, mag_lscale, mag_of_unit hu, mul_one]
  have hret : (runTo Real.sqrt pos (Vector2D.lscale 6 d) target epsilon).1 = true ↔
      L < 6 + epsilon := by
    unfold runTo
    dsimp only
    rw [hnvel, ht, hdist]
    by_cases hbig : 1 < L / 6
    · have h6 : 6 < L := by
        have := (lt_div_iff₀ (by norm_num : (0 : ℝ) < 6)).1 hbig
        linarith
      rw [if_pos hbig, mul_one, abs_of_neg (by linarith)]
      split
      · next hlt => simp only [true_iff]; linarith
      · next hlt => simp only [Bool.false_eq_true, false_iff]; linarith
    · have h6 : L ≤ 6 := by
        have := not_lt.1 hbig
        have := (div_le_iff₀ (by norm_num : (0 : ℝ) < 6)).1 this
        linarith
      rw [if_neg hbig]
      have hzero : 6 * (L / 6) - L = 0 := by ring
      rw [hzero, abs_zero, if_pos he]
      simp only [true_iff]; linarith
  refine ⟨?_, hret, fun hlt => hret.2 (by linarith)⟩
  rw [runTo_snd, hforce]

theorem runTo_straight_at_speed_limit_witness :
    (⟨10, 0⟩ : Vector2D ℝ) ≠ ⟨0, 0⟩ ∧ (0 : ℝ) < 1 / 10 ∧
      (runTo Real.sqrt ⟨0, 0⟩
        (Vector2D.lscale (PUSHER_SPEED_LIMIT ℝ)
          (((⟨10, 0⟩ : Vector2D ℝ).sub ⟨0, 0⟩).norm Real.sqrt))
        ⟨10, 0⟩ (1 / 10)).1 = false := by
  have hne : (⟨10, 0⟩ : Vector2D ℝ) ≠ ⟨0, 0⟩ := by simp [vec_eq_iff]
  have hm : ((⟨10, 0⟩ : Vector2D ℝ).sub ⟨0, 0⟩).mag Real.sqrt = 10 := by
    norm_num [Vector2D.sub, mag_axis_x]
  have h := (runTo_straight_at_speed_limit ⟨0, 0⟩ ⟨10, 0⟩ (1 / 10) hne (by norm_num)).2.1
  refine ⟨hne, by norm_num, ?_⟩
  cases hr : (runTo Real.sqrt ⟨0, 0⟩
      (Vector2D.lscale (PUSHER_SPEED_LIMIT ℝ)
        (((⟨10, 0⟩ : Vector2D ℝ).sub ⟨0, 0⟩).norm Real.sqrt)) ⟨10, 0⟩ (1 / 10)).1 with
  | false => rfl
  | true =>
    have := h.1 hr
    rw [hm] at this
    norm_num [PUSHER_SPEED_LIMIT] at this

end Straight

/-! ## Which way `getBehind` circles, and where `runTo` is aimed -/

section Circling

open Vector2D

/-- C20: when `getBehind` returns false and the cross product `c` of `pToM` and `mToT`
is not 0, the moment `cross(p.pos - m.pos, force)` of the written force about the marker
is not 0 and has the sign of `c`; and the tangential part of the force has a positive
component towards the point at the present distance directly behind the marker,
`m.pos - dist * mToT`: the pusher is sent round the marker the short way. -/
theorem getBehind_circles_short_way (p : Pusher ℝ) (m : Marker ℝ)
    (target force : Vector2D ℝ) (hp : p.pos ≠ m.pos) (ht : target ≠ m.pos)
    (hf : (getBehind Real.sqrt p m target force).1 = false)
    (hc : ((m.pos.sub p.pos).norm Real.sqrt).cross ((target.sub m.pos).norm Real.sqrt) ≠ 0) :
    let u := (m.pos.sub p.pos).norm Real.sqrt
    let w := (target.sub m.pos).norm Real.sqrt
    let out := (getBehind Real.sqrt p m target force).2
    (p.pos.sub m.pos).cross out ≠ 0 ∧
    0 < (p.pos.sub m.pos).cross out * u.cross w ∧
    (0 < u.cross w → 0 < (p.pos.sub m.pos).cross out) ∧
    (u.cross w < 0 → (p.pos.sub m.pos).cross out < 0) ∧
    0 < (out.sub (Vector2D.lscale (out.dot u) u)).dot
      ((m.pos.sub (w.scale ((m.pos.sub p.pos).mag Real.sqrt))).sub p.pos) := by
  intro u w out
  have _hmT := mag_pos_of_ne ht
  have hu : u.x * u.x + u.y * u.y = 1 := norm_unit (Ne.symm hp)
  have hL : 0 < (m.pos.sub p.pos).mag Real.sqrt := mag_pos_of_ne (Ne.symm hp)
  have hwx : m.pos.x - p.pos.x = (m.pos.sub p.pos).mag Real.sqrt * u.x := by
    show (m.pos.sub p.pos).x = _
    simp only [u, Vector2D.norm]; field_simp
  have hwy : m.pos.y - p.pos.y = (m.pos.sub p.pos).mag Real.sqrt * u.y := by
    show (m.pos.sub p.pos).y = _
    simp only [u, Vector2D.norm]; field_simp
  have hform : out = _ := getBehind_false_form p m target force hf
  change out = ⟨-u.y * (if u.cross w > 0 then (-2 : ℝ) else 2) + u.x * _,
    u.x * (if u.cross w > 0 then (-2 : ℝ) else 2) + u.y * _⟩ at hform
  generalize (if (m.pos.sub p.pos).mag Real.sqrt > 8 then (m.pos.sub p.pos).mag Real.sqrt - 8
    else if (m.pos.sub p.pos).mag Real.sqrt < 6 then -(6 - (m.pos.sub p.pos).mag Real.sqrt)
    else -(p.vel.dot u)) = r at hform
  generalize (m.pos.sub p.pos).mag Real.sqrt = L at hL hwx hwy ⊢
  have hcc : u.cross w ≠ 0 := hc
  generalize hcdef : u.cross w = c at hform hcc ⊢
  have hmoment : ∀ s2 : ℝ, out = ⟨-u.y * s2 + u.x * r, u.x * s2 + u.y * r⟩ →
      (p.pos.sub m.pos).cross out = -(L * s2) := by
    intro s2 hs
    rw [hs]
    simp only [Vector2D.cross, Vector2D.sub]
    linear_combination (-(u.x * s2 + u.y * r)) * hwx + (-u.y * s2 + u.x * r) * hwy
      - (L * s2) * hu
  have htang : ∀ s2 : ℝ, out = ⟨-u.y * s2 + u.x * r, u.x * s2 + u.y * r⟩ →
      (out.sub (Vector2D.lscale (out.dot u) u)).dot ((m.pos.sub (w.scale L)).sub p.pos)
        = -(L * s2 * c) := by
    intro s2 hs
    have hrad : out.dot u = r := by
      rw [hs]; simp only [Vector2D.dot]
      linear_combination r * hu
    rw [hrad, hs, ← hcdef]
    simp only [Vector2D.cross, Vector2D.sub, Vector2D.dot, Vector2D.lscale, Vector2D.scale]
    have e1 : m.pos.x - w.x * L - p.pos.x = L * u.x - w.x * L := by linear_combination hwx
    have e2 : m.pos.y - w.y * L - p.pos.y = L * u.y - w.y * L := by linear_combination hwy
    rw [e1, e2]
    ring
  by_cases hpos : c > 0
  · rw [if_pos hpos] at hform
    have h1 := hmoment (-2) hform
    have h2 := htang (-2) hform
    have hLc : 0 < L * c := mul_pos hL hpos
    refine ⟨?_, ?_, ?_, ?_, ?_⟩
    · rw [h1]; intro h0; linarith
    · rw [h1]; nlinarith
    · intro _; rw [h1]; linarith
    · intro hneg; linarith
    · rw [h2]; nlinarith
  · rw [if_neg hpos] at hform
    have hneg : c < 0 := lt_of_le_of_ne (not_lt.1 hpos) hcc
    have h1 := hmoment 2 hform
    have h2 := htang 2 hform
    have hLc : 0 < L * (-c) := mul_pos hL (by linarith)
    refine ⟨?_, ?_, ?_, ?_, ?_⟩
    · rw [h1]; intro h0; linarith
    · rw [h1]; nlinarith
    · intro h0; linarith
    · intro _; rw [h1]; linarith
    · rw [h2]; nlinarith

theorem getBehind_circles_short_way_witness :
    (⟨0, 0⟩ : Vector2D ℝ) ≠ ⟨10, 0⟩ ∧ (⟨10, 10⟩ : Vector2D ℝ) ≠ ⟨10, 0⟩ ∧
      (getBehind Real.sqrt ⟨⟨0, 0⟩, ⟨0, 0⟩, true, 0, 0, ⟨10, 10⟩⟩ ⟨⟨10, 0⟩, ⟨0, 0⟩, 1⟩
        ⟨10, 10⟩ ⟨0, 0⟩).1 = false ∧
      (((⟨10, 0⟩ : Vector2D ℝ).sub ⟨0, 0⟩).norm Real.sqrt).cross
        (((⟨10, 10⟩ : Vector2D ℝ).sub ⟨10, 0⟩).norm Real.sqrt) ≠ 0 ∧
      0 < ((⟨0, 0⟩ : Vector2D ℝ).sub ⟨10, 0⟩).cross
        (getBehind Real.sqrt ⟨⟨0, 0⟩, ⟨0, 0⟩, true, 0, 0, ⟨10, 10⟩⟩ ⟨⟨10, 0⟩, ⟨0, 0⟩, 1⟩
          ⟨10, 10⟩ ⟨0, 0⟩).2 := by
  have h1 : (⟨0, 0⟩ : Vector2D ℝ) ≠ ⟨10, 0⟩ := by simp [vec_eq_iff]
  have h2 : (⟨10, 10⟩ : Vector2D ℝ) ≠ ⟨10, 0⟩ := by simp [vec_eq_iff]
  have h3 : (getBehind Real.sqrt ⟨⟨0, 0⟩, ⟨0, 0⟩, true, 0, 0, ⟨10, 10⟩⟩
      ⟨⟨10, 0⟩, ⟨0, 0⟩, 1⟩ ⟨10, 10⟩ ⟨0, 0⟩).1 = false := by
    rw [getBehind_example_far]
  have b1 : ((⟨10, 10⟩ : Vector2D ℝ).sub ⟨10, 0⟩).norm Real.sqrt = ⟨0, 1⟩ := by
    norm_num [Vector2D.sub, norm_axis_y]
  have b2 : ((⟨10, 0⟩ : Vector2D ℝ).sub ⟨0, 0⟩).norm Real.sqrt = ⟨1, 0⟩ := by
    norm_num [Vector2D.sub, norm_axis_x]
  have hc : (((⟨10, 0⟩ : Vector2D ℝ).sub ⟨0, 0⟩).norm Real.sqrt).cross
      (((⟨10, 10⟩ : Vector2D ℝ).sub ⟨10, 0⟩).norm Real.sqrt) = 1 := by
    rw [b1, b2]; norm_num [Vector2D.cross]
  have hne : (((⟨10, 0⟩ : Vector2D ℝ).sub ⟨0, 0⟩).norm Real.sqrt).cross
      (((⟨10, 10⟩ : Vector2D ℝ).sub ⟨10, 0⟩).norm Real.sqrt) ≠ 0 := by
    rw [hc]; norm_num
  exact ⟨h1, h2, h3, hne,
    (getBehind_circles_short_way ⟨⟨0, 0⟩, ⟨0, 0⟩, true, 0, 0, ⟨10, 10⟩⟩
      ⟨⟨10, 0⟩, ⟨0, 0⟩, 1⟩ ⟨10, 10⟩ ⟨0, 0⟩ h1 h2 h3 hne).2.2.1 (by rw [hc]; norm_num)⟩

/-- The point one unit behind the marker, seen from the marker. -/
theorem behind_offset (M T : Vector2D ℝ) :
    (M.sub ((T.sub M).norm Real.sqrt)).sub M
      = ⟨-((T.sub M).norm Real.sqrt).x, -((T.sub M).norm Real.sqrt).y⟩ := by
  rw [vec_eq_iff]
  simp only [Vector2D.sub]
  constructor <;> ring

/-- The point `M - (T - M).norm()`: at distance 1 from `M`, collinear with `M` and `T`,
on the side of `M` opposite to `T`. -/
theorem behind_geometry (M T : Vector2D ℝ) (hne : T ≠ M) :
    ((M.sub ((T.sub M).norm Real.sqrt)).sub M).mag Real.sqrt = 1 ∧
    ((M.sub ((T.sub M).norm Real.sqrt)).sub M).cross (T.sub M) = 0 ∧
    ((M.sub ((T.sub M).norm Real.sqrt)).sub M).dot (T.sub M) = -((T.sub M).mag Real.sqrt) ∧
    ((M.sub ((T.sub M).norm Real.sqrt)).sub M).dot (T.sub M) < 0 := by
  have hu := norm_unit hne
  have hL : 0 < (T.sub M).mag Real.sqrt := mag_pos_of_ne hne
  have hwx : (T.sub M).x = (T.sub M).mag Real.sqrt * ((T.sub M).norm Real.sqrt).x := by
    simp only [Vector2D.norm]; field_simp
  have hwy : (T.sub M).y = (T.sub M).mag Real.sqrt * ((T.sub M).norm Real.sqrt).y := by
    simp only [Vector2D.norm]; field_simp
  rw [behind_offset]
  generalize (T.sub M).norm Real.sqrt = n at hu hwx hwy
  generalize (T.sub M).mag Real.sqrt = L at hL hwx hwy
  have hdot : (⟨-n.x, -n.y⟩ : Vector2D ℝ).dot (T.sub M) = -L := by
    simp only [Vector2D.dot, hwx, hwy]
    linear_combination (-L) * hu
  refine ⟨?_, ?_, hdot, by rw [hdot]; linarith⟩
  · apply mag_of_unit
    show -n.x * -n.x + -n.y * -n.y = 1
    linear_combination hu
  · simp only [Vector2D.cross, hwx, hwy]
    ring

/-- C13: for a decision step that returns and leaves the pusher busy, with marker
position `M` and destination `T = targetPos`, `T != M`: the point `M - (T - M).norm()`
lies at distance exactly 1 from `M`, is collinear with `M` and `T`, and its offset from
`M` has dot product `-|T - M| < 0` with `T - M`; the force emitted is the force `runTo`
writes for that target when `getBehind` reports in position, and the force `getBehind`
writes when it reports not in position. -/
theorem runTo_target_behind_marker (draws : Nat → Nat) (mList : List (Marker ℝ))
    (c c2 : Control ℝ) (pdex : Nat) (f : Vector2D ℝ)
    (hstep : pusherStep Real.sqrt draws mList c pdex = some (c2, f)) :
    ∃ p2, c2.pList[pdex]? = some p2 ∧
      (p2.busy = true → ∃ marker, markerAt mList p2.mdex = some marker ∧
        (p2.targetPos ≠ marker.pos →
          ((marker.pos.sub ((p2.targetPos.sub marker.pos).norm Real.sqrt)).sub
            marker.pos).mag Real.sqrt = 1 ∧
          ((marker.pos.sub ((p2.targetPos.sub marker.pos).norm Real.sqrt)).sub
            marker.pos).cross (p2.targetPos.sub marker.pos) = 0 ∧
          ((marker.pos.sub ((p2.targetPos.sub marker.pos).norm Real.sqrt)).sub
            marker.pos).dot (p2.targetPos.sub marker.pos)
              = -((p2.targetPos.sub marker.pos).mag Real.sqrt) ∧
          ((marker.pos.sub ((p2.targetPos.sub marker.pos).norm Real.sqrt)).sub
            marker.pos).dot (p2.targetPos.sub marker.pos) < 0 ∧
          ((getBehind Real.sqrt p2 marker p2.targetPos ⟨0, 0⟩).1 = true →
            f = (runTo Real.sqrt p2.pos p2.vel
              (marker.pos.sub ((p2.targetPos.sub marker.pos).norm Real.sqrt))
              (defaultEpsilon ℝ)).2) ∧
          ((getBehind Real.sqrt p2 marker p2.targetPos ⟨0, 0⟩).1 = false →
            f = (getBehind Real.sqrt p2 marker p2.targetPos ⟨0, 0⟩).2))) := by
  obtain ⟨p, p1, p2, hget, _, _, hforce, hset⟩ :=
    pusherStep_inv Real.sqrt draws mList c c2 pdex f hstep
  have hlt : pdex < c.pList.length := (List.getElem?_eq_some_iff.1 hget).1
  obtain ⟨_, hbusy⟩ := chooseForce_spec Real.sqrt mList p2 f hforce
  refine ⟨p2, by rw [hset]; exact List.getElem?_set_self hlt, ?_⟩
  intro hb
  obtain ⟨marker, hmk, hrun, hgb⟩ := hbusy hb
  refine ⟨marker, hmk, fun hne => ?_⟩
  obtain ⟨g1, g2, g3, g4⟩ := behind_geometry marker.pos p2.targetPos hne
  exact ⟨g1, g2, g3, g4, hrun, hgb⟩

theorem runTo_target_behind_marker_witness :
    ∃ p2 : Pusher ℝ,
      ([⟨⟨0, 0⟩, ⟨0, 0⟩, true, 1, 0, ⟨10, 10⟩⟩, ⟨⟨1, 1⟩, ⟨0, 0⟩, false, 0, 0, ⟨0, 0⟩⟩,
        ⟨⟨2, 2⟩, ⟨0, 0⟩, false, 0, 0, ⟨0, 0⟩⟩, ⟨⟨3, 3⟩, ⟨0, 0⟩, false, 0, 0, ⟨0, 0⟩⟩,
        ⟨⟨4, 4⟩, ⟨0, 0⟩, false, 0, 0, ⟨0, 0⟩⟩, ⟨⟨5, 5⟩, ⟨0, 0⟩, false, 0, 0, ⟨0, 0⟩⟩] :
          List (Pusher ℝ))[0]? = some p2 ∧
      (((⟨10, 0⟩ : Vector2D ℝ).sub (((⟨10, 10⟩ : Vector2D ℝ).sub ⟨10, 0⟩).norm Real.sqrt)).sub
        ⟨10, 0⟩).mag Real.sqrt = 1 ∧
      (⟨2, -2⟩ : Vector2D ℝ) = (getBehind Real.sqrt ⟨⟨0, 0⟩, ⟨0, 0⟩, true, 1, 0, ⟨10, 10⟩⟩
        ⟨⟨10, 0⟩, ⟨0, 0⟩, 1⟩ ⟨10, 10⟩ ⟨0, 0⟩).2 := by
  obtain ⟨p2, h1, h3⟩ :=
    runTo_target_behind_marker (fun _ => 0) _ _ _ 0 _ pusherStep_example
  have h1b := h1
  simp only [List.getElem?_cons_zero, Option.some.injEq] at h1b
  subst h1b
  obtain ⟨marker, hmk, hrest⟩ := h3 rfl
  simp only [markerAt, le_refl, reduceIte, Int.toNat_zero, List.getElem?_cons_zero,
    Option.some.injEq] at hmk
  subst hmk
  have hall := hrest (by simp [vec_eq_iff])
  exact ⟨_, h1, hall.1, hall.2.2.2.2.2 (by rw [getBehind_far _ _ _ rfl rfl])⟩

end Circling

/-! ## Job selection against the teammates -/

section Teammates

/-- When the loop ends with `available = true`, no index it visited was a busy teammate
on the drawn marker. -/
theorem availableLoop_true_inv {K : Type} (pList : List (Pusher K)) (pdex : Nat)
    (mdex : Int) (js : List Nat) (a : Bool)
    (h : availableLoop pList pdex mdex js a = some true) :
    a = true ∧ ∀ j ∈ js, teammateOn pList pdex mdex j = some false := by
  induction js generalizing a with
  | nil =>
    simp only [availableLoop, Option.some.injEq] at h
    exact ⟨h, fun j hj => absurd hj (List.not_mem_nil _)⟩
  | cons k js ih =>
    unfold availableLoop at h
    cases hk : teammateOn pList pdex mdex k with
    | none => simp [hk] at h
    | some hit =>
      simp only [hk] at h
      obtain ⟨ha, hrest⟩ := ih _ h
      cases hit with
      | true => simp at ha
      | false =>
        simp only [Bool.false_eq_true, reduceIte] at ha
        refine ⟨ha, fun j hj => ?_⟩
        rcases List.mem_cons.1 hj with rfl | hmem
        · exact hk
        · exact hrest j hmem

/-- When no visited index is a busy teammate on the drawn marker the flag is kept. -/
theorem availableLoop_free {K : Type} (pList : List (Pusher K)) (pdex : Nat)
    (mdex : Int) (js : List Nat) (a : Bool)
    (h : ∀ j ∈ js, teammateOn pList pdex mdex j = some false) :
    availableLoop pList pdex mdex js a = some a := by
  induction js generalizing a with
  | nil => rfl
  | cons k js ih =>
    simp only [availableLoop, h k (List.mem_cons_self _ _), Bool.false_eq_true, reduceIte]
    exact ih a (fun j hj => h j (List.mem_cons_of_mem _ hj))

theorem teammateOn_false_iff {K : Type} (pList : List (Pusher K)) (pdex : Nat)
    (mdex : Int) (j : Nat) (q : Pusher K) (hne : j ≠ pdex) (hq : pList[j]? = some q) :
    teammateOn pList pdex mdex j = some false ↔ ¬ (q.busy = true ∧ q.mdex = mdex) := by
  unfold teammateOn
  simp only [bne_iff_ne, ne_eq, hne, not_false_eq_true, reduceIte, hq, Option.some.injEq,
    Bool.and_eq_false_imp, beq_eq_false_iff_ne, not_and]

/-- With `available = true`, no other own pusher is busy on the drawn marker. -/
theorem available_true_inv {K : Type} (pList : List (Pusher K)) (pdex : Nat) (mdex : Int)
    (h : available pList pdex mdex = some true) (j : Nat) (hj : j < PCOUNT)
    (hne : j ≠ pdex) (q : Pusher K) (hq : pList[j]? = some q) :
    ¬ (q.busy = true ∧ q.mdex = mdex) :=
  (teammateOn_false_iff pList pdex mdex j q hne hq).1
    ((availableLoop_true_inv pList pdex mdex _ true h).2 j (List.mem_range.2 hj))

/-- With no other own pusher busy on the drawn marker, `available = true`. -/
theorem available_free {K : Type} (pList : List (Pusher K)) (pdex : Nat) (mdex : Int)
    (hlen : PCOUNT ≤ pList.length)
    (h : ∀ j, j < PCOUNT → j ≠ pdex → ∀ q, pList[j]? = some q →
      ¬ (q.busy = true ∧ q.mdex = mdex)) :
    available pList pdex mdex = some true := by
  apply availableLoop_free
  intro j hj
  have hj3 : j < PCOUNT := List.mem_range.1 hj
  by_cases hne : j = pdex
  · simp [teammateOn, hne]
  · have hlt : j < pList.length := lt_of_lt_of_le hj3 hlen
    exact (teammateOn_false_iff pList pdex mdex j _ hne (List.getElem?_eq_getElem hlt)).2
      (h j hj3 hne _ (List.getElem?_eq_getElem hlt))

/-- Job selection of an idle pusher whose drawn marker is free, spelled out. -/
theorem chooseJob_accept {K : Type} [LinearOrderedField K] (draws : Nat → Nat)
    (mList : List (Marker K)) (pList : List (Pusher K)) (pdex : Nat) (p : Pusher K)
    (cur : Nat) (mk : Marker K) (h : p.busy = false) (hm : mList ≠ [])
    (ha : available pList pdex ((draws cur % mList.length : Nat) : Int) = some true)
    (hmk : markerAt mList ((draws cur % mList.length : Nat) : Int) = some mk) :
    chooseJob draws mList pList pdex p cur
      = some ({ p with mdex := ((draws cur % mList.length : Nat) : Int)
                       targetPos := if mk.color = RED then
                           randomFieldPosition (draws (cur + 1)) (draws (cur + 2))
                         else ⟨10, 10⟩
                       busy := true
                       jobTime := 0 },
              if mk.color = RED then cur + 3 else cur + 1) := by
  have hlen : mList.length ≠ 0 := fun h0 => hm (List.length_eq_zero.1 h0)
  unfold chooseJob
  rw [h]
  simp only [Bool.not_false, reduceIte, hlen, ha, hmk]
  by_cases hc : mk.color = RED
  · have hb : (mk.color == RED) = true := by simp [hc]
    rw [if_pos hb, if_pos hc, if_pos hc]
  · have hb : ¬ (mk.color == RED) = true := by simp [hc]
    rw [if_neg hb, if_neg hc, if_neg hc]

/-- One iteration of the decision loop for an idle pusher whose drawn marker is free. -/
theorem pusherStep_accept {K : Type} [LinearOrderedField K] (sqrt : K → K)
    (draws : Nat → Nat) (mList : List (Marker K)) (c : Control K) (pdex : Nat)
    (p : Pusher K) (hlen : c.pList.length = 2 * PCOUNT) (hm : mList ≠ [])
    (hP : c.pList[pdex]? = some p) (hidle : p.busy = false)
    (hfree : ∀ j, j < PCOUNT → j ≠ pdex → ∀ q, c.pList[j]? = some q →
      ¬ (q.busy = true ∧ q.mdex = ((draws c.cur % mList.length : Nat) : Int))) :
    ∃ mk f, markerAt mList ((draws c.cur % mList.length : Nat) : Int) = some mk ∧
      chooseForce sqrt mList
        { p with mdex := ((draws c.cur % mList.length : Nat) : Int)
                 targetPos := if mk.color = RED then
                     randomFieldPosition (draws (c.cur + 1)) (draws (c.cur + 2))
                   else ⟨10, 10⟩
                 busy := true
                 jobTime := 0 } = some f ∧
      pusherStep sqrt draws mList c pdex
        = some (⟨c.pList.set pdex
            { p with mdex := ((draws c.cur % mList.length : Nat) : Int)
                     targetPos := if mk.color = RED then
                         randomFieldPosition (draws (c.cur + 1)) (draws (c.cur + 2))
                       else ⟨10, 10⟩
                     busy := true
                     jobTime := 0 },
          if mk.color = RED then c.cur + 3 else c.cur + 1⟩, f) := by
  have h3 : PCOUNT ≤ c.pList.length := by rw [hlen]; decide
  have hs := set_same c.pList pdex p hP
  obtain ⟨mk, hmk⟩ := markerAt_drawn mList (draws c.cur) hm
  have hav : available c.pList pdex ((draws c.cur % mList.length : Nat) : Int) = some true :=
    available_free c.pList pdex _ h3 hfree
  have h1 := updateJob_idle sqrt mList p hidle
  have h2 := chooseJob_accept draws mList c.pList pdex p c.cur mk hidle hm hav hmk
  have hpos : 0 < mList.length := List.length_pos.2 hm
  obtain ⟨f, hf⟩ := chooseForce_isSome sqrt mList
    { p with mdex := ((draws c.cur % mList.length : Nat) : Int)
             targetPos := if mk.color = RED then
                 randomFieldPosition (draws (c.cur + 1)) (draws (c.cur + 2))
               else ⟨10, 10⟩
             busy := true
             jobTime := 0 }
    (fun _ => ⟨Int.ofNat_nonneg _, Int.ofNat_lt.2 (Nat.mod_lt _ hpos)⟩)
  refine ⟨mk, f, hmk, hf, ?_⟩
  unfold pusherStep
  simp only [hP, h1, hs, h2, hf]

/-- Both coordinates of `randomFieldPosition` are integers between `MARKER_RADIUS` and
`FIELD_SIZE - MARKER_RADIUS`. -/
theorem randomFieldPosition_bounds (r1 r2 : Nat) :
    ∃ a b : Nat, MARKER_RADIUS ≤ a ∧ a ≤ FIELD_SIZE - MARKER_RADIUS ∧
      MARKER_RADIUS ≤ b ∧ b ≤ FIELD_SIZE - MARKER_RADIUS ∧
      (randomFieldPosition r1 r2 : Vector2D ℝ) = ⟨(a : ℝ), (b : ℝ)⟩ := by
  have h1 : r1 % fieldRange < fieldRange := Nat.mod_lt _ (by decide)
  have h2 : r2 % fieldRange < fieldRange := Nat.mod_lt _ (by decide)
  have hr : fieldRange = 97 := by decide
  rw [hr] at h1 h2
  refine ⟨MARKER_RADIUS + r1 % fieldRange, MARKER_RADIUS + r2 % fieldRange, ?_, ?_, ?_, ?_, rfl⟩
  all_goals simp only [MARKER_RADIUS, FIELD_SIZE, hr]; omega

/-- C11: an idle own pusher whose drawn marker index `k = r mod mList.size()` is not the
`mdex` of any other busy own pusher: its step returns and makes it busy with `mdex = k`
and `jobTime = 0`; if `mList[k].color` is RED, `targetPos` is `randomFieldPosition()`
(two more calls of `rand()`), whose coordinates are integers in
`[MARKER_RADIUS, FIELD_SIZE - MARKER_RADIUS]` for all values of `rand()`; otherwise
`targetPos` is (10,10) and no further value is drawn. -/
theorem idle_pick_free_takes_job (draws : Nat → Nat) (mList : List (Marker ℝ))
    (c : Control ℝ) (pdex : Nat) (p : Pusher ℝ)
    (hlen : c.pList.length = 2 * PCOUNT) (hm : mList ≠ []) (hp : pdex < PCOUNT)
    (hP : c.pList[pdex]? = some p) (hidle : p.busy = false)
    (hfree : ∀ j, j < PCOUNT → j ≠ pdex → ∀ q, c.pList[j]? = some q →
      ¬ (q.busy = true ∧ q.mdex = ((draws c.cur % mList.length : Nat) : Int))) :
    ∃ (mk : Marker ℝ) (f : Vector2D ℝ) (p2 : Pusher ℝ) (cur2 : Nat),
      markerAt mList ((draws c.cur % mList.length : Nat) : Int) = some mk ∧
      pusherStep Real.sqrt draws mList c pdex = some (⟨c.pList.set pdex p2, cur2⟩, f) ∧
      (c.pList.set pdex p2)[pdex]? = some p2 ∧
      p2.busy = true ∧ p2.mdex = ((draws c.cur % mList.length : Nat) : Int) ∧
      p2.jobTime = 0 ∧ p2.pos = p.pos ∧ p2.vel = p.vel ∧
      (mk.color = RED →
        p2.targetPos = randomFieldPosition (draws (c.cur + 1)) (draws (c.cur + 2)) ∧
        cur2 = c.cur + 3) ∧
      (mk.color ≠ RED → p2.targetPos = ⟨10, 10⟩ ∧ cur2 = c.cur + 1) ∧
      (∀ r1 r2 : Nat, ∃ a b : Nat, MARKER_RADIUS ≤ a ∧ a ≤ FIELD_SIZE - MARKER_RADIUS ∧
        MARKER_RADIUS ≤ b ∧ b ≤ FIELD_SIZE - MARKER_RADIUS ∧
        (randomFieldPosition r1 r2 : Vector2D ℝ) = ⟨(a : ℝ), (b : ℝ)⟩) := by
  have hown : pdex < c.pList.length := by rw [hlen]; exact lt_of_lt_of_le hp (by decide)
  obtain ⟨mk, f, hmk, _, hstep⟩ :=
    pusherStep_accept Real.sqrt draws mList c pdex p hlen hm hP hidle hfree
  refine ⟨mk, f, _, _, hmk, hstep, List.getElem?_set_self hown, rfl, rfl, rfl, rfl, rfl,
    ?_, ?_, randomFieldPosition_bounds⟩
  · intro hc
    simp only [hc, reduceIte, and_self]
  · intro hc
    simp only [hc, reduceIte, and_self]

theorem idle_pick_free_takes_job_witness :
    ∃ (f : Vector2D ℝ) (p2 : Pusher ℝ) (cur2 : Nat),
      pusherStep Real.sqrt (fun _ => 0) [⟨⟨10, 0⟩, ⟨0, 0⟩, 1⟩]
        ⟨[⟨⟨0, 0⟩, ⟨0, 0⟩, false, 0, 0, ⟨0, 0⟩⟩, ⟨⟨1, 1⟩, ⟨0, 0⟩, false, 0, 0, ⟨0, 0⟩⟩,
          ⟨⟨2, 2⟩, ⟨0, 0⟩, false, 0, 0, ⟨0, 0⟩⟩, ⟨⟨3, 3⟩, ⟨0, 0⟩, false, 0, 0, ⟨0, 0⟩⟩,
          ⟨⟨4, 4⟩, ⟨0, 0⟩, false, 0, 0, ⟨0, 0⟩⟩, ⟨⟨5, 5⟩, ⟨0, 0⟩, false, 0, 0, ⟨0, 0⟩⟩], 0⟩ 0
        = some (⟨([⟨⟨0, 0⟩, ⟨0, 0⟩, false, 0, 0, ⟨0, 0⟩⟩, ⟨⟨1, 1⟩, ⟨0, 0⟩, false, 0, 0, ⟨0, 0⟩⟩,
          ⟨⟨2, 2⟩, ⟨0, 0⟩, false, 0, 0, ⟨0, 0⟩⟩, ⟨⟨3, 3⟩, ⟨0, 0⟩, false, 0, 0, ⟨0, 0⟩⟩,
          ⟨⟨4, 4⟩, ⟨0, 0⟩, false, 0, 0, ⟨0, 0⟩⟩, ⟨⟨5, 5⟩, ⟨0, 0⟩, false, 0, 0, ⟨0, 0⟩⟩] :
            List (Pusher ℝ)).set 0 p2, cur2⟩, f) ∧
      p2.busy = true ∧ p2.mdex = 0 ∧ p2.jobTime = 0 ∧ p2.targetPos = ⟨10, 10⟩ ∧
      cur2 = 1 := by
  obtain ⟨mk, f, p2, cur2, hmk, hstep, _, hb, hmd, hjt, _, _, _, hblue, _⟩ :=
    idle_pick_free_takes_job (fun _ => 0) [⟨⟨10, 0⟩, ⟨0, 0⟩, 1⟩]
      ⟨[⟨⟨0, 0⟩, ⟨0, 0⟩, false, 0, 0, ⟨0, 0⟩⟩, ⟨⟨1, 1⟩, ⟨0, 0⟩, false, 0, 0, ⟨0, 0⟩⟩,
        ⟨⟨2, 2⟩, ⟨0, 0⟩, false, 0, 0, ⟨0, 0⟩⟩, ⟨⟨3, 3⟩, ⟨0, 0⟩, false, 0, 0, ⟨0, 0⟩⟩,
        ⟨⟨4, 4⟩, ⟨0, 0⟩, false, 0, 0, ⟨0, 0⟩⟩, ⟨⟨5, 5⟩, ⟨0, 0⟩, false, 0, 0, ⟨0, 0⟩⟩], 0⟩ 0
      ⟨⟨0, 0⟩, ⟨0, 0⟩, false, 0, 0, ⟨0, 0⟩⟩ rfl (by simp) (by decide) rfl rfl
      (by
        intro j hj hne q hq
        have hj3 : j < 3 := hj
        interval_cases j
        · exact absurd rfl hne
        · simp only [List.getElem?_cons_succ, List.getElem?_cons_zero,
            Option.some.injEq] at hq
          rw [← hq]; simp
        · simp only [List.getElem?_cons_succ, List.getElem?_cons_zero,
            Option.some.injEq] at hq
          rw [← hq]; simp)
  have hmk2 : mk = ⟨⟨10, 0⟩, ⟨0, 0⟩, 1⟩ := by
    simp [markerAt] at hmk
    exact hmk.symm
  have hne : mk.color ≠ RED := by rw [hmk2]; decide
  refine ⟨f, p2, cur2, hstep, hb, ?_, hjt, (hblue hne).1, (hblue hne).2⟩
  rw [hmd]; simp

end Teammates

/-! ## Visibility of jobs claimed within a turn, and the invariants of the loop -/

section Invariants

/-- The timer and job-finished test keep `mdex` and never make an idle pusher busy. -/
theorem updateJob_inv {K : Type} [LinearOrderedField K] (sqrt : K → K)
    (mList : List (Marker K)) (p p1 : Pusher K) (h : updateJob sqrt mList p = some p1) :
    p1.mdex = p.mdex ∧ (p1.busy = true → p.busy = true) := by
  by_cases hb : p.busy = true
  · unfold updateJob at h
    rw [if_pos hb] at h
    cases hm : markerAt mList p.mdex with
    | none =>
      by_cases ht : incInt32 p.jobTime ≥ 35
      · simp [ht, hm] at h
      · simp [ht, hm] at h
    | some mk =>
      obtain ⟨q1, hq1, _, _, hmd, _, _, _⟩ := updateJob_busy sqrt mList p mk hb hm
      unfold updateJob at hq1
      rw [if_pos hb] at hq1
      rw [h, Option.some.injEq] at hq1
      subst hq1
      exact ⟨hmd, fun _ => hb⟩
  · have hf : p.busy = false := by simpa using hb
    rw [updateJob_idle sqrt mList p hf, Option.some.injEq] at h
    subst h
    exact ⟨rfl, fun h1 => h1⟩

/-- Job selection either leaves the pusher as it is, or makes an idle pusher busy on a
marker for which the teammate loop ended with `available = true`. -/
theorem chooseJob_inv {K : Type} [LinearOrderedField K] (draws : Nat → Nat)
    (mList : List (Marker K)) (pList : List (Pusher K)) (pdex : Nat) (p1 p2 : Pusher K)
    (cur cur2 : Nat) (h : chooseJob draws mList pList pdex p1 cur = some (p2, cur2)) :
    p2 = p1 ∨ (p1.busy = false ∧ p2.busy = true ∧
      available pList pdex p2.mdex = some true) := by
  by_cases hb : p1.busy = true
  · rw [chooseJob_busy draws mList pList pdex p1 cur hb, Option.some.injEq,
      Prod.mk.injEq] at h
    exact Or.inl h.1.symm
  · have hf : p1.busy = false := by simpa using hb
    by_cases hm : mList = []
    · simp [chooseJob, hf, hm] at h
    · cases hav : available pList pdex ((draws cur % mList.length : Nat) : Int) with
      | none =>
        have hlen : mList.length ≠ 0 := fun h0 => hm (List.length_eq_zero.1 h0)
        unfold chooseJob at h
        rw [hf] at h
        simp only [Bool.not_false, reduceIte, hlen, hav] at h
        exact absurd h (by simp)
      | some b =>
        cases b with
        | false =>
          rw [chooseJob_taken draws mList pList pdex p1 cur hf hm hav, Option.some.injEq,
            Prod.mk.injEq] at h
          exact Or.inl h.1.symm
        | true =>
          obtain ⟨mk, hmk⟩ := markerAt_drawn mList (draws cur) hm
          rw [chooseJob_accept draws mList pList pdex p1 cur mk hf hm hav hmk,
            Option.some.injEq, Prod.mk.injEq] at h
          refine Or.inr ⟨hf, ?_, ?_⟩
          · rw [← h.1]
          · rw [← h.1]; exact hav

/-- An iteration of the decision loop changes only the entry of its pusher. -/
theorem pusherStep_frame {K : Type} [LinearOrderedField K] (sqrt : K → K)
    (draws : Nat → Nat) (mList : List (Marker K)) (c c2 : Control K) (pdex : Nat)
    (f : Vector2D K) (h : pusherStep sqrt draws mList c pdex = some (c2, f)) (l : Nat)
    (hl : l ≠ pdex) : c2.pList[l]? = c.pList[l]? := by
  obtain ⟨_, _, p2, _, _, _, _, hset⟩ := pusherStep_inv sqrt draws mList c c2 pdex f h
  rw [hset]
  exact List.getElem?_set_ne (fun h => hl h.symm)

/-- How the entry of the pusher changes in an iteration that returns: it keeps its job
(same `mdex`, and it was busy before), or it is idle, or it holds a job taken in this
iteration, on a marker no other own pusher is busy with at that moment. -/
theorem pusherStep_own {K : Type} [LinearOrderedField K] (sqrt : K → K)
    (draws : Nat → Nat) (mList : List (Marker K)) (c c2 : Control K) (pdex : Nat)
    (f : Vector2D K) (h : pusherStep sqrt draws mList c pdex = some (c2, f)) :
    ∃ p p2, c.pList[pdex]? = some p ∧ c2.pList[pdex]? = some p2 ∧
      (p2.busy = true →
        (p.busy = true ∧ p2.mdex = p.mdex) ∨
        (∀ l, l < PCOUNT → l ≠ pdex → ∀ q, c.pList[l]? = some q →
          ¬ (q.busy = true ∧ q.mdex = p2.mdex))) ∧
      (p.busy = false → p2.busy = true →
        ∀ l, l < PCOUNT → l ≠ pdex → ∀ q, c.pList[l]? = some q →
          ¬ (q.busy = true ∧ q.mdex = p2.mdex)) := by
  obtain ⟨p, p1, p2, hget, h1, h2, _, hset⟩ := pusherStep_inv sqrt draws mList c c2 pdex f h
  have hlt : pdex < c.pList.length := (List.getElem?_eq_some_iff.1 hget).1
  obtain ⟨hmd, hb1⟩ := updateJob_inv sqrt mList p p1 h1
  have hfresh : available (c.pList.set pdex p1) pdex p2.mdex = some true →
      ∀ l, l < PCOUNT → l ≠ pdex → ∀ q, c.pList[l]? = some q →
        ¬ (q.busy = true ∧ q.mdex = p2.mdex) := by
    intro hav l hl hne q hq
    unfold available at hav
    rw [availableLoop_set] at hav
    exact available_true_inv c.pList pdex p2.mdex hav l hl hne q hq
  refine ⟨p, p2, hget, by rw [hset]; exact List.getElem?_set_self hlt, ?_, ?_⟩
  · intro hb2
    rcases chooseJob_inv draws mList _ pdex p1 p2 c.cur c2.cur h2 with heq | ⟨_, _, hav⟩
    · left
      rw [heq] at hb2 ⊢
      exact ⟨hb1 hb2, hmd⟩
    · exact Or.inr (hfresh hav)
  · intro hidle hb2
    rcases chooseJob_inv draws mList _ pdex p1 p2 c.cur c2.cur h2 with heq | ⟨_, _, hav⟩
    · rw [heq] at hb2
      have := hb1 hb2
      rw [hidle] at this
      exact absurd this (by simp)
    · exact hfresh hav

/-- An iteration of the decision loop that returns keeps the jobs distinct. -/
theorem pusherStep_distinct {K : Type} [LinearOrderedField K] (sqrt : K → K)
    (draws : Nat → Nat) (mList : List (Marker K)) (c c2 : Control K) (pdex : Nat)
    (f : Vector2D K) (h : pusherStep sqrt draws mList c pdex = some (c2, f))
    (hd : DistinctJobs c) : DistinctJobs c2 := by
  obtain ⟨p, p2, hget, hget2, hbusy, _⟩ := pusherStep_own sqrt draws mList c c2 pdex f h
  have hframe := pusherStep_frame sqrt draws mList c c2 pdex f h
  intro a b ha hb hab pa pb hpa hpb hba hbb
  by_cases hap : a = pdex
  · subst hap
    have hbp : b ≠ a := fun h => hab h.symm
    rw [hget2, Option.some.injEq] at hpa
    subst hpa
    rw [hframe b hbp] at hpb
    rcases hbusy hba with ⟨hpb1, hmd⟩ | hfresh
    · rw [hmd]
      exact hd a b ha hb hab p pb hget hpb hpb1 hbb
    · intro heq
      exact hfresh b hb hbp pb hpb ⟨hbb, heq.symm⟩
  · by_cases hbp : b = pdex
    · subst hbp
      rw [hget2, Option.some.injEq] at hpb
      subst hpb
      rw [hframe a hap] at hpa
      rcases hbusy hbb with ⟨hpb1, hmd⟩ | hfresh
      · rw [hmd]
        exact hd a b ha hb hab pa p hpa hget hba hpb1
      · intro heq
        exact hfresh a ha hap pa hpa ⟨hba, heq⟩
    · rw [hframe a hap] at hpa
      rw [hframe b hbp] at hpb
      exact hd a b ha hb hab pa pb hpa hpb hba hbb

theorem decideLoop_cons_inv {K : Type} [LinearOrderedField K] (sqrt : K → K)
    (draws : Nat → Nat) (mList : List (Marker K)) (pdex : Nat) (ps : List Nat)
    (c c2 : Control K) (fs : List (Vector2D K))
    (h : decideLoop sqrt draws mList (pdex :: ps) c = some (c2, fs)) :
    ∃ c1 f fs1, pusherStep sqrt draws mList c pdex = some (c1, f) ∧
      decideLoop sqrt draws mList ps c1 = some (c2, fs1) ∧ fs = f :: fs1 := by
  unfold decideLoop at h
  cases h1 : pusherStep sqrt draws mList c pdex with
  | none => simp [h1] at h
  | some r =>
    obtain ⟨c1, f⟩ := r
    cases h2 : decideLoop sqrt draws mList ps c1 with
    | none => simp [h1, h2] at h
    | some r2 =>
      obtain ⟨c3, fs1⟩ := r2
      simp only [h1, h2, Option.some.injEq, Prod.mk.injEq] at h
      exact ⟨c1, f, fs1, rfl, by rw [h2, h.1], h.2.symm⟩

/-- The decision loop changes only the entries of the pushers it visits. -/
theorem decideLoop_frame {K : Type} [LinearOrderedField K] (sqrt : K → K)
    (draws : Nat → Nat) (mList : List (Marker K)) (ps : List Nat) (c c2 : Control K)
    (fs : List (Vector2D K)) (h : decideLoop sqrt draws mList ps c = some (c2, fs))
    (i : Nat) (hi : i ∉ ps) : c2.pList[i]? = c.pList[i]? := by
  induction ps generalizing c fs with
  | nil =>
    simp only [decideLoop, Option.some.injEq, Prod.mk.injEq] at h
    rw [← h.1]
  | cons pdex ps ih =>
    obtain ⟨c1, f, fs1, h1, h2, _⟩ := decideLoop_cons_inv sqrt draws mList pdex ps c c2 fs h
    rw [ih c1 fs1 h2 (fun hm => hi (List.mem_cons_of_mem _ hm))]
    exact pusherStep_frame sqrt draws mList c c1 pdex f h1 i
      (fun he => hi (he ▸ List.mem_cons_self _ _))

/-- The decision loop keeps the jobs distinct, whatever pushers it visits. -/
theorem decideLoop_distinct {K : Type} [LinearOrderedField K] (sqrt : K → K)
    (draws : Nat → Nat) (mList : List (Marker K)) (ps : List Nat) (c c2 : Control K)
    (fs : List (Vector2D K)) (h : decideLoop sqrt draws mList ps c = some (c2, fs))
    (hd : DistinctJobs c) : DistinctJobs c2 := by
  induction ps generalizing c fs with
  | nil =>
    simp only [decideLoop, Option.some.injEq, Prod.mk.injEq] at h
    rw [← h.1]; exact hd
  | cons pdex ps ih =>
    obtain ⟨c1, f, fs1, h1, h2, _⟩ := decideLoop_cons_inv sqrt draws mList pdex ps c c2 fs h
    exact ih c1 fs1 h2 (pusherStep_distinct sqrt draws mList c c1 pdex f h1 hd)

/-- A pusher that is idle when the loop starts and busy when it ends took its job in
this loop, on a marker that no own pusher the loop does not visit is busy with. -/
theorem decideLoop_fresh {K : Type} [LinearOrderedField K] (sqrt : K → K)
    (draws : Nat → Nat) (mList : List (Marker K)) (ps : List Nat) (c c2 : Control K)
    (fs : List (Vector2D K)) (h : decideLoop sqrt draws mList ps c = some (c2, fs))
    (hnd : ps.Nodup) (j : Nat) (hj : j ∈ ps) (pj : Pusher K)
    (hpj : c.pList[j]? = some pj) (hidle : pj.busy = false)
    (i : Nat) (hi : i < PCOUNT) (hij : i ≠ j) (hips : i ∉ ps) (pi2 pj2 : Pusher K)
    (hpi2 : c2.pList[i]? = some pi2) (hpj2 : c2.pList[j]? = some pj2) :
    ¬ (pi2.busy = true ∧ pj2.busy = true ∧ pi2.mdex = pj2.mdex) := by
  induction ps generalizing c fs with
  | nil => exact absurd hj (List.not_mem_nil _)
  | cons pdex ps ih =>
    obtain ⟨c1, f, fs1, h1, h2, _⟩ := decideLoop_cons_inv sqrt draws mList pdex ps c c2 fs h
    have hipd : i ≠ pdex := fun he => hips (he ▸ List.mem_cons_self _ _)
    have hirest : i ∉ ps := fun hm => hips (List.mem_cons_of_mem _ hm)
    rcases List.mem_cons.1 hj with rfl | hmem
    · have hjrest : j ∉ ps := (List.nodup_cons.1 hnd).1
      obtain ⟨p, p2, hget, hget2, _, hfresh⟩ :=
        pusherStep_own sqrt draws mList c c1 j f h1
      rw [hpj, Option.some.injEq] at hget
      subst hget
      rw [decideLoop_frame sqrt draws mList ps c1 c2 fs1 h2 j hjrest, hget2,
        Option.some.injEq] at hpj2
      subst hpj2
      rw [decideLoop_frame sqrt draws mList ps c1 c2 fs1 h2 i hirest,
        pusherStep_frame sqrt draws mList c c1 j f h1 i hij] at hpi2
      rintro ⟨hb1, hb2, hmd⟩
      exact hfresh hidle hb2 i hi hij pi2 hpi2 ⟨hb1, hmd⟩
    · have hjpd : j ≠ pdex := fun he => (List.nodup_cons.1 hnd).1 (he ▸ hmem)
      exact ih c1 fs1 h2 (List.nodup_cons.1 hnd).2 hmem
        (by rw [pusherStep_frame sqrt draws mList c c1 pdex f h1 j hjpd]; exact hpj) hirest

/-- The decision loop over a concatenation runs the two parts in turn. -/
theorem decideLoop_append_inv {K : Type} [LinearOrderedField K] (sqrt : K → K)
    (draws : Nat → Nat) (mList : List (Marker K)) (pre post : List Nat) (c c2 : Control K)
    (fs : List (Vector2D K))
    (h : decideLoop sqrt draws mList (pre ++ post) c = some (c2, fs)) :
    ∃ c1 fs1 fs2, decideLoop sqrt draws mList pre c = some (c1, fs1) ∧
      decideLoop sqrt draws mList post c1 = some (c2, fs2) := by
  induction pre generalizing c fs with
  | nil => exact ⟨c, [], fs, rfl, h⟩
  | cons pdex pre ih =>
    obtain ⟨c1, f, fs1, h1, h2, _⟩ :=
      decideLoop_cons_inv sqrt draws mList pdex (pre ++ post) c c2 fs h
    obtain ⟨c3, fs3, fs4, h3, h4⟩ := ih c1 fs1 h2
    exact ⟨c3, f :: fs3, fs4, by simp only [decideLoop, h1, h3], h4⟩

/-- One turn, evaluated: all own pushers idle, one marker of colour BLUE at (10,0), every
call of `rand()` returning 0.  Pusher 0 takes marker 0; pushers 1 and 2 draw marker 0
as well, find pusher 0 busy with it, and stay idle. -/
theorem tick_example :
    tick Real.sqrt (fun _ => 0)
      [(⟨0, 0⟩, ⟨0, 0⟩), (⟨1, 1⟩, ⟨0, 0⟩), (⟨2, 2⟩, ⟨0, 0⟩), (⟨3, 3⟩, ⟨0, 0⟩),
        (⟨4, 4⟩, ⟨0, 0⟩), (⟨5, 5⟩, ⟨0, 0⟩)]
      [⟨⟨10, 0⟩, ⟨0, 0⟩, 1⟩]
      (initialControl (fun _ => ⟨⟨0, 0⟩, ⟨0, 0⟩, true, 7, 5, ⟨1, 1⟩⟩))
    = some (⟨[⟨⟨0, 0⟩, ⟨0, 0⟩, true, 0, 0, ⟨10, 10⟩⟩, ⟨⟨1, 1⟩, ⟨0, 0⟩, false, 7, 5, ⟨1, 1⟩⟩,
        ⟨⟨2, 2⟩, ⟨0, 0⟩, false, 7, 5, ⟨1, 1⟩⟩, ⟨⟨3, 3⟩, ⟨0, 0⟩, false, 7, 5, ⟨1, 1⟩⟩,
        ⟨⟨4, 4⟩, ⟨0, 0⟩, false, 7, 5, ⟨1, 1⟩⟩, ⟨⟨5, 5⟩, ⟨0, 0⟩, false, 7, 5, ⟨1, 1⟩⟩], 3⟩,
      [(⟨2, -2⟩ : Vector2D ℝ), ⟨0, 0⟩, ⟨0, 0⟩]) := by
  have hinit : initialControl (fun _ => (⟨⟨0, 0⟩, ⟨0, 0⟩, true, 7, 5, ⟨1, 1⟩⟩ : Pusher ℝ))
      = ⟨[⟨⟨0, 0⟩, ⟨0, 0⟩, false, 7, 5, ⟨1, 1⟩⟩, ⟨⟨0, 0⟩, ⟨0, 0⟩, false, 7, 5, ⟨1, 1⟩⟩,
        ⟨⟨0, 0⟩, ⟨0, 0⟩, false, 7, 5, ⟨1, 1⟩⟩, ⟨⟨0, 0⟩, ⟨0, 0⟩, false, 7, 5, ⟨1, 1⟩⟩,
        ⟨⟨0, 0⟩, ⟨0, 0⟩, false, 7, 5, ⟨1, 1⟩⟩, ⟨⟨0, 0⟩, ⟨0, 0⟩, false, 7, 5, ⟨1, 1⟩⟩], 0⟩ := by
    rfl
  have hf : chooseForce Real.sqrt [(⟨⟨10, 0⟩, ⟨0, 0⟩, 1⟩ : Marker ℝ)]
      ⟨⟨0, 0⟩, ⟨0, 0⟩, true, 0, 0, ⟨10, 10⟩⟩ = some ⟨2, -2⟩ := by
    simp [chooseForce, markerAt, getBehind_far]
  have hf0 : ∀ p : Pusher ℝ, p.busy = false →
      chooseForce Real.sqrt [(⟨⟨10, 0⟩, ⟨0, 0⟩, 1⟩ : Marker ℝ)] p = some ⟨0, 0⟩ := by
    intro p hp
    simp [chooseForce, hp]
  rw [hinit]
  unfold tick
  simp only [readPushers, range_PCOUNT]
  have s0 : pusherStep Real.sqrt (fun _ => 0) [(⟨⟨10, 0⟩, ⟨0, 0⟩, 1⟩ : Marker ℝ)]
      ⟨[⟨⟨0, 0⟩, ⟨0, 0⟩, false, 7, 5, ⟨1, 1⟩⟩, ⟨⟨1, 1⟩, ⟨0, 0⟩, false, 7, 5, ⟨1, 1⟩⟩,
        ⟨⟨2, 2⟩, ⟨0, 0⟩, false, 7, 5, ⟨1, 1⟩⟩, ⟨⟨3, 3⟩, ⟨0, 0⟩, false, 7, 5, ⟨1, 1⟩⟩,
        ⟨⟨4, 4⟩, ⟨0, 0⟩, false, 7, 5, ⟨1, 1⟩⟩, ⟨⟨5, 5⟩, ⟨0, 0⟩, false, 7, 5, ⟨1, 1⟩⟩], 0⟩ 0
      = some (⟨[⟨⟨0, 0⟩, ⟨0, 0⟩, true, 0, 0, ⟨10, 10⟩⟩, ⟨⟨1, 1⟩, ⟨0, 0⟩, false, 7, 5, ⟨1, 1⟩⟩,
        ⟨⟨2, 2⟩, ⟨0, 0⟩, false, 7, 5, ⟨1, 1⟩⟩, ⟨⟨3, 3⟩, ⟨0, 0⟩, false, 7, 5, ⟨1, 1⟩⟩,
        ⟨⟨4, 4⟩, ⟨0, 0⟩, false, 7, 5, ⟨1, 1⟩⟩, ⟨⟨5, 5⟩, ⟨0, 0⟩, false, 7, 5, ⟨1, 1⟩⟩], 1⟩,
        ⟨2, -2⟩) := by
    simp [pusherStep, updateJob, chooseJob, available, availableLoop, teammateOn,
      range_PCOUNT, markerAt, RED, hf]
  have s1 : pusherStep Real.sqrt (fun _ => 0) [(⟨⟨10, 0⟩, ⟨0, 0⟩, 1⟩ : Marker ℝ)]
      ⟨[⟨⟨0, 0⟩, ⟨0, 0⟩, true, 0, 0, ⟨10, 10⟩⟩, ⟨⟨1, 1⟩, ⟨0, 0⟩, false, 7, 5, ⟨1, 1⟩⟩,
        ⟨⟨2, 2⟩, ⟨0, 0⟩, false, 7, 5, ⟨1, 1⟩⟩, ⟨⟨3, 3⟩, ⟨0, 0⟩, false, 7, 5, ⟨1, 1⟩⟩,
        ⟨⟨4, 4⟩, ⟨0, 0⟩, false, 7, 5, ⟨1, 1⟩⟩, ⟨⟨5, 5⟩, ⟨0, 0⟩, false, 7, 5, ⟨1, 1⟩⟩], 1⟩ 1
      = some (⟨[⟨⟨0, 0⟩, ⟨0, 0⟩, true, 0, 0, ⟨10, 10⟩⟩, ⟨⟨1, 1⟩, ⟨0, 0⟩, false, 7, 5, ⟨1, 1⟩⟩,
        ⟨⟨2, 2⟩, ⟨0, 0⟩, false, 7, 5, ⟨1, 1⟩⟩, ⟨⟨3, 3⟩, ⟨0, 0⟩, false, 7, 5, ⟨1, 1⟩⟩,
        ⟨⟨4, 4⟩, ⟨0, 0⟩, false, 7, 5, ⟨1, 1⟩⟩, ⟨⟨5, 5⟩, ⟨0, 0⟩, false, 7, 5, ⟨1, 1⟩⟩], 2⟩,
        ⟨0, 0⟩) := by
    simp [pusherStep, updateJob, chooseJob, available, availableLoop, teammateOn,
      range_PCOUNT, hf0]
  have s2 : pusherStep Real.sqrt (fun _ => 0) [(⟨⟨10, 0⟩, ⟨0, 0⟩, 1⟩ : Marker ℝ)]
      ⟨[⟨⟨0, 0⟩, ⟨0, 0⟩, true, 0, 0, ⟨10, 10⟩⟩, ⟨⟨1, 1⟩, ⟨0, 0⟩, false, 7, 5, ⟨1, 1⟩⟩,
        ⟨⟨2, 2⟩, ⟨0, 0⟩, false, 7, 5, ⟨1, 1⟩⟩, ⟨⟨3, 3⟩, ⟨0, 0⟩, false, 7, 5, ⟨1, 1⟩⟩,
        ⟨⟨4, 4⟩, ⟨0, 0⟩, false, 7, 5, ⟨1, 1⟩⟩, ⟨⟨5, 5⟩, ⟨0, 0⟩, false, 7, 5, ⟨1, 1⟩⟩], 2⟩ 2
      = some (⟨[⟨⟨0, 0⟩, ⟨0, 0⟩, true, 0, 0, ⟨10, 10⟩⟩, ⟨⟨1, 1⟩, ⟨0, 0⟩, false, 7, 5, ⟨1, 1⟩⟩,
        ⟨⟨2, 2⟩, ⟨0, 0⟩, false, 7, 5, ⟨1, 1⟩⟩, ⟨⟨3, 3⟩, ⟨0, 0⟩, false, 7, 5, ⟨1, 1⟩⟩,
        ⟨⟨4, 4⟩, ⟨0, 0⟩, false, 7, 5, ⟨1, 1⟩⟩, ⟨⟨5, 5⟩, ⟨0, 0⟩, false, 7, 5, ⟨1, 1⟩⟩], 3⟩,
        ⟨0, 0⟩) := by
    simp [pusherStep, updateJob, chooseJob, available, availableLoop, teammateOn,
      range_PCOUNT, hf0]
  simp only [decideLoop, s0, s1, s2]

theorem initialControl_idle {K : Type} (init : Nat → Pusher K) (i : Nat) (p : Pusher K)
    (h : (initialControl init).pList[i]? = some p) : p.busy = false := by
  simp only [initialControl, List.getElem?_map, Option.map_eq_some'] at h
  obtain ⟨a, _, ha⟩ := h
  rw [← ha]

theorem initialControl_length {K : Type} (init : Nat → Pusher K) :
    (initialControl init).pList.length = 2 * PCOUNT := by
  simp [initialControl]

theorem initialControl_distinct {K : Type} (init : Nat → Pusher K) :
    DistinctJobs (initialControl init) := by
  intro i j _ _ _ pi pj hpi _ hbi _
  rw [initialControl_idle init i pi hpi] at hbi
  exact absurd hbi (by simp)

/-- Reading a snapshot keeps the jobs distinct. -/
theorem readPushers_distinct {K : Type} (snap : List (Vector2D K × Vector2D K))
    (c : Control K) (hd : DistinctJobs c) :
    DistinctJobs ⟨readPushers snap c.pList, c.cur⟩ := by
  intro i j hi hj hij pi pj hpi hpj hbi hbj
  obtain ⟨qi, hqi, hbi2, hmi⟩ := readPushers_getElem?_inv snap c.pList i pi hpi
  obtain ⟨qj, hqj, hbj2, hmj⟩ := readPushers_getElem?_inv snap c.pList j pj hpj
  rw [hmi, hmj]
  exact hd i j hi hj hij qi qj hqi hqj (by rw [← hbi2]; exact hbi) (by rw [← hbj2]; exact hbj)

theorem runTurns_distinct {K : Type} [LinearOrderedField K] (sqrt : K → K)
    (draws : Nat → Nat) (turns : List (List (Vector2D K × Vector2D K) × List (Marker K)))
    (c c2 : Control K) (h : runTurns sqrt draws turns c = some c2) (hd : DistinctJobs c) :
    DistinctJobs c2 := by
  induction turns generalizing c with
  | nil =>
    simp only [runTurns, Option.some.injEq] at h
    rw [← h]; exact hd
  | cons turn rest ih =>
    unfold runTurns at h
    cases ht : tick sqrt draws turn.1 turn.2 c with
    | none => simp [ht] at h
    | some r =>
      obtain ⟨c1, fs⟩ := r
      simp only [ht] at h
      unfold tick at ht
      exact ih c1 h (decideLoop_distinct sqrt draws turn.2 _ _ c1 fs ht
        (readPushers_distinct turn.1 c hd))

/-- The in-bounds invariant only looks at the length of the marker list. -/
theorem wellFormed_of_length {K : Type} (mList mList2 : List (Marker K)) (c : Control K)
    (h : WellFormed mList c) (hlen : mList2.length = mList.length) :
    WellFormed mList2 c := by
  obtain ⟨h1, h2, h3⟩ := h
  refine ⟨h1, ?_, ?_⟩
  · intro he
    rw [he] at hlen
    exact h2 (List.length_eq_zero.1 hlen.symm)
  · intro j hj q hq hb
    rw [hlen]
    exact h3 j hj q hq hb

theorem initialControl_wellFormed {K : Type} (init : Nat → Pusher K)
    (mList : List (Marker K)) (hm : mList ≠ []) : WellFormed mList (initialControl init) :=
  ⟨initialControl_length init, hm, fun j _ q hq =>
    jobInRange_idle mList q (initialControl_idle init j q hq)⟩

/-- With marker lists of one fixed positive length, the turns run from a well-formed
state all return, and the state stays well-formed. -/
theorem runTurns_total {K : Type} [LinearOrderedField K] (sqrt : K → K)
    (draws : Nat → Nat) (mList0 : List (Marker K))
    (turns : List (List (Vector2D K × Vector2D K) × List (Marker K))) (c : Control K)
    (hwf : WellFormed mList0 c) (hlen : ∀ t ∈ turns, t.2.length = mList0.length) :
    ∃ c2, runTurns sqrt draws turns c = some c2 ∧ WellFormed mList0 c2 := by
  induction turns generalizing c with
  | nil => exact ⟨c, rfl, hwf⟩
  | cons turn rest ih =>
    have hl := hlen turn (List.mem_cons_self _ _)
    have hwf1 : WellFormed turn.2 c := wellFormed_of_length mList0 turn.2 c hwf hl
    have h0 : 0 < c.pList.length := by rw [hwf.1]; decide
    obtain ⟨c1, fs, htick, hwf2, _⟩ :=
      tick_own sqrt draws turn.1 turn.2 c hwf1 0 (by decide) c.pList[0]
        (List.getElem?_eq_getElem h0)
    obtain ⟨c2, hrun, hwf3⟩ := ih c1 (wellFormed_of_length turn.2 mList0 c1 hwf2 hl.symm)
      (fun t ht => hlen t (List.mem_cons_of_mem _ ht))
    exact ⟨c2, by simp only [runTurns, htick, hrun], hwf3⟩

end Invariants

/-! ## The claims about jobs within a turn and across turns -/

section TurnClaims

/-- C12, as stated, fails.  All own pushers idle at the start of the turn, no pusher busy
on marker 0, one marker, every call of `rand()` returning 0, so pushers 0 and 1 both draw
index 0: the turn ends with pusher 0 busy on marker 0 (`jobTime = 0`) and pusher 1 still
idle.  The job pusher 0 claimed in this turn was visible to pusher 1. -/
theorem same_turn_claim_counterexample :
    (∀ (i : Nat) (q : Pusher ℝ),
      (initialControl (fun _ => (⟨⟨0, 0⟩, ⟨0, 0⟩, true, 7, 5, ⟨1, 1⟩⟩ : Pusher ℝ))).pList[i]?
        = some q → q.busy = false) ∧
    (∀ n : Nat, (fun _ : Nat => 0) n % [(⟨⟨10, 0⟩, ⟨0, 0⟩, 1⟩ : Marker ℝ)].length = 0) ∧
    ∃ c2 fs p0 p1,
      tick Real.sqrt (fun _ => 0)
        [(⟨0, 0⟩, ⟨0, 0⟩), (⟨1, 1⟩, ⟨0, 0⟩), (⟨2, 2⟩, ⟨0, 0⟩), (⟨3, 3⟩, ⟨0, 0⟩),
          (⟨4, 4⟩, ⟨0, 0⟩), (⟨5, 5⟩, ⟨0, 0⟩)]
        [⟨⟨10, 0⟩, ⟨0, 0⟩, 1⟩]
        (initialControl (fun _ => ⟨⟨0, 0⟩, ⟨0, 0⟩, true, 7, 5, ⟨1, 1⟩⟩)) = some (c2, fs) ∧
      c2.pList[0]? = some p0 ∧ p0.busy = true ∧ p0.mdex = 0 ∧ p0.jobTime = 0 ∧
      c2.pList[1]? = some p1 ∧ p1.busy = false := by
  refine ⟨fun i q h => initialControl_idle _ i q h, fun n => by simp, ?_⟩
  exact ⟨_, _, _, _, tick_example, rfl, rfl, rfl, rfl, rfl, rfl⟩

/-- C12, amended: the teammate check reads the vector `pList` as it stands when the
check runs, so a job claimed earlier in the same turn by a lower-index pusher is visible
to a later pusher.  For own pushers `i < j` with `j` idle at the start of the turn, the
turn returns and `i` and `j` are not both busy with the same marker at its end: `j`
never accepts in this turn a marker that `i` holds at that moment. -/
theorem same_turn_claim_visible (draws : Nat → Nat)
    (snap : List (Vector2D ℝ × Vector2D ℝ)) (mList : List (Marker ℝ)) (c : Control ℝ)
    (hwf : WellFormed mList c) (i j : Nat) (hij : i < j) (hj : j < PCOUNT)
    (pj : Pusher ℝ) (hpj : c.pList[j]? = some pj) (hidle : pj.busy = false) :
    ∃ c2 fs, tick Real.sqrt draws snap mList c = some (c2, fs) ∧
      ∀ pi2 pj2, c2.pList[i]? = some pi2 → c2.pList[j]? = some pj2 →
        ¬ (pi2.busy = true ∧ pj2.busy = true ∧ pi2.mdex = pj2.mdex) := by
  obtain ⟨c2, fs, htick, _, _⟩ := tick_own Real.sqrt draws snap mList c hwf j hj pj hpj
  refine ⟨c2, fs, htick, ?_⟩
  obtain ⟨pv, hpv⟩ := readPushers_getElem? snap c.pList j pj hpj
  have hi : i < PCOUNT := lt_trans hij hj
  have hsplit : ∃ pre post, List.range PCOUNT = pre ++ post ∧ j ∉ pre ∧ j ∈ post ∧
      i ∉ post ∧ post.Nodup := by
    have hj3 : j < 3 := hj
    interval_cases j
    · omega
    · exact ⟨[0], [1, 2], by decide, by decide, by decide, by
        have : i = 0 := by omega
        subst this; decide, by decide⟩
    · exact ⟨[0, 1], [2], by decide, by decide, by decide, by
        simp only [List.mem_singleton]; omega, by decide⟩
  obtain ⟨pre, post, hrange, hjpre, hjpost, hipost, hnd⟩ := hsplit
  unfold tick at htick
  rw [hrange] at htick
  obtain ⟨c1, fs1, fs2, h1, h2⟩ :=
    decideLoop_append_inv Real.sqrt draws mList pre post _ c2 fs htick
  have hj1 : c1.pList[j]? = some { pj with pos := pv.1, vel := pv.2 } := by
    rw [decideLoop_frame Real.sqrt draws mList pre _ c1 fs1 h1 j hjpre]
    exact hpv
  intro pi2 pj2 hpi2 hpj2
  exact decideLoop_fresh Real.sqrt draws mList post c1 c2 fs2 h2 hnd j hjpost _ hj1 hidle
    i hi (ne_of_lt hij) hipost pi2 pj2 hpi2 hpj2

theorem same_turn_claim_visible_witness :
    ∃ c2 fs, tick Real.sqrt (fun _ => 0)
        [(⟨0, 0⟩, ⟨0, 0⟩), (⟨1, 1⟩, ⟨0, 0⟩), (⟨2, 2⟩, ⟨0, 0⟩), (⟨3, 3⟩, ⟨0, 0⟩),
          (⟨4, 4⟩, ⟨0, 0⟩), (⟨5, 5⟩, ⟨0, 0⟩)]
        [⟨⟨10, 0⟩, ⟨0, 0⟩, 1⟩]
        (initialControl (fun _ => ⟨⟨0, 0⟩, ⟨0, 0⟩, true, 7, 5, ⟨1, 1⟩⟩)) = some (c2, fs) ∧
      ∀ pi2 pj2 : Pusher ℝ, c2.pList[0]? = some pi2 → c2.pList[1]? = some pj2 →
        ¬ (pi2.busy = true ∧ pj2.busy = true ∧ pi2.mdex = pj2.mdex) :=
  same_turn_claim_visible (fun _ => 0) _ [⟨⟨10, 0⟩, ⟨0, 0⟩, 1⟩]
    (initialControl (fun _ => ⟨⟨0, 0⟩, ⟨0, 0⟩, true, 7, 5, ⟨1, 1⟩⟩))
    (initialControl_wellFormed _ _ (by simp)) 0 1 (by decide) (by decide)
    ⟨⟨0, 0⟩, ⟨0, 0⟩, false, 7, 5, ⟨1, 1⟩⟩ rfl rfl

/-- C18: from the initial state, in which every pusher is idle, after any number of
turns that return, with arbitrary snapshots, marker lists and values of `rand()`, no two
distinct own pushers are busy with the same marker index; and the same holds after each
individual pusher's step of any following turn, that is after the loop has visited the
pushers `0 .. n-1` for any `n`. -/
theorem distinct_jobs_invariant (draws : Nat → Nat) (init : Nat → Pusher ℝ)
    (turns : List (List (Vector2D ℝ × Vector2D ℝ) × List (Marker ℝ))) (c : Control ℝ)
    (hrun : runTurns Real.sqrt draws turns (initialControl init) = some c) :
    DistinctJobs c ∧
    ∀ (snap : List (Vector2D ℝ × Vector2D ℝ)) (mList : List (Marker ℝ)) (n : Nat)
      (c2 : Control ℝ) (fs : List (Vector2D ℝ)),
      decideLoop Real.sqrt draws mList (List.range n) ⟨readPushers snap c.pList, c.cur⟩
        = some (c2, fs) → DistinctJobs c2 := by
  have hd : DistinctJobs c :=
    runTurns_distinct Real.sqrt draws turns _ c hrun (initialControl_distinct init)
  exact ⟨hd, fun snap mList n c2 fs h =>
    decideLoop_distinct Real.sqrt draws mList _ _ c2 fs h (readPushers_distinct snap c hd)⟩

theorem distinct_jobs_invariant_witness :
    runTurns Real.sqrt (fun _ => 0)
      [([(⟨0, 0⟩, ⟨0, 0⟩), (⟨1, 1⟩, ⟨0, 0⟩), (⟨2, 2⟩, ⟨0, 0⟩), (⟨3, 3⟩, ⟨0, 0⟩),
          (⟨4, 4⟩, ⟨0, 0⟩), (⟨5, 5⟩, ⟨0, 0⟩)], [⟨⟨10, 0⟩, ⟨0, 0⟩, 1⟩])]
      (initialControl (fun _ => ⟨⟨0, 0⟩, ⟨0, 0⟩, true, 7, 5, ⟨1, 1⟩⟩))
    = some ⟨[⟨⟨0, 0⟩, ⟨0, 0⟩, true, 0, 0, ⟨10, 10⟩⟩, ⟨⟨1, 1⟩, ⟨0, 0⟩, false, 7, 5, ⟨1, 1⟩⟩,
        ⟨⟨2, 2⟩, ⟨0, 0⟩, false, 7, 5, ⟨1, 1⟩⟩, ⟨⟨3, 3⟩, ⟨0, 0⟩, false, 7, 5, ⟨1, 1⟩⟩,
        ⟨⟨4, 4⟩, ⟨0, 0⟩, false, 7, 5, ⟨1, 1⟩⟩, ⟨⟨5, 5⟩, ⟨0, 0⟩, false, 7, 5, ⟨1, 1⟩⟩], 3⟩ ∧
    DistinctJobs (⟨[⟨⟨0, 0⟩, ⟨0, 0⟩, true, 0, 0, ⟨10, 10⟩⟩,
        ⟨⟨1, 1⟩, ⟨0, 0⟩, false, 7, 5, ⟨1, 1⟩⟩,
        ⟨⟨2, 2⟩, ⟨0, 0⟩, false, 7, 5, ⟨1, 1⟩⟩, ⟨⟨3, 3⟩, ⟨0, 0⟩, false, 7, 5, ⟨1, 1⟩⟩,
        ⟨⟨4, 4⟩, ⟨0, 0⟩, false, 7, 5, ⟨1, 1⟩⟩, ⟨⟨5, 5⟩, ⟨0, 0⟩, false, 7, 5, ⟨1, 1⟩⟩], 3⟩ :
          Control ℝ) := by
  have hrun : runTurns Real.sqrt (fun _ => 0)
      [([(⟨0, 0⟩, ⟨0, 0⟩), (⟨1, 1⟩, ⟨0, 0⟩), (⟨2, 2⟩, ⟨0, 0⟩), (⟨3, 3⟩, ⟨0, 0⟩),
          (⟨4, 4⟩, ⟨0, 0⟩), (⟨5, 5⟩, ⟨0, 0⟩)], [⟨⟨10, 0⟩, ⟨0, 0⟩, 1⟩])]
      (initialControl (fun _ => ⟨⟨0, 0⟩, ⟨0, 0⟩, true, 7, 5, ⟨1, 1⟩⟩))
      = some ⟨[⟨⟨0, 0⟩, ⟨0, 0⟩, true, 0, 0, ⟨10, 10⟩⟩, ⟨⟨1, 1⟩, ⟨0, 0⟩, false, 7, 5, ⟨1, 1⟩⟩,
        ⟨⟨2, 2⟩, ⟨0, 0⟩, false, 7, 5, ⟨1, 1⟩⟩, ⟨⟨3, 3⟩, ⟨0, 0⟩, false, 7, 5, ⟨1, 1⟩⟩,
        ⟨⟨4, 4⟩, ⟨0, 0⟩, false, 7, 5, ⟨1, 1⟩⟩, ⟨⟨5, 5⟩, ⟨0, 0⟩, false, 7, 5, ⟨1, 1⟩⟩], 3⟩ := by
    simp only [runTurns, tick_example]
  exact ⟨hrun, (distinct_jobs_invariant (fun _ => 0) _ _ _ hrun).1⟩

/-- C19: when the marker list has the same length `n >= 1` on every turn (and `rand()`
returns non-negative values), the turns all return from the initial state: no access
`mList[ ... ]` falls outside the list and `rand() % mList.size()` never divides by zero;
the vector `pList` keeps its `2 * PCOUNT` entries and in the state reached every busy
own pusher has `0 <= mdex < n`. -/
theorem marker_indices_in_bounds (draws : Nat → Nat) (init : Nat → Pusher ℝ) (n : Nat)
    (turns : List (List (Vector2D ℝ × Vector2D ℝ) × List (Marker ℝ)))
    (hn : 1 ≤ n) (hlen : ∀ t ∈ turns, t.2.length = n) :
    ∃ c, runTurns Real.sqrt draws turns (initialControl init) = some c ∧
      c.pList.length = 2 * PCOUNT ∧
      ∀ j, j < PCOUNT → ∀ q, c.pList[j]? = some q → q.busy = true →
        0 ≤ q.mdex ∧ q.mdex < (n : Int) := by
  have hm0 : (List.replicate n (⟨⟨0, 0⟩, ⟨0, 0⟩, 0⟩ : Marker ℝ)) ≠ [] := by
    intro he
    have := congrArg List.length he
    simp only [List.length_replicate, List.length_nil] at this
    omega
  obtain ⟨c, hrun, hwf⟩ := runTurns_total Real.sqrt draws
    (List.replicate n (⟨⟨0, 0⟩, ⟨0, 0⟩, 0⟩ : Marker ℝ)) turns (initialControl init)
    (initialControl_wellFormed init _ hm0)
    (fun t ht => by rw [hlen t ht, List.length_replicate])
  refine ⟨c, hrun, hwf.1, fun j hj q hq hb => ?_⟩
  have := hwf.2.2 j hj q hq hb
  rw [List.length_replicate] at this
  exact this

theorem marker_indices_in_bounds_witness :
    (1 ≤ 1) ∧ ∃ c : Control ℝ, runTurns Real.sqrt (fun _ => 0)
      [([(⟨0, 0⟩, ⟨0, 0⟩), (⟨1, 1⟩, ⟨0, 0⟩)], [⟨⟨10, 0⟩, ⟨0, 0⟩, 1⟩]),
        ([], [⟨⟨30, 40⟩, ⟨0, 0⟩, 0⟩])]
      (initialControl (fun _ => ⟨⟨0, 0⟩, ⟨0, 0⟩, true, 7, 5, ⟨1, 1⟩⟩)) = some c ∧
      c.pList.length = 2 * PCOUNT := by
  obtain ⟨c, h1, h2, _⟩ := marker_indices_in_bounds (fun _ => 0)
    (fun _ => ⟨⟨0, 0⟩, ⟨0, 0⟩, true, 7, 5, ⟨1, 1⟩⟩) 1
    [([(⟨0, 0⟩, ⟨0, 0⟩), (⟨1, 1⟩, ⟨0, 0⟩)], [⟨⟨10, 0⟩, ⟨0, 0⟩, 1⟩]),
      ([], [⟨⟨30, 40⟩, ⟨0, 0⟩, 0⟩])]
    (le_refl 1) (by
      intro t ht
      simp only [List.mem_cons, List.mem_singleton, List.not_mem_nil, or_false] at ht
      rcases ht with rfl | rfl <;> rfl)
  exact ⟨le_refl 1, c, h1, h2⟩

end TurnClaims

end Gather
